import Mathlib

/-! Verification of slice2freezej: option processing, validation and generated classes.

A shallow embedding of `cpp/src/slice2freezej/Main.cpp`:

* the option records `DictIndex`, `Dict`, `Index` (lines 58-89);
* `typeToObjectString`, `varToObject`, `objectToVar` (lines 125-264);
* `FreezeGenerator::generate(UnitPtr&, const Dict&)`: the checks of lines
  267-432 (`generate`) and what is handed to the output from line 434 on
  (`writeClass`);
* `FreezeGenerator::generate(UnitPtr&, const Index&)` (lines 1265-1412), as
  `generateIndex`;
* the `--dict`, `--index`, `--dict-index` processing of `compile` and its
  generation loop (lines 1548-1775 and 1926-2015).

`std::string` is `String`; a `throw os.str()` is `Except.error (Failure.thrown msg)`.
The Slice parser library (`Slice::Unit`, `Slice::Type`, `Dictionary::legalKeyType`,
`typeToString`, `usesClasses`, `writeMarshalUnmarshalCode`) and
`IceUtilInternal::removeWhitespace` are not part of this program: the types
are described by the inductive `TypePtr`, the functions are taken as
parameters (`UnitPtr`, `Library`, `Emitter`).  The classes of the Freeze run
time that the generated class extends are modelled from the spec
(`IndexedMap`), and so are the streams of the run time and the records that
the generated `encode` and `decode` methods write and read (`Codec`).
-/

namespace Slice2FreezeJ

/-! ## Option records (lines 58-89) -/

/-- One `--dict-index` entry (lines 58-72). -/
structure DictIndex where
  member : String
  caseSensitive : Bool
deriving Repr, DecidableEq

/-- Embeds `DictIndex::operator==` (lines 63-66). -/
def DictIndex.eq (lhs rhs : DictIndex) : Bool :=
  lhs.member == rhs.member

/-- Embeds `DictIndex::operator!=` (lines 68-71). -/
def DictIndex.ne (lhs rhs : DictIndex) : Bool :=
  lhs.member != rhs.member

/-- One `--dict` entry together with its indices (lines 74-81). -/
structure Dict where
  name : String
  key : String
  value : String
  indices : List DictIndex
deriving Repr, DecidableEq

/-- One `--index` entry (lines 83-89). -/
structure Index where
  name : String
  type : String
  member : String
  caseSensitive : Bool
deriving Repr, DecidableEq

/-! ## The Slice types seen by the generator -/

/-- The kinds of `Slice::Builtin`, as enumerated by the switches at lines 162-205. -/
inductive Kind
  | KindByte
  | KindBool
  | KindShort
  | KindInt
  | KindLong
  | KindFloat
  | KindDouble
  | KindString
  | KindObject
  | KindObjectProxy
  | KindLocalObject
  | KindValue
deriving Repr, DecidableEq

/-- A `Slice::TypePtr` as far as the generator inspects it through `dynamicCast`.
A data member is a pair of its `name()` and its `type()`.  For a class
declaration `definition` is `definition()->allDataMembers()`, and `none` when
`definition()` is null (a class that is declared but never defined). -/
inductive TypePtr
  | builtin (kind : Kind)
  | classDecl (name : String) (definition : Option (List (String × TypePtr)))
  | struct (name : String) (dataMembers : List (String × TypePtr))
  | sequence (name : String) (type : TypePtr)
  | dictionary (name : String) (keyType valueType : TypePtr)
  | enum (name : String)
  | proxy (name : String)

/-- A `DataMemberPtr`: `name()` and `type()`. -/
abbrev DataMember := String × TypePtr

/-- The parsed unit: `lookupType(name, false)` (lines 283, 292). -/
structure UnitPtr where
  lookupType : String → List TypePtr

/-- Library functions used by the program but defined outside it.
`legalKeyType t` is the pair (return value, `containsSequence` after the call)
of `Dictionary::legalKeyType(t, containsSequence)` entered with
`containsSequence = false`. -/
structure Library where
  removeWhitespace : String → String
  legalKeyType : TypePtr → Bool × Bool

/-- How a run of `generate` ends when it does not reach the output stage. -/
inductive Failure
  | thrown (msg : String)
  | nullDefinition
deriving Repr, DecidableEq

/-- Tests `b != 0 && b->kind() == Builtin::KindString` (negated at lines 343, 417). -/
def isBuiltinString : TypePtr → Bool
  | .builtin .KindString => true
  | _ => false

/-! ## `FreezeGenerator::generate(UnitPtr&, const Dict&)`, lines 267-432 -/

namespace FreezeGenerator

/-- Message thrown at lines 287 and 296. -/
def notAValidType (type : String) : String :=
  "\x60" ++ type ++ "\x27 is not a valid type\n"

/-- Message thrown at line 320. -/
def badIndex (dictName : String) : String :=
  "bad index for dictionary \x60" ++ dictName ++ "\x27\n"

/-- Message thrown at line 328. -/
def notAValidIndexType (value : String) : String :=
  "\x60" ++ value ++ "\x27 is not a valid index type\n"

/-- Message thrown at line 346. -/
def valueNotAString (value : String) : String :=
  "VALUE is a \x60" ++ value ++ "\x27, not a string\n"

/-- Message thrown at line 371. -/
def neitherClassNorStruct (value : String) : String :=
  "\x60" ++ value ++ "\x27 is neither a class nor a struct\n"

/-- Message thrown at line 393. -/
def noDataMember (dictName member : String) : String :=
  "The value of \x60" ++ dictName ++ "\x27 has no data member named \x60" ++ member ++ "\x27\n"

/-- Message thrown at line 403. -/
def cannotBeIndexKey (member : String) : String :=
  "\x60" ++ member ++ "\x27 cannot be used as an index key\n"

/-- Message thrown at line 420. -/
def memberNotAString (member : String) : String :=
  "\x60" ++ member ++ "\x27 is not a string\n"

/-- Warning written to the console at lines 333 and 408. -/
def sequenceWarning (prog : String) : String :=
  prog ++ ": warning: use of sequences in dictionary keys has been deprecated\n"

/-- The four vectors filled by the loop of lines 306-432, and the warnings
written to the console on the way (those of a run that throws later are not
kept: a failed run is described by its failure alone). -/
structure IndexVectors where
  indexTypes : List TypePtr
  members : List String
  capitalizedMembers : List String
  indexNames : List String
  warnings : List String

/-- The vectors as declared at lines 301-304. -/
def IndexVectors.empty : IndexVectors :=
  ⟨[], [], [], [], []⟩

/-- Lines 357-375: the data members against which a member index is resolved. -/
def valueDataMembers (dict : Dict) : TypePtr → Except Failure (List DataMember)
  | .classDecl _ (some allDataMembers) => .ok allDataMembers
  | .classDecl _ none => .error .nullDefinition
  | .struct _ dataMembers => .ok dataMembers
  | _ => .error (.thrown (neitherClassNorStruct dict.value))

/-- Lines 377-388: the first data member whose name is `member`. -/
def findDataMember (member : String) : List DataMember → Option DataMember
  | [] => none
  | q :: rest => if q.1 = member then some q else findDataMember member rest

/-- Lines 427-428: `capitalizedMember[0] = toupper(capitalizedMember[0])`. -/
def capitalize (member : String) : String :=
  match member.data with
  | [] => member
  | c :: cs => String.mk (c.toUpper :: cs)

/-- The body of the loop over `dict.indices` (lines 308-431). -/
def indexStep (lib : Library) (prog : String) (dict : Dict) (valueType : TypePtr)
    (index : DictIndex) (st : IndexVectors) : Except Failure IndexVectors :=
  if index.member = "" then
    if dict.indices.length > 1 then
      .error (.thrown (badIndex dict.name))
    else if (lib.legalKeyType valueType).1 = false then
      .error (.thrown (notAValidIndexType dict.value))
    else if index.caseSensitive = false ∧ isBuiltinString valueType = false then
      .error (.thrown (valueNotAString dict.value))
    else
      .ok { indexTypes := st.indexTypes ++ [valueType]
            members := st.members ++ ["value"]
            capitalizedMembers := st.capitalizedMembers ++ ["Value"]
            indexNames := st.indexNames ++ ["index"]
            warnings := if (lib.legalKeyType valueType).2 then st.warnings ++ [sequenceWarning prog]
                        else st.warnings }
  else
    match valueDataMembers dict valueType with
    | .error e => .error e
    | .ok dataMembers =>
      match findDataMember index.member dataMembers with
      | none => .error (.thrown (noDataMember dict.name index.member))
      | some dataMember =>
        if (lib.legalKeyType dataMember.2).1 = false then
          .error (.thrown (cannotBeIndexKey index.member))
        else if index.caseSensitive = false ∧ isBuiltinString dataMember.2 = false then
          .error (.thrown (memberNotAString index.member))
        else
          .ok { indexTypes := st.indexTypes ++ [dataMember.2]
                members := st.members ++ [index.member]
                capitalizedMembers := st.capitalizedMembers ++ [capitalize index.member]
                indexNames := st.indexNames ++ [index.member]
                warnings := if (lib.legalKeyType dataMember.2).2 then st.warnings ++ [sequenceWarning prog]
                            else st.warnings }

/-- The loop `for(size_t i = 0; i < dict.indices.size(); ++i)` of lines 306-432,
run over the indices that remain. -/
def indexLoop (lib : Library) (prog : String) (dict : Dict) (valueType : TypePtr) :
    List DictIndex → IndexVectors → Except Failure IndexVectors
  | [], st => .ok st
  | index :: rest, st =>
    match indexStep lib prog dict valueType index st with
    | .error e => .error e
    | .ok st1 => indexLoop lib prog dict valueType rest st1

/-- Lines 272-281: the dictionary name without its package. -/
def unqualified (dictName : String) : String :=
  String.mk (dictName.data.reverse.takeWhile (fun c => c ≠ '.')).reverse

/-- What `generate` holds when it reaches `open(dict.name, ...)` at line 434:
from here on the class is written to the output file. -/
structure Checked where
  name : String
  keyType : TypePtr
  valueType : TypePtr
  vectors : IndexVectors

/-- Lines 267-432 of `FreezeGenerator::generate(UnitPtr&, const Dict&)`: every
statement before the output file is opened.  `prog` is `_prog`. -/
def generate (lib : Library) (prog : String) (u : UnitPtr) (dict : Dict) :
    Except Failure Checked :=
  match u.lookupType dict.key with
  | [] => .error (.thrown (notAValidType dict.key))
  | keyType :: _ =>
    match u.lookupType dict.value with
    | [] => .error (.thrown (notAValidType dict.value))
    | valueType :: _ =>
      match indexLoop lib prog dict valueType dict.indices IndexVectors.empty with
      | .error e => .error e
      | .ok vectors => .ok ⟨unqualified dict.name, keyType, valueType, vectors⟩

end FreezeGenerator

/-! ## `compile`, lines 1464-2016 -/

/-- How `compile` ends: `return EXIT_SUCCESS`, `return EXIT_FAILURE` after the
given text was written to `consoleErr` (the text of `usage` left out), or no
return at all when `generate` dereferenced a null class definition. -/
inductive Exit
  | success
  | failure (console : String)
  | aborted
deriving Repr, DecidableEq

/-- The options as returned by `opts.parse` (lines 1467-1546, 1777-1787). -/
structure Options where
  help : Bool
  version : Bool
  validate : Bool
  preprocess : Bool
  depend : Bool
  dependxml : Bool
  dict : List String
  index : List String
  dictIndex : List String

/-- Result of the loop over the Slice files (lines 1835-1912), which preprocesses
and parses them: either one of its `return EXIT_FAILURE`, or the unit `u` with
the last `status`, and the value of `interrupted` read at line 2008. -/
inductive FrontEnd
  | failed
  | parsed (u : UnitPtr) (statusOk : Bool) (interrupted : Bool)

/-- The parts of the generator that write files: the remainder of
`generate(UnitPtr&, const Dict&)` from line 434 on, and
`generate(UnitPtr&, const Index&)`; an error is the caught message. -/
structure BackEnd where
  emitDict : FreezeGenerator.Checked → Except String Unit
  generateIndex : UnitPtr → Index → Except Failure Unit

/-- The idiom `pos = s.find(','); if(pos != npos) { x = s.substr(0, pos); s.erase(0, pos + 1); }`
on the characters of `s`: the text before the first comma and the text after it. -/
def cutAtComma : List Char → Option (List Char × List Char)
  | [] => none
  | c :: cs =>
    if c = ',' then some ([], cs)
    else match cutAtComma cs with
      | none => none
      | some (front, back) => some (c :: front, back)

/-- The same on strings. -/
def cut (s : String) : Option (String × String) :=
  match cutAtComma s.data with
  | none => none
  | some (front, back) => some (String.mk front, String.mk back)

/-- Console line of lines 1573, 1583, 1593, 1641, 1651, 1661, 1728, 1767. -/
def errorLine (argv0 arg what : String) : String :=
  argv0 ++ ": error: " ++ arg ++ ": " ++ what ++ "\n"

/-- Console line of lines 1671-1672 and 1738-1739. -/
def caseError (argv0 arg : String) : String :=
  argv0 ++ ": error: " ++ arg ++ ": the case can be \x60case-sensitive\x27 or \x60case-insensitive\x27\n"

/-- Console line of lines 1755-1756. -/
def definedTwice (argv0 arg : String) : String :=
  argv0 ++ ": error: --dict-index " ++ arg ++ ": this dict-index is defined twice\n"

/-- Console line of the `catch(const string& ex)` handlers (lines 1947, 1980). -/
def caught (argv0 ex : String) : String :=
  argv0 ++ ": error: " ++ ex ++ "\n"

/-- Body of the `--dict` loop (lines 1552-1601). -/
def parseDict (lib : Library) (argv0 arg : String) : Except String Dict :=
  let s := lib.removeWhitespace arg
  let (name, s1) := match cut s with
    | some (front, back) => (front, back)
    | none => ("", s)
  let (key, s2) := match cut s1 with
    | some (front, back) => (front, back)
    | none => ("", s1)
  let value := s2
  if name = "" then .error (errorLine argv0 arg "no name specified")
  else if key = "" then .error (errorLine argv0 arg "no key specified")
  else if value = "" then .error (errorLine argv0 arg "no value specified")
  else .ok ⟨name, key, value, []⟩

/-- The `--dict` loop (lines 1548-1602): `dicts.push_back(dict)` per argument. -/
def parseDicts (lib : Library) (argv0 : String) : List String → List Dict → Except String (List Dict)
  | [], dicts => .ok dicts
  | arg :: rest, dicts =>
    match parseDict lib argv0 arg with
    | .error m => .error m
    | .ok dict => parseDicts lib argv0 rest (dicts ++ [dict])

/-- Body of the `--index` loop (lines 1608-1681). -/
def parseIndex (lib : Library) (argv0 arg : String) : Except String Index :=
  let s := lib.removeWhitespace arg
  let (name, s1) := match cut s with
    | some (front, back) => (front, back)
    | none => ("", s)
  let (type, s2) := match cut s1 with
    | some (front, back) => (front, back)
    | none => ("", s1)
  let (member, caseString) := match cut s2 with
    | some (front, back) => (front, back)
    | none => (s2, "case-sensitive")
  if name = "" then .error (errorLine argv0 arg "no name specified")
  else if type = "" then .error (errorLine argv0 arg "no type specified")
  else if member = "" then .error (errorLine argv0 arg "no member specified")
  else if caseString ≠ "case-sensitive" ∧ caseString ≠ "case-insensitive" then
    .error (caseError argv0 arg)
  else .ok ⟨name, type, member, decide (caseString = "case-sensitive")⟩

/-- The `--index` loop (lines 1604-1682). -/
def parseIndices (lib : Library) (argv0 : String) : List String → List Index → Except String (List Index)
  | [], indices => .ok indices
  | arg :: rest, indices =>
    match parseIndex lib argv0 arg with
    | .error m => .error m
    | .ok index => parseIndices lib argv0 rest (indices ++ [index])

/-- Lines 1689-1746: the dictionary name and the index named by one `--dict-index` argument. -/
def parseDictIndex (lib : Library) (argv0 arg : String) : Except String (String × DictIndex) :=
  let s := lib.removeWhitespace arg
  let (dictName, member, caseString) := match cut s with
    | some (front, s1) =>
      match cut s1 with
      | some (m, s2) => (front, m, s2)
      | none =>
        if s1 = "case-sensitive" ∨ s1 = "case-insensitive" then (front, "", s1)
        else (front, s1, "case-sensitive")
    | none => (s, "", "case-sensitive")
  if dictName = "" then .error (errorLine argv0 arg "no dictionary specified")
  else if caseString ≠ "case-sensitive" ∧ caseString ≠ "case-insensitive" then
    .error (caseError argv0 arg)
  else .ok (dictName, ⟨member, decide (caseString = "case-sensitive")⟩)

/-- Lines 1748-1773: the first dictionary called `dictName` receives `index`,
unless `std::find` meets an index equal to it by `operator==`. -/
def addIndex (argv0 arg dictName : String) (index : DictIndex) : List Dict → Except String (List Dict)
  | [] => .error (errorLine argv0 arg "unknown dictionary")
  | p :: rest =>
    if p.name = dictName then
      if p.indices.any (fun x => x.eq index) then .error (definedTwice argv0 arg)
      else .ok ({ p with indices := p.indices ++ [index] } :: rest)
    else
      match addIndex argv0 arg dictName index rest with
      | .error m => .error m
      | .ok rest1 => .ok (p :: rest1)

/-- Body of the `--dict-index` loop (lines 1689-1773). -/
def dictIndexStep (lib : Library) (argv0 arg : String) (dicts : List Dict) : Except String (List Dict) :=
  match parseDictIndex lib argv0 arg with
  | .error m => .error m
  | .ok (dictName, index) => addIndex argv0 arg dictName index dicts

/-- The `--dict-index` loop (lines 1684-1775). -/
def parseDictIndices (lib : Library) (argv0 : String) : List String → List Dict → Except String (List Dict)
  | [], dicts => .ok dicts
  | arg :: rest, dicts =>
    match dictIndexStep lib argv0 arg dicts with
    | .error m => .error m
    | .ok dicts1 => parseDictIndices lib argv0 rest dicts1

/-- Lines 1548-1775: the dictionaries and evictor indices named by the options. -/
def processOptions (lib : Library) (argv0 : String) (opts : Options) :
    Except String (List Dict × List Index) :=
  match parseDicts lib argv0 opts.dict [] with
  | .error m => .error m
  | .ok dicts0 =>
    match parseIndices lib argv0 opts.index [] with
    | .error m => .error m
    | .ok indices =>
      match parseDictIndices lib argv0 opts.dictIndex dicts0 with
      | .error m => .error m
      | .ok dicts => .ok (dicts, indices)

/-- One `gen.generate(u, *p)` with its handlers (lines 1937-1965). -/
def generateDict (lib : Library) (back : BackEnd) (argv0 : String) (u : UnitPtr) (dict : Dict) : Exit :=
  match FreezeGenerator.generate lib argv0 u dict with
  | .error (.thrown ex) => .failure (caught argv0 ex)
  | .error .nullDefinition => .aborted
  | .ok checked =>
    match back.emitDict checked with
    | .error ex => .failure (caught argv0 ex)
    | .ok _ => .success

/-- The loop over `dicts` (lines 1935-1966). -/
def generateDicts (lib : Library) (back : BackEnd) (argv0 : String) (u : UnitPtr) : List Dict → Exit
  | [] => .success
  | p :: rest =>
    match generateDict lib back argv0 u p with
    | .success => generateDicts lib back argv0 u rest
    | e => e

/-- The loop over `indices` (lines 1968-1999). -/
def generateIndices (back : BackEnd) (argv0 : String) (u : UnitPtr) : List Index → Exit
  | [] => .success
  | q :: rest =>
    match back.generateIndex u q with
    | .error (.thrown ex) => .failure (caught argv0 ex)
    | .error .nullDefinition => .aborted
    | .ok _ => generateIndices back argv0 u rest

/-- Embeds `compile` (lines 1464-2016) after `opts.parse` has succeeded. -/
def compile (lib : Library) (back : BackEnd) (argv0 : String) (opts : Options) (front : FrontEnd) : Exit :=
  if opts.help then .success
  else if opts.version then .success
  else
    match processOptions lib argv0 opts with
    | .error m => .failure m
    | .ok (dicts, indices) =>
      if dicts.isEmpty ∧ indices.isEmpty ∧ ¬ (opts.depend ∨ opts.dependxml) then
        .failure (argv0 ++ ": error: no Freeze types specified\n")
      else if opts.depend ∧ opts.dependxml then
        .failure (argv0 ++ ": error: cannot specify both --depend and --depend-xml\n")
      else if opts.validate then .success
      else
        match front with
        | .failed => .failure ""
        | .parsed u statusOk interrupted =>
          if opts.depend ∨ opts.dependxml then .success
          else
            let generated :=
              if statusOk ∧ ¬ opts.preprocess then
                match generateDicts lib back argv0 u dicts with
                | .success => generateIndices back argv0 u indices
                | e => e
              else .success
            match generated with
            | .success =>
              if interrupted then .failure ""
              else if statusOk then .success
              else .failure ""
            | e => e

/-! ## Notions used to state the properties -/

/-- The projected type of an index on a dictionary whose value type is
`valueType`: the value type itself for a whole-value index (empty member),
and for a member index the type of the data member of that name. -/
def projectedType (dict : Dict) (valueType : TypePtr) (index : DictIndex) : Option TypePtr :=
  if index.member = "" then some valueType
  else
    match FreezeGenerator.valueDataMembers dict valueType with
    | .error _ => none
    | .ok dataMembers =>
      match FreezeGenerator.findDataMember index.member dataMembers with
      | none => none
      | some dataMember => some dataMember.2

/-- Every dictionary with an index is the first one of its name: the state in
which the `--dict-index` loop keeps `dicts`. -/
def FirstOfName (dicts : List Dict) : Prop :=
  dicts.Pairwise (fun p d => d.indices ≠ [] → p.name ≠ d.name)

/-! ## Sample inputs -/

/-- A key legality test in the manner of the Slice library: integral and
string builtins and enumerations are legal keys, no sequence is looked into. -/
def sampleLegalKeyType : TypePtr → Bool × Bool
  | .builtin .KindByte => (true, false)
  | .builtin .KindBool => (true, false)
  | .builtin .KindShort => (true, false)
  | .builtin .KindInt => (true, false)
  | .builtin .KindLong => (true, false)
  | .builtin .KindString => (true, false)
  | .enum _ => (true, false)
  | _ => (false, false)

/-- Drops blanks, tabs and line ends, as `removeWhitespace` does. -/
def sampleRemoveWhitespace (s : String) : String :=
  String.mk (s.data.filter (fun c => c ≠ ' ' ∧ c ≠ '\t' ∧ c ≠ '\n' ∧ c ≠ '\r'))

/-- The library used in the sample runs. -/
def sampleLibrary : Library :=
  ⟨sampleRemoveWhitespace, sampleLegalKeyType⟩

/-- A struct `Person { string name; int age; double weight; }`. -/
def personStruct : TypePtr :=
  .struct "Person" [("name", .builtin .KindString), ("age", .builtin .KindInt),
    ("weight", .builtin .KindDouble)]

/-- A class `Account` with the data members `owner : string` and `id : long`. -/
def accountClass : TypePtr :=
  .classDecl "Account" (some [("owner", .builtin .KindString), ("id", .builtin .KindLong)])

/-- A unit declaring `Person`, `Account` and the builtins `int`, `string`. -/
def sampleUnit : UnitPtr where
  lookupType := fun n =>
    if n = "Person" then [personStruct]
    else if n = "Account" then [accountClass]
    else if n = "int" then [.builtin .KindInt]
    else if n = "string" then [.builtin .KindString]
    else []

/-- A back end that writes every file without error. -/
def sampleBackEnd : BackEnd :=
  ⟨fun _ => .ok (), fun _ _ => .ok ()⟩

/-- Options holding only `--dict` and `--dict-index` arguments. -/
def sampleOptions (dict dictIndex : List String) : Options :=
  ⟨false, false, false, false, false, false, dict, [], dictIndex⟩

/-! ## The generated class: what is handed to the output (lines 434-1262) -/

/-- One thing handed to the `Output` stream `out`.  `nl parts` is a new line
followed by the inserted texts `parts` (`out << nl << a << b`), `sp`, `sb`,
`eb` are the separator, begin-of-block and end-of-block manipulators, and
`marshalCode` is a call of
`writeMarshalUnmarshalCode(out, "", type, OptionalNone, false, 0, param, marshal, iter, false, "", metaData, patchParams)`,
whose text comes from the Slice library. -/
inductive Item
  | sp
  | nl (parts : List String)
  | sb
  | eb
  | marshalCode (type : TypePtr) (param : String) (marshal : Bool) (patchParams : String)

/-- Functions of the Slice library that the output stage calls:
`typeToString(type, TypeModeIn)`, `type->usesClasses()` and `type->typeId()`. -/
structure Emitter where
  typeToString : TypePtr → String
  usesClasses : TypePtr → Bool
  typeId : TypePtr → String

/-- Position of a kind in the enumeration `Builtin::Kind`. -/
def Kind.toNat : Kind → Nat
  | .KindByte => 0
  | .KindBool => 1
  | .KindShort => 2
  | .KindInt => 3
  | .KindLong => 4
  | .KindFloat => 5
  | .KindDouble => 6
  | .KindString => 7
  | .KindObject => 8
  | .KindObjectProxy => 9
  | .KindLocalObject => 10
  | .KindValue => 11

namespace FreezeGenerator

/-- The table of lines 128-141. -/
def builtinTable : List String :=
  ["java.lang.Byte", "java.lang.Boolean", "java.lang.Short", "java.lang.Integer",
   "java.lang.Long", "java.lang.Float", "java.lang.Double", "java.lang.String",
   "Ice.Object", "Ice.ObjectPrx", "Ice.LocalObject"]

/-- Embeds `FreezeGenerator::typeToObjectString` (lines 125-152); `none` when
`builtinTable[b->kind()]` reads past the end of the table. -/
def typeToObjectString (em : Emitter) : TypePtr → Option String
  | .builtin kind => builtinTable[kind.toNat]?
  | type => some (em.typeToString type)

/-- Embeds `FreezeGenerator::varToObject` (lines 154-208). -/
def varToObject (type : TypePtr) (param : String) : String :=
  match type with
  | .builtin .KindByte => "java.lang.Byte.valueOf(" ++ param ++ ")"
  | .builtin .KindBool => "java.lang.Boolean.valueOf(" ++ param ++ ")"
  | .builtin .KindShort => "java.lang.Short.valueOf(" ++ param ++ ")"
  | .builtin .KindInt => "java.lang.Integer.valueOf(" ++ param ++ ")"
  | .builtin .KindLong => "java.lang.Long.valueOf(" ++ param ++ ")"
  | .builtin .KindFloat => "java.lang.Float.valueOf(" ++ param ++ ")"
  | .builtin .KindDouble => "java.lang.Double.valueOf(" ++ param ++ ")"
  | _ => param

/-- Embeds `FreezeGenerator::objectToVar` (lines 210-264). -/
def objectToVar (type : TypePtr) (param : String) : String :=
  match type with
  | .builtin .KindByte => param ++ ".byteValue()"
  | .builtin .KindBool => param ++ ".booleanValue()"
  | .builtin .KindShort => param ++ ".shortValue()"
  | .builtin .KindInt => param ++ ".intValue()"
  | .builtin .KindLong => param ++ ".longValue()"
  | .builtin .KindFloat => param ++ ".floatValue()"
  | .builtin .KindDouble => param ++ ".doubleValue()"
  | _ => param

/-- Tests `(b && b->kind() == Builtin::KindObject) || ClassDeclPtr::dynamicCast(type)`
(lines 936, 1013, 1214). -/
def usesPatcher : TypePtr → Bool
  | .builtin .KindObject => true
  | .classDecl _ _ => true
  | _ => false

/-- Tests `StructPtr::dynamicCast(type)` (lines 941, 1089). -/
def isStruct : TypePtr → Bool
  | .struct _ _ => true
  | _ => false

/-- The unmarshalling statement of lines 949-1004 and 1098-1154: a direct read
for the seven numeric and boolean kinds, the code of the library otherwise. -/
def readInto (type : TypePtr) (patchParams : String) : Item :=
  match type with
  | .builtin .KindByte => .nl ["r = java.lang.Byte.valueOf(istr.readByte());"]
  | .builtin .KindBool => .nl ["r = java.lang.Boolean.valueOf(istr.readBool());"]
  | .builtin .KindShort => .nl ["r = java.lang.Short.valueOf(istr.readShort());"]
  | .builtin .KindInt => .nl ["r = java.lang.Integer.valueOf(istr.readInt());"]
  | .builtin .KindLong => .nl ["r = java.lang.Long.valueOf(istr.readLong());"]
  | .builtin .KindFloat => .nl ["r = java.lang.Float.valueOf(istr.readFloat());"]
  | .builtin .KindDouble => .nl ["r = java.lang.Double.valueOf(istr.readDouble());"]
  | _ => .marshalCode type "r" false patchParams

/-! ### Top-level encode/decode (lines 871-1022) -/

/-- Body of the `encode` method, between `sb` and `eb` (lines 903-916). -/
def encodeBody (em : Emitter) (type : TypePtr) (encaps : Bool) : List Item :=
  (if encaps then [Item.nl ["ostr.startEncapsulation();"]] else []) ++
  [Item.marshalCode type (objectToVar type "v") true ""] ++
  (if em.usesClasses type then [Item.nl ["ostr.writePendingValues();"]] else []) ++
  (if encaps then [Item.nl ["ostr.endEncapsulation();"]] else [])

/-- Body of the `decode` method, between `sb` and `eb` (lines 924-1020). -/
def decodeBody (em : Emitter) (type : TypePtr) (typeS : String) (encaps : Bool) : List Item :=
  (if em.usesClasses type then [Item.nl ["istr.setSliceValues(false);"]] else []) ++
  (if encaps then [Item.nl ["istr.startEncapsulation();"]] else []) ++
  [if usesPatcher type then Item.nl ["Patcher p = new Patcher();"]
   else if isStruct type then Item.nl [typeS, " r = null;"]
   else Item.nl [typeS, " r;"]] ++
  [readInto type (if usesPatcher type then "p" else "")] ++
  (if em.usesClasses type then [Item.nl ["istr.readPendingValues();"]] else []) ++
  (if encaps then [Item.nl ["istr.endEncapsulation();"]] else []) ++
  [if usesPatcher type then Item.nl ["return p.value;"] else Item.nl ["return r;"]]

/-- One turn of the loop of lines 871-1022: the `encode` and the `decode` method. -/
def codecMethods (em : Emitter) (keyValue : String) (type : TypePtr) (typeS : String)
    (encaps : Bool) : List Item :=
  [Item.sp, Item.nl ["public void"],
   Item.nl ["encode", keyValue, "(", typeS, " v, Ice.OutputStream ostr)"], Item.sb] ++
  encodeBody em type encaps ++ [Item.eb] ++
  [Item.sp, Item.nl ["public ", typeS], Item.nl ["decode", keyValue, "(Ice.InputStream istr)"],
   Item.sb] ++
  decodeBody em type typeS encaps ++ [Item.eb]

/-- The loop of lines 871-1022: `i == 0` is the key, without encapsulation,
`i == 1` the value, with encapsulation. -/
def topLevelCodec (em : Emitter) (keyType : TypePtr) (keyTypeS : String) (valueType : TypePtr)
    (valueTypeS : String) : List Item :=
  codecMethods em "Key" keyType keyTypeS false ++
  codecMethods em "Value" valueType valueTypeS true

end FreezeGenerator


/-! ### The variables of one turn of the loops over the indices -/

namespace FreezeGenerator

/-- What the loops over `i` read at position `i`: `dict.indices[i]`,
`indexTypes[i]`, `members[i]`, `capitalizedMembers[i]`, `indexNames[i]`,
`typeToString(indexTypes[i], TypeModeIn)` and `typeToObjectString(indexTypes[i])`. -/
structure IndexLocals where
  i : Nat
  index : DictIndex
  indexType : TypePtr
  member : String
  capitalizedMember : String
  indexName : String
  indexTypeS : String
  indexObjTypeS : String

/-- The reads at position `i`; `none` when a vector is read past its end or
`typeToObjectString` reads past its table. -/
def indexLocalsAt (em : Emitter) (dict : Dict) (v : IndexVectors) (i : Nat) : Option IndexLocals :=
  match dict.indices[i]?, v.indexTypes[i]?, v.members[i]?, v.capitalizedMembers[i]?,
    v.indexNames[i]? with
  | some index, some indexType, some member, some capitalizedMember, some indexName =>
    match typeToObjectString em indexType with
    | some indexObjTypeS =>
      some ⟨i, index, indexType, member, capitalizedMember, indexName,
        em.typeToString indexType, indexObjTypeS⟩
    | none => none
  | _, _, _, _, _ => none

/-- The reads of a loop over the positions `is`, in that order. -/
def gather (f : Nat → Option IndexLocals) : List Nat → Option (List IndexLocals)
  | [] => some []
  | i :: is =>
    match f i, gather f is with
    | some x, some xs => some (x :: xs)
    | _, _ => none

/-- The reads of a loop `for(size_t i = 0; i < n; ++i)`. -/
def indexLocals (em : Emitter) (dict : Dict) (v : IndexVectors) (n : Nat) :
    Option (List IndexLocals) :=
  gather (indexLocalsAt em dict v) (List.range n)

/-! ### Class header, comparators and constructors (lines 441-614) -/

/-- Lines 441-443. -/
def classHeader (name keyTypeS valueTypeS : String) : List Item :=
  [Item.sp,
   Item.nl ["public class ", name, " extends Freeze.MapInternal.MapI<", keyTypeS, ", ", valueTypeS, ">"],
   Item.sb]

/-- The parameter list built at lines 470-478, the parts of all turns in one line. -/
def comparatorParameters : List IndexLocals → List String
  | [] => []
  | x :: xs =>
    (if x.i > 0 then [", "] else []) ++
    ["java.util.Comparator<", x.indexObjTypeS, "> ", x.member, "Comparator"] ++
    comparatorParameters xs

/-- The class `IndexComparators` (lines 445-495), written when there is an index. -/
def indexComparators (dict : Dict) (xs : List IndexLocals) : List Item :=
  if dict.indices.length > 0 then
    [Item.sp,
     Item.nl ["/**"],
     Item.nl [" * Supplies a comparator for each index key."],
     Item.nl [" */"],
     Item.nl ["public static class IndexComparators"],
     Item.sb,
     Item.sp,
     Item.nl ["/**"],
     Item.nl [" * Default constructor assigns null to the comparator for each index key."],
     Item.nl [" */"],
     Item.nl ["public"],
     Item.nl ["IndexComparators()"],
     Item.sb,
     Item.eb] ++
    [Item.sp,
     Item.nl ["/**"],
     Item.nl [" * This constructor accepts a comparator for each index key."]] ++
    (xs.map fun x => Item.nl [" * @param ", x.member, "Comparator Comparator for <code>", x.member, "</code>."]) ++
    [Item.nl [" */"], Item.nl ["public"],
     Item.nl (["IndexComparators("] ++ comparatorParameters xs ++ [")"]), Item.sb] ++
    (xs.map fun x => Item.nl ["this.", x.member, "Comparator = ", x.member, "Comparator;"]) ++
    [Item.eb, Item.sp] ++
    (xs.map fun x =>
      [Item.nl ["/** Comparator for <code>", x.member, "</code>. */"], Item.nl ["public java.util.Comparator<", x.indexObjTypeS, "> ", x.member, "Comparator;"]]).flatten ++
    [Item.eb]
  else []

/-- Body of the private constructor (lines 510-520): the index objects are
created and stored in `_indices`, one turn per index. -/
def privateConstructorBody (dict : Dict) (xs : List IndexLocals) : List Item :=
  [Item.nl ["super(connection, dbName, comparator);"]] ++
  (if dict.indices.length > 0 then
    [Item.nl ["_indices = new Freeze.MapIndex[", toString dict.indices.length, "];"]] ++
    (xs.map fun x =>
      [Item.nl ["_", x.member, "Index = new ", x.capitalizedMember, "Index(\x22", x.indexName, "\x22, indexComparators == null ? null : indexComparators.", x.member, "Comparator);"],
       Item.nl ["_indices[", toString x.i, "] = _", x.member, "Index;"]]).flatten
  else [])

/-- The private constructor (lines 501-521). -/
def privateConstructor (name keyTypeS : String) (dict : Dict) (xs : List IndexLocals) : List Item :=
  [Item.sp, Item.nl ["private"],
   Item.nl ([name, "(Freeze.Connection connection, String dbName, java.util.Comparator<",
      keyTypeS, "> comparator"] ++
     (if dict.indices.length > 0 then [", IndexComparators indexComparators"] else []) ++ [")"]),
   Item.sb] ++
  privateConstructorBody dict xs ++ [Item.eb]

/-- The public constructors (lines 523-614). -/
def publicConstructors (em : Emitter) (name keyTypeS : String) (keyType valueType : TypePtr)
    (dict : Dict) : List Item :=
  (if dict.indices.length > 0 then
    [Item.sp,
     Item.nl ["/**"],
     Item.nl [" * Instantiates a Freeze map using the given connection. If the database"],
     Item.nl [" * named in <code>dbName</code> does not exist and <code>createDb</code>"],
     Item.nl [" * is true, the database is created automatically, otherwise this constructor"],
     Item.nl [" * raises <code>DatabaseException</code>."],
     Item.nl [" * @param connection The Freeze connection associated with this map."],
     Item.nl [" * @param dbName The name of the Berkeley DB database."],
     Item.nl [" * @param createDb True if the database should be created if it does not"],
     Item.nl [" *   already exist, false otherwise."],
     Item.nl [" * @param comparator A comparator for the map\x27s main key, or null to use the"],
     Item.nl [" *   default key comparison strategy."],
     Item.nl [" * @param indexComparators A map of string to comparator, representing the"],
     Item.nl [" *   key comparator for each of the map\x27s indices. The map uses the default"],
     Item.nl [" *   key comparison strategy for an index if <code>indexComparators</code>"],
     Item.nl [" *   is null, or if no entry can be found in the comparators map for an index."],
     Item.nl [" * @throws Freeze.DatabaseException If an error occurs during database operations."],
     Item.nl [" */"],
     Item.nl ["public"],
     Item.nl [name, "(Freeze.Connection connection, String dbName, boolean createDb, ", "java.util.Comparator<", keyTypeS, "> comparator, ", "IndexComparators indexComparators)"],
     Item.sb,
     Item.nl ["this(connection, dbName, comparator, indexComparators);"],
     Item.nl ["init(_indices, dbName, \x22", em.typeId keyType, "\x22, \x22", em.typeId valueType, "\x22, createDb);"],
     Item.eb]
  else []) ++
  [Item.sp,
   Item.nl ["/**"],
   Item.nl [" * Instantiates a Freeze map using the given connection. If the database"],
   Item.nl [" * named in <code>dbName</code> does not exist and <code>createDb</code>"],
   Item.nl [" * is true, the database is created automatically, otherwise this constructor"],
   Item.nl [" * raises <code>DatabaseException</code>."],
   Item.nl [" * @param connection The Freeze connection associated with this map."],
   Item.nl [" * @param dbName The name of the Berkeley DB database."],
   Item.nl [" * @param createDb True if the database should be created if it does not"],
   Item.nl [" *   already exist, false otherwise."],
   Item.nl [" * @param comparator A comparator for the map\x27s main key, or null to use the"],
   Item.nl [" *   default key comparison strategy."],
   Item.nl [" * @throws Freeze.DatabaseException If an error occurs during database operations."],
   Item.nl [" */"],
   Item.nl ["public"],
   Item.nl [name, "(Freeze.Connection connection, String dbName, boolean createDb, ", "java.util.Comparator<", keyTypeS, "> comparator)"],
   Item.sb] ++
  (if dict.indices.length > 0 then
    [Item.nl ["this(connection, dbName, createDb, comparator, null);"]]
  else
    [Item.nl ["super(connection,  dbName, \x22", em.typeId keyType, "\x22, \x22", em.typeId valueType, "\x22, createDb, comparator);"]]) ++
  [Item.eb] ++
  [Item.sp,
   Item.nl ["/**"],
   Item.nl [" * Instantiates a Freeze map using the given connection. If the database"],
   Item.nl [" * named in <code>dbName</code> does not exist and <code>createDb</code>"],
   Item.nl [" * is true, the database is created automatically, otherwise this constructor"],
   Item.nl [" * raises <code>DatabaseException</code>. The map uses the default key"],
   Item.nl [" * comparison strategy."],
   Item.nl [" * @param connection The Freeze connection associated with this map."],
   Item.nl [" * @param dbName The name of the Berkeley DB database."],
   Item.nl [" * @param createDb True if the database should be created if it does not"],
   Item.nl [" *   already exist, false otherwise."],
   Item.nl [" * @throws Freeze.DatabaseException If an error occurs during database operations."],
   Item.nl [" */"],
   Item.nl ["public"],
   Item.nl [name, "(Freeze.Connection connection, String dbName, boolean createDb)"],
   Item.sb,
   Item.nl ["this(connection, dbName, createDb, null);"],
   Item.eb] ++
  [Item.sp,
   Item.nl ["/**"],
   Item.nl [" * Instantiates a Freeze map using the given connection. If the database"],
   Item.nl [" * named in <code>dbName</code> does not exist, it is created automatically."],
   Item.nl [" * The map uses the default key comparison strategy."],
   Item.nl [" * @param connection The Freeze connection associated with this map."],
   Item.nl [" * @param dbName The name of the Berkeley DB database."],
   Item.nl [" * @throws Freeze.DatabaseException If an error occurs during database operations."],
   Item.nl [" */"],
   Item.nl ["public"],
   Item.nl [name, "(Freeze.Connection connection, String dbName)"],
   Item.sb,
   Item.nl ["this(connection, dbName, true);"],
   Item.eb]

/-! ### `recreate` (lines 616-673) -/

/-- Body of `recreate(connection, dbName, comparator, indexComparators)` (lines 641-644). -/
def recreateWithIndicesBody (em : Emitter) (name : String) (keyType valueType : TypePtr) :
    List Item :=
  [Item.nl [name, " tmpMap = new ", name, "(connection, dbName, comparator, indexComparators);"],
   Item.nl ["recreate(tmpMap, dbName, \x22", em.typeId keyType, "\x22, \x22", em.typeId valueType, "\x22, tmpMap._indices);"]]

/-- Body of `recreate(connection, dbName, comparator)` (lines 663-672). -/
def recreateBody (em : Emitter) (name : String) (keyType valueType : TypePtr) (dict : Dict) :
    List Item :=
  if dict.indices.length > 0 then
    [Item.nl ["recreate(connection, dbName, comparator, null);"]]
  else
    [Item.nl [name, " tmpMap = new ", name, "(connection, dbName, comparator);"],
     Item.nl ["recreate(tmpMap, dbName, \x22", em.typeId keyType, "\x22, \x22", em.typeId valueType, "\x22, null);"]]

/-- The two `recreate` methods with their documentation (lines 619-673). -/
def recreateMethods (em : Emitter) (name keyTypeS : String) (keyType valueType : TypePtr)
    (dict : Dict) : List Item :=
  (if dict.indices.length > 0 then
    [Item.sp,
     Item.nl ["/**"],
     Item.nl [" * Copies an existing database. The new database has the name given in"],
     Item.nl [" * <code>dbName</code>, and the old database is renamed with a UUID"],
     Item.nl [" * suffix."],
     Item.nl [" * @param connection The Freeze connection associated with this map."],
     Item.nl [" * @param dbName The name of the Berkeley DB database."],
     Item.nl [" * @param comparator A comparator for the map\x27s main key, or null to use the"],
     Item.nl [" *   default key comparison strategy."],
     Item.nl [" * @param indexComparators A map of string to comparator, representing the"],
     Item.nl [" *   key comparator for each of the map\x27s indices. The map uses the default"],
     Item.nl [" *   key comparison strategy for an index if <code>indexComparators</code>"],
     Item.nl [" *   is null, or if no entry can be found in the comparators map for an index."],
     Item.nl [" * @throws Freeze.DatabaseException If an error occurs during database operations."],
     Item.nl [" */"],
     Item.nl ["public static void"],
     Item.nl ["recreate(Freeze.Connection connection, String dbName, ", "java.util.Comparator<", keyTypeS, "> comparator, ", "IndexComparators indexComparators)"],
     Item.sb] ++
    recreateWithIndicesBody em name keyType valueType ++ [Item.eb]
  else []) ++
  [Item.sp,
   Item.nl ["/**"],
   Item.nl [" * Copies an existing database. The new database has the name given in"],
   Item.nl [" * <code>dbName</code>, and the old database is renamed with a UUID"],
   Item.nl [" * suffix."],
   Item.nl [" * @param connection The Freeze connection associated with this map."],
   Item.nl [" * @param dbName The name of the Berkeley DB database."],
   Item.nl [" * @param comparator A comparator for the map\x27s main key, or null to use the"],
   Item.nl [" *   default key comparison strategy."],
   Item.nl [" * @throws Freeze.DatabaseException If an error occurs during database operations."],
   Item.nl [" */"],
   Item.nl ["public static void"],
   Item.nl ["recreate(Freeze.Connection connection, String dbName, ", "java.util.Comparator<", keyTypeS, "> comparator)"],
   Item.sb] ++
  recreateBody em name keyType valueType dict ++ [Item.eb]

/-! ### Index methods (lines 675-866) -/

/-- The type `subMap` of lines 736-737. -/
def subMap (keyTypeS valueTypeS indexObjTypeS : String) : String :=
  "Freeze.NavigableMap<" ++ indexObjTypeS ++ ", java.util.Set<java.util.Map.Entry<" ++ keyTypeS ++
    ", " ++ valueTypeS ++ ">>>"

/-- Body of `findBy<Member>(key, onlyDups)` (line 703). -/
def findByWithFlagBody (x : IndexLocals) : List Item :=
  [Item.nl ["return _", x.member, "Index.find(", varToObject x.indexType "key", ", onlyDups);"]]

/-- The method `findBy<Member>(key, onlyDups)` with its documentation (lines 685-704). -/
def findByWithFlag (keyTypeS valueTypeS : String) (x : IndexLocals) : List Item :=
  [Item.sp,
   Item.nl ["/**"],
   Item.nl [" * Obtains an iterator ordered using the index value."],
   Item.nl [" * The iterator\x27s initial position is an element whose key matches <code>key</code>; if"],
   Item.nl [" * no such element exists, the returned iterator is empty (<code>hasNext</code> returns"],
   Item.nl [" * false). If <code>onlyDups</code> is true, the iterator only returns elements whose"],
   Item.nl [" * key exactly matches <code>key</code>; otherwise, the iterator continues to iterate over"],
   Item.nl [" * the remaining elements in the map."],
   Item.nl [" * @param key The value at which the iterator begins."],
   Item.nl [" * @param onlyDups True if the iterator should be limited to elements whose key"],
   Item.nl [" *   exactly matches <code>key</code>, false otherwise."],
   Item.nl [" * @return A new iterator."],
   Item.nl [" * @throws Freeze.DatabaseException If an error occurs during database operations."],
   Item.nl [" */"]] ++
  [Item.nl ["public Freeze.Map.EntryIterator<java.util.Map.Entry<", keyTypeS, ", ", valueTypeS, ">>"],
   Item.nl ["findBy", x.capitalizedMember, "(", x.indexTypeS, " key, boolean onlyDups)"]] ++
  [Item.sb] ++ findByWithFlagBody x ++ [Item.eb]

/-- Body of `findBy<Member>(key)` (line 720). -/
def findByBody (x : IndexLocals) : List Item :=
  [Item.nl ["return _", x.member, "Index.find(", varToObject x.indexType "key", ", true);"]]

/-- The method `findBy<Member>(key)` with its documentation (lines 706-721). -/
def findBy (keyTypeS valueTypeS : String) (x : IndexLocals) : List Item :=
  [Item.sp,
   Item.nl ["/**"],
   Item.nl [" * Obtains an iterator ordered using the values of member <code>", x.member, "</code>."],
   Item.nl [" * The iterator\x27s initial position is an element whose key matches <code>key</code>; if"],
   Item.nl [" * no such element exists, the returned iterator is empty (<code>hasNext</code> returns"],
   Item.nl [" * false). This iterator only returns elements whose key exactly matches <code>key</code>."],
   Item.nl [" * @param key The value at which the iterator begins."],
   Item.nl [" * @return A new iterator."],
   Item.nl [" * @throws Freeze.DatabaseException If an error occurs during database operations."],
   Item.nl [" */"]] ++
  [Item.nl ["public Freeze.Map.EntryIterator<java.util.Map.Entry<", keyTypeS, ", ", valueTypeS, ">>"],
   Item.nl ["findBy", x.capitalizedMember, "(", x.indexTypeS, " key)"]] ++
  [Item.sb] ++ findByBody x ++ [Item.eb]

/-- Body of `<member>Count(key)` (line 733). -/
def countByBody (x : IndexLocals) : List Item :=
  [Item.nl ["return _", x.member, "Index.count(", varToObject x.indexType "key", ");"]]

/-- The method `<member>Count(key)` with its documentation (lines 723-734). -/
def countBy (x : IndexLocals) : List Item :=
  [Item.sp,
   Item.nl ["/**"],
   Item.nl [" * Determines the number of elements whose index values match <code>key</code>."],
   Item.nl [" * @return The number of matching elements."],
   Item.nl [" * @throws Freeze.DatabaseException If an error occurs during database operations."],
   Item.nl [" */"]] ++
  [Item.nl ["public int"],
   Item.nl [(if x.index.member = "" then "valueCount" else x.index.member ++ "Count"), "(", x.indexTypeS, " key)"]] ++
  [Item.sb] ++ countByBody x ++ [Item.eb]

/-- Body of `headMapFor<Member>(toKey, inclusive)` (lines 756-757). -/
def headMapForInclusiveBody (x : IndexLocals) : List Item :=
  [Item.nl ["return _", x.member, "Index.createHeadMap(", varToObject x.indexType "toKey", ", inclusive);"]]

/-- The method `headMapFor<Member>(toKey, inclusive)` with its documentation (lines 739-758). -/
def headMapForInclusive (keyTypeS valueTypeS : String) (x : IndexLocals) : List Item :=
  [Item.sp,
   Item.nl ["/**"],
   Item.nl [" * Returns a view of the portion of this map whose keys are strictly less than"],
   Item.nl [" * <code>toKey</code>, or less than or equal to <code>toKey</code> if"],
   Item.nl [" * <code>inclusive</code> is true. Insertions and removals via this map are"],
   Item.nl [" * not supported."],
   Item.nl [" * @param toKey High endpoint of the keys in the returned map."],
   Item.nl [" * @param inclusive If true, the endpoint is included in the returned map;"],
   Item.nl [" *   otherwise, the endpoint is excluded."],
   Item.nl [" * @return A view of the portion of this map whose keys are strictly less than"],
   Item.nl [" *   <code>toKey</code>, or less than or equal to <code>toKey</code> if"],
   Item.nl [" *   <code>inclusive</code> is true."],
   Item.nl [" * @throws Freeze.DatabaseException If an error occurs during database operations."],
   Item.nl [" */"]] ++
  [Item.nl ["public " ++ subMap keyTypeS valueTypeS x.indexObjTypeS],
   Item.nl ["headMapFor", x.capitalizedMember, "(", x.indexTypeS, " toKey, boolean inclusive)"]] ++
  [Item.sb] ++ headMapForInclusiveBody x ++ [Item.eb]

/-- Body of `headMapFor<Member>(toKey)` (line 772). -/
def headMapForBody (x : IndexLocals) : List Item :=
  [Item.nl ["return headMapFor", x.capitalizedMember, "(toKey, false);"]]

/-- The method `headMapFor<Member>(toKey)` with its documentation (lines 760-773). -/
def headMapFor (keyTypeS valueTypeS : String) (x : IndexLocals) : List Item :=
  [Item.sp,
   Item.nl ["/**"],
   Item.nl [" * Returns a view of the portion of this map whose keys are strictly less than"],
   Item.nl [" * <code>toKey</code>. Insertions and removals via this map are not supported."],
   Item.nl [" * @param toKey High endpoint of the keys in the returned map."],
   Item.nl [" * @return A view of the portion of this map whose keys are strictly less than"],
   Item.nl [" *   <code>toKey</code>>"],
   Item.nl [" * @throws Freeze.DatabaseException If an error occurs during database operations."],
   Item.nl [" */"]] ++
  [Item.nl ["public " ++ subMap keyTypeS valueTypeS x.indexObjTypeS],
   Item.nl ["headMapFor", x.capitalizedMember, "(", x.indexTypeS, " toKey)"]] ++
  [Item.sb] ++ headMapForBody x ++ [Item.eb]

/-- Body of `tailMapFor<Member>(fromKey, inclusive)` (lines 792-793). -/
def tailMapForInclusiveBody (x : IndexLocals) : List Item :=
  [Item.nl ["return _", x.member, "Index.createTailMap(", varToObject x.indexType "fromKey", ", inclusive);"]]

/-- The method `tailMapFor<Member>(fromKey, inclusive)` with its documentation (lines 775-794). -/
def tailMapForInclusive (keyTypeS valueTypeS : String) (x : IndexLocals) : List Item :=
  [Item.sp,
   Item.nl ["/**"],
   Item.nl [" * Returns a view of the portion of this map whose keys are strictly greater than"],
   Item.nl [" * <code>fromKey</code>, or greater than or equal to <code>fromKey</code> if"],
   Item.nl [" * <code>inclusive</code> is true. Insertions and removals via this map are"],
   Item.nl [" * not supported."],
   Item.nl [" * @param fromKey Low endpoint of the keys in the returned map."],
   Item.nl [" * @param inclusive If true, the endpoint is included in the returned map;"],
   Item.nl [" *   otherwise, the endpoint is excluded."],
   Item.nl [" * @return A view of the portion of this map whose keys are strictly greater than"],
   Item.nl [" *   <code>fromKey</code>, or greater than or equal to <code>fromKey</code> if"],
   Item.nl [" *   <code>inclusive</code> is true."],
   Item.nl [" * @throws Freeze.DatabaseException If an error occurs during database operations."],
   Item.nl [" */"]] ++
  [Item.nl ["public " ++ subMap keyTypeS valueTypeS x.indexObjTypeS],
   Item.nl ["tailMapFor", x.capitalizedMember, "(", x.indexTypeS, " fromKey, boolean inclusive)"]] ++
  [Item.sb] ++ tailMapForInclusiveBody x ++ [Item.eb]

/-- Body of `tailMapFor<Member>(fromKey)` (line 808). -/
def tailMapForBody (x : IndexLocals) : List Item :=
  [Item.nl ["return tailMapFor", x.capitalizedMember, "(fromKey, true);"]]

/-- The method `tailMapFor<Member>(fromKey)` with its documentation (lines 796-809). -/
def tailMapFor (keyTypeS valueTypeS : String) (x : IndexLocals) : List Item :=
  [Item.sp,
   Item.nl ["/**"],
   Item.nl [" * Returns a view of the portion of this map whose keys are greater than or equal"],
   Item.nl [" * to <code>fromKey</code>. Insertions and removals via this map are not supported."],
   Item.nl [" * @param fromKey Low endpoint of the keys in the returned map."],
   Item.nl [" * @return A view of the portion of this map whose keys are greater than or equal"],
   Item.nl [" *   to <code>fromKey</code>."],
   Item.nl [" * @throws Freeze.DatabaseException If an error occurs during database operations."],
   Item.nl [" */"]] ++
  [Item.nl ["public " ++ subMap keyTypeS valueTypeS x.indexObjTypeS],
   Item.nl ["tailMapFor", x.capitalizedMember, "(", x.indexTypeS, " fromKey)"]] ++
  [Item.sb] ++ tailMapForBody x ++ [Item.eb]

/-- Body of `subMapFor<Member>(fromKey, fromInclusive, toKey, toInclusive)` (lines 832-833). -/
def subMapForInclusiveBody (x : IndexLocals) : List Item :=
  [Item.nl ["return _", x.member, "Index.createSubMap(", varToObject x.indexType "fromKey", ", fromInclusive, ", varToObject x.indexType "toKey", ", toInclusive);"]]

/-- The method `subMapFor<Member>(fromKey, fromInclusive, toKey, toInclusive)` with its documentation (lines 811-834). -/
def subMapForInclusive (keyTypeS valueTypeS : String) (x : IndexLocals) : List Item :=
  [Item.sp,
   Item.nl ["/**"],
   Item.nl [" * Returns a view of the portion of this map whose keys range from"],
   Item.nl [" * <code>fromKey</code> to <code>toKey</code>. If <code>fromKey</code>"],
   Item.nl [" * and <code>toKey</code> are equal, the returned map is empty unless"],
   Item.nl [" * <code>fromInclusive</code> and <code>toInclusive</code> are both true."],
   Item.nl [" * Insertions and removals via this map are not supported."],
   Item.nl [" * @param fromKey Low endpoint of the keys in the returned map."],
   Item.nl [" * @param fromInclusive If true, the low endpoint is included in the returned map;"],
   Item.nl [" *   otherwise, the endpoint is excluded."],
   Item.nl [" * @param toKey High endpoint of the keys in the returned map."],
   Item.nl [" * @param toInclusive If true, the high endpoint is included in the returned map;"],
   Item.nl [" *   otherwise, the endpoint is excluded."],
   Item.nl [" * @return A view of the portion of this map whose keys range from"],
   Item.nl [" *   <code>fromKey</code> to <code>toKey</code>."],
   Item.nl [" * @throws Freeze.DatabaseException If an error occurs during database operations."],
   Item.nl [" */"]] ++
  [Item.nl ["public " ++ subMap keyTypeS valueTypeS x.indexObjTypeS],
   Item.nl ["subMapFor", x.capitalizedMember, "(", x.indexTypeS, " fromKey, boolean fromInclusive, ", x.indexTypeS, " toKey, boolean toInclusive)"]] ++
  [Item.sb] ++ subMapForInclusiveBody x ++ [Item.eb]

/-- Body of `subMapFor<Member>(fromKey, toKey)` (line 851). -/
def subMapForBody (x : IndexLocals) : List Item :=
  [Item.nl ["return subMapFor", x.capitalizedMember, "(fromKey, true, toKey, false);"]]

/-- The method `subMapFor<Member>(fromKey, toKey)` with its documentation (lines 836-852). -/
def subMapFor (keyTypeS valueTypeS : String) (x : IndexLocals) : List Item :=
  [Item.sp,
   Item.nl ["/**"],
   Item.nl [" * Returns a view of the portion of this map whose keys are greater than"],
   Item.nl [" * or equal to <code>fromKey</code> and strictly less than <code>toKey</code>."],
   Item.nl [" * Insertions and removals via this map are not supported."],
   Item.nl [" * @param fromKey Low endpoint of the keys in the returned map."],
   Item.nl [" * @param toKey High endpoint of the keys in the returned map."],
   Item.nl [" * @return A view of the portion of this map whose keys range from"],
   Item.nl [" *   <code>fromKey</code> to <code>toKey</code>."],
   Item.nl [" * @throws Freeze.DatabaseException If an error occurs during database operations."],
   Item.nl [" */"]] ++
  [Item.nl ["public " ++ subMap keyTypeS valueTypeS x.indexObjTypeS],
   Item.nl ["subMapFor", x.capitalizedMember, "(", x.indexTypeS, " fromKey, ", x.indexTypeS, " toKey)"]] ++
  [Item.sb] ++ subMapForBody x ++ [Item.eb]

/-- Body of `mapFor<Member>()` (line 864). -/
def mapForBody (x : IndexLocals) : List Item :=
  [Item.nl ["return _", x.member, "Index.createMap();"]]

/-- The method `mapFor<Member>()` with its documentation (lines 854-865). -/
def mapFor (keyTypeS valueTypeS : String) (x : IndexLocals) : List Item :=
  [Item.sp,
   Item.nl ["/**"],
   Item.nl [" * Returns a view of this map whose keys are ordered by the index value."],
   Item.nl [" * Insertions and removals via this map are not supported."],
   Item.nl [" * @return A view of this map whose keys range are ordered by the index value."],
   Item.nl [" * @throws Freeze.DatabaseException If an error occurs during database operations."],
   Item.nl [" */"]] ++
  [Item.nl ["public " ++ subMap keyTypeS valueTypeS x.indexObjTypeS],
   Item.nl ["mapFor", x.capitalizedMember, "()"]] ++
  [Item.sb] ++ mapForBody x ++ [Item.eb]

/-- One turn of the loop of lines 678-866. -/
def indexMethods (keyTypeS valueTypeS : String) (x : IndexLocals) : List Item :=
  findByWithFlag keyTypeS valueTypeS x ++ findBy keyTypeS valueTypeS x ++
  countBy x ++
  headMapForInclusive keyTypeS valueTypeS x ++ headMapFor keyTypeS valueTypeS x ++
  tailMapForInclusive keyTypeS valueTypeS x ++ tailMapFor keyTypeS valueTypeS x ++
  subMapForInclusive keyTypeS valueTypeS x ++ subMapFor keyTypeS valueTypeS x ++
  mapFor keyTypeS valueTypeS x

/-! ### Inner index classes (lines 1024-1208) -/

/-- Body of `encodeKey` of an index class (lines 1042-1067). -/
def encodeKeyBody (x : IndexLocals) : List Item :=
  if x.index.member = "" then
    [Item.nl ["encodeValue(", if x.index.caseSensitive then "key" else "key.toLowerCase()",
      ", ostr);"]]
  else
    [Item.marshalCode x.indexType
      (objectToVar x.indexType (if x.index.caseSensitive then "key" else "key.toLowerCase()"))
      true ""]

/-- The test of `assert(!indexTypes[i]->usesClasses())` at line 1066, made
when the index has a member. -/
def encodeKeyAssertion (em : Emitter) (x : IndexLocals) : Bool :=
  !em.usesClasses x.indexType

/-- Body of `decodeKey` of an index class (lines 1076-1156). -/
def decodeKeyBody (x : IndexLocals) : List Item :=
  if x.index.member = "" then
    [Item.nl ["return decodeValue(istr);"]]
  else
    [if isStruct x.indexType then Item.nl [x.indexObjTypeS, " r = null;"]
     else Item.nl [x.indexObjTypeS, " r;"],
     readInto x.indexType "",
     Item.nl ["return r;"]]

/-- Body of `extractKey` of an index class (lines 1165-1184). -/
def extractKeyBody (x : IndexLocals) : List Item :=
  if x.index.member = "" then
    if x.index.caseSensitive then [Item.nl ["return value;"]]
    else [Item.nl ["return value.toLowerCase();"]]
  else
    [Item.nl ["return ",
      varToObject x.indexType
        (if x.index.caseSensitive then "value." ++ x.index.member
         else "value." ++ x.index.member ++ ".toLowerCase()"),
      ";"]]

/-- One turn of the loop of lines 1027-1208: the class `<Member>Index`. -/
def indexClass (name keyTypeS valueTypeS : String) (x : IndexLocals) : List Item :=
  [Item.sp,
   Item.nl ["private class ", x.capitalizedMember ++ "Index", " extends Freeze.MapInternal.Index<", keyTypeS, ", ", valueTypeS, ", ", x.indexObjTypeS, ">"],
   Item.sb] ++
  [Item.sp,
   Item.nl ["public void"],
   Item.nl ["encodeKey(", x.indexObjTypeS, " key, Ice.OutputStream ostr)"],
   Item.sb] ++
  encodeKeyBody x ++ [Item.eb] ++
  [Item.sp,
   Item.nl ["public ", x.indexObjTypeS],
   Item.nl ["decodeKey(Ice.InputStream istr)"],
   Item.sb] ++
  decodeKeyBody x ++ [Item.eb] ++
  [Item.sp,
   Item.nl ["protected ", x.indexObjTypeS],
   Item.nl ["extractKey(", valueTypeS, " value)"],
   Item.sb] ++
  extractKeyBody x ++ [Item.eb] ++
  (if x.index.member = "" ∧ x.index.caseSensitive = true then
    [Item.sp,
     Item.nl ["protected java.nio.ByteBuffer"],
     Item.nl ["marshalKey(java.nio.ByteBuffer value)"],
     Item.sb,
     Item.nl ["return value;"],
     Item.eb]
  else []) ++
  [Item.sp,
   Item.nl ["private"],
   Item.nl [x.capitalizedMember ++ "Index", "(String name, java.util.Comparator<", x.indexObjTypeS, "> comparator)"],
   Item.sb,
   Item.nl ["super(", name, ".this, name, comparator);"],
   Item.eb,
   Item.eb]

/-! ### Patcher class and fields (lines 1210-1260) -/

/-- Tests `b` at line 1221: the value type is a builtin. -/
def isBuiltin : TypePtr → Bool
  | .builtin _ => true
  | _ => false

/-- The class `Patcher` (lines 1213-1246; the part under `#if 0` is not compiled). -/
def patcherClass (em : Emitter) (valueType : TypePtr) : List Item :=
  if usesPatcher valueType then
    [Item.sp,
     Item.nl ["private static class Patcher implements Ice.ReadValueCallback"],
     Item.sb,
     Item.sp,
     Item.nl ["public void"],
     Item.nl ["valueReady(Ice.Object v)"],
     Item.sb] ++
    [if isBuiltin valueType then Item.nl ["value = v;"]
     else Item.nl ["value = (", em.typeToString valueType, ")v;"]] ++
    [Item.eb, Item.sp, Item.nl [em.typeToString valueType, " value;"], Item.eb]
  else []

/-- The fields and the end of the class (lines 1251-1260). -/
def fields (dict : Dict) (xs : List IndexLocals) : List Item :=
  (if dict.indices.length > 0 then [Item.sp, Item.nl ["private Freeze.MapIndex[] _indices;"]] else []) ++
  (xs.map fun x => Item.nl ["private ", x.capitalizedMember, "Index _", x.member, "Index;"]) ++
  [Item.eb]

/-! ### The output stage as a whole -/

/-- Everything `generate` hands to `out` between `open` (line 434) and `close`
(line 1262); `none` when a read past the end of a vector or of `builtinTable`
occurs on the way. -/
def writeClass (em : Emitter) (dict : Dict) (c : Checked) : Option (List Item) :=
  match typeToObjectString em c.keyType, typeToObjectString em c.valueType,
    indexLocals em dict c.vectors dict.indices.length,
    indexLocals em dict c.vectors c.vectors.capitalizedMembers.length with
  | some keyTypeS, some valueTypeS, some xs, some ys =>
    some (classHeader c.name keyTypeS valueTypeS ++
      indexComparators dict xs ++
      privateConstructor c.name keyTypeS dict xs ++
      publicConstructors em c.name keyTypeS c.keyType c.valueType dict ++
      recreateMethods em c.name keyTypeS c.keyType c.valueType dict ++
      (ys.map (indexMethods keyTypeS valueTypeS)).flatten ++
      topLevelCodec em c.keyType keyTypeS c.valueType valueTypeS ++
      (ys.map (indexClass c.name keyTypeS valueTypeS)).flatten ++
      patcherClass em c.valueType ++
      fields dict xs)
  | _, _, _, _ => none

end FreezeGenerator


/-! ### The run of `generate(UnitPtr&, const Dict&)` as a whole -/

/-- What a run of `generate` does, in the order in which it does it. -/
inductive Effect
  | threw (failure : Failure)
  | opened (file : String)
  | wrote (item : Item)
  | readPastEnd
  | closed

namespace FreezeGenerator

/-- The run of `generate(UnitPtr&, const Dict&)` (lines 267-1263): the checks
of lines 267-432, and when none of them throws, `open` at line 434, what is
handed to `out`, and `close` at line 1262.  A run that reads past the end of a
vector or of `builtinTable` is cut at `readPastEnd`. -/
def run (lib : Library) (em : Emitter) (prog : String) (u : UnitPtr) (dict : Dict) : List Effect :=
  match generate lib prog u dict with
  | .error e => [Effect.threw e]
  | .ok c =>
    match writeClass em dict c with
    | none => [Effect.opened dict.name, Effect.readPastEnd]
    | some items => [Effect.opened dict.name] ++ items.map Effect.wrote ++ [Effect.closed]

end FreezeGenerator

/-! ## Notions used to state the properties of the generated class -/

/-- The entry of `members` that belongs to an index: its member, or the label
`value` of the whole-value index. -/
def memberLabel (index : DictIndex) : String :=
  if index.member = "" then "value" else index.member

/-- The entry of `capitalizedMembers` that belongs to an index. -/
def capitalizedLabel (index : DictIndex) : String :=
  if index.member = "" then "Value" else FreezeGenerator.capitalize index.member

/-- The entry of `indexNames` that belongs to an index: its member, or the
name `index` of the whole-value index. -/
def indexNameLabel (index : DictIndex) : String :=
  if index.member = "" then "index" else index.member

/-- Modelled from the spec: `toLowerCase` of `java.lang.String` (Java run time)
on the letters `A` to `Z`. -/
def toLowerCase (s : String) : String :=
  String.mk (s.data.map Char.toLower)

/-- Modelled from the spec: the value of a generated key expression, which is
the variable `var` itself or `var.toLowerCase()`, when the variable holds `x`. -/
def evalKeyExpression (var expr x : String) : Option String :=
  if expr = var then some x
  else if expr = var ++ ".toLowerCase()" then some (toLowerCase x)
  else none

/-! ## Sample emitter -/

/-- Type names in the manner of the Slice library. -/
def sampleTypeToString : TypePtr → String
  | .builtin .KindByte => "byte"
  | .builtin .KindBool => "boolean"
  | .builtin .KindShort => "short"
  | .builtin .KindInt => "int"
  | .builtin .KindLong => "long"
  | .builtin .KindFloat => "float"
  | .builtin .KindDouble => "double"
  | .builtin .KindString => "String"
  | .builtin .KindObject => "Ice.Object"
  | .builtin .KindObjectProxy => "Ice.ObjectPrx"
  | .builtin .KindLocalObject => "Ice.LocalObject"
  | .builtin .KindValue => "Ice.Object"
  | .classDecl name _ => name
  | .struct name _ => name
  | .sequence name _ => name
  | .dictionary name _ _ => name
  | .enum name => name
  | .proxy name => name ++ "Prx"

/-- Classes and the builtin `Object` use classes; other types are not looked into. -/
def sampleUsesClasses : TypePtr → Bool
  | .builtin .KindObject => true
  | .builtin .KindValue => true
  | .classDecl _ _ => true
  | _ => false

/-- The emitter used in the sample runs. -/
def sampleEmitter : Emitter :=
  ⟨sampleTypeToString, sampleUsesClasses, fun t => "::" ++ sampleTypeToString t⟩


/-! ## The indexed map at run time (spec §3, §4.3, §4.4)

The generated class extends `Freeze.MapInternal.MapI` and its index classes
extend `Freeze.MapInternal.Index`; these run-time classes are not part of the
program embedded above.  Their behaviour is modelled here from the spec.
Encoded key records are natural numbers, ordered as the records are. -/

namespace IndexedMap

/-- Modelled from the spec: a secondary index of §4.3 (run-time class
`Freeze.MapInternal.Index`, absent): its projection and its own ordered name
space of entries `(indexRecord, primaryKey)`. -/
structure Index (V : Type) where
  project : V → Nat
  entries : List (Nat × Nat)

/-- Modelled from the spec: the stored state of an indexed map of §4.4
(run-time class `Freeze.MapInternal.MapI`, absent): the primary namespace and
the indices of its index set. -/
structure Store (V : Type) where
  primary : List (Nat × V)
  indices : List (Index V)

/-- Modelled from the spec: the `StoreError` of §7. -/
inductive StoreError
  | ioFailure
deriving DecidableEq, Repr

/-- Modelled from the spec: the order of an index namespace, by index record
and among equal index records by primary key (§4.3: duplicates accumulate as a
set of primary keys). -/
def entryLE (a b : Nat × Nat) : Bool :=
  a.1 < b.1 ∨ (a.1 = b.1 ∧ a.2 ≤ b.2)

/-- Modelled from the spec: adding an entry to an ordered index namespace. -/
def insertEntry (e : Nat × Nat) : List (Nat × Nat) → List (Nat × Nat)
  | [] => [e]
  | x :: xs => if entryLE e x then e :: x :: xs else x :: insertEntry e xs

/-- Modelled from the spec: `get(key)` on the primary namespace (§4.4). -/
def lookup {V : Type} (k : Nat) : List (Nat × V) → Option V
  | [] => none
  | x :: xs => if x.1 = k then some x.2 else lookup k xs

/-- Modelled from the spec: `get(key) -> value option` (§4.4). -/
def get {V : Type} (s : Store V) (k : Nat) : Option V :=
  lookup k s.primary

/-- Modelled from the spec: adding an entry to the ordered primary namespace. -/
def insertPrimary {V : Type} (k : Nat) (v : V) : List (Nat × V) → List (Nat × V)
  | [] => [(k, v)]
  | x :: xs => if k ≤ x.1 then (k, v) :: x :: xs else x :: insertPrimary k v xs

/-- Modelled from the spec: the write of `put` to the primary namespace, which
replaces the entry of the key (§4.4). -/
def writePrimary {V : Type} (k : Nat) (v : V) (primary : List (Nat × V)) : List (Nat × V) :=
  insertPrimary k v (primary.filter (fun x => x.1 ≠ k))

/-- Modelled from the spec: index maintenance of §4.3 for one index: the entry
of the previous projection is first removed, then the new one inserted. -/
def maintainIndex {V : Type} (old : Option V) (k : Nat) (v : V) (ix : Index V) : Index V :=
  ⟨ix.project,
    insertEntry (ix.project v, k)
      (match old with
       | some previous => ix.entries.erase (ix.project previous, k)
       | none => ix.entries)⟩

/-- Modelled from the spec: index maintenance over the index set; the write to
index number `j` is write `j + 1` of the mutation, and `fault n` tells that
write `n` meets an I/O failure of the underlying store (§4.4, failure semantics). -/
def maintainIndices {V : Type} (fault : Nat → Bool) (old : Option V) (k : Nat) (v : V) :
    Nat → List (Index V) → Except StoreError (List (Index V))
  | _, [] => .ok []
  | j, ix :: rest =>
    if fault (j + 1) then .error .ioFailure
    else
      match maintainIndices fault old k v (j + 1) rest with
      | .error e => .error e
      | .ok rest1 => .ok (maintainIndex old k v ix :: rest1)

/-- Modelled from the spec: the body of `put(key, value)` (§4.4): the write to
the primary namespace (write 0), then the update of every index entry. -/
def putBody {V : Type} (fault : Nat → Bool) (k : Nat) (v : V) (s : Store V) :
    Except StoreError (Store V) :=
  if fault 0 then .error .ioFailure
  else
    match maintainIndices fault (get s k) k v 0 s.indices with
    | .error e => .error e
    | .ok indices => .ok ⟨writePrimary k v s.primary, indices⟩

/-- Modelled from the spec: one transaction against the underlying store (§5):
the changes of the body commit together, or the store is left in its
pre-operation state and the error is surfaced. -/
def atomically {V : Type} (body : Store V → Except StoreError (Store V)) (s : Store V) :
    Store V × Except StoreError Unit :=
  match body s with
  | .ok s1 => (s1, .ok ())
  | .error e => (s, .error e)

/-- Modelled from the spec: `put(key, value)` of §4.4, wrapped in one transaction (§5). -/
def put {V : Type} (fault : Nat → Bool) (k : Nat) (v : V) (s : Store V) :
    Store V × Except StoreError Unit :=
  atomically (putBody fault k v) s

/-- A store without I/O failure. -/
def noFault : Nat → Bool :=
  fun _ => false

/-- Modelled from the spec: the `(key, value)` pairs that a sequence of index
entries stands for (§4.4, results of the index queries). -/
def entriesOf {V : Type} (s : Store V) (l : List (Nat × Nat)) : List (Nat × V) :=
  l.filterMap fun e =>
    match get s e.2 with
    | some v => some (e.2, v)
    | none => none

/-- Modelled from the spec: whether a projection lies in the range of
`rangeByIndex`, each endpoint being included iff its flag is true (§4.4, §8). -/
def inRange (fromKey : Nat) (fromInclusive : Bool) (toKey : Nat) (toInclusive : Bool)
    (p : Nat) : Bool :=
  (fromKey < p ∨ (fromInclusive = true ∧ p = fromKey)) ∧
  (p < toKey ∨ (toInclusive = true ∧ p = toKey))

/-- Modelled from the spec: `rangeByIndex(indexName, from, fromInclusive, to, toInclusive)`
of §4.4 (run-time `Index.createSubMap`, absent): the entries of the index,
in index order, whose projection lies in the range. -/
def rangeEntries {V : Type} (s : Store V) (j : Nat) (fromKey : Nat) (fromInclusive : Bool)
    (toKey : Nat) (toInclusive : Bool) : List (Nat × Nat) :=
  match s.indices[j]? with
  | none => []
  | some ix => ix.entries.filter (fun e => inRange fromKey fromInclusive toKey toInclusive e.1)

/-- Modelled from the spec: the ordered view returned by `rangeByIndex`. -/
def rangeByIndex {V : Type} (s : Store V) (j : Nat) (fromKey : Nat) (fromInclusive : Bool)
    (toKey : Nat) (toInclusive : Bool) : List (Nat × V) :=
  entriesOf s (rangeEntries s j fromKey fromInclusive toKey toInclusive)

/-- Modelled from the spec: an empty map governed by an index set (§3). -/
def emptyStore {V : Type} (indexSet : List (V → Nat)) : Store V :=
  ⟨[], indexSet.map fun project => ⟨project, []⟩⟩

/-- Modelled from the spec: the copy of `rebuild` (§4.4): every primary entry
is put into the destination map. -/
def copyInto {V : Type} (dest : Store V) : List (Nat × V) → Store V
  | [] => dest
  | x :: rest => copyInto (put noFault x.1 x.2 dest).1 rest

end IndexedMap


/-! ## `FreezeGenerator::generate(UnitPtr&, const Index&)`, lines 1265-1412 -/

namespace FreezeGenerator

/-- Message thrown at line 1292. -/
def notAClass (type : String) : String :=
  "\x60" ++ type ++ "\x27 is not a class\n"

/-- Message thrown at line 1314. -/
def typeHasNoDataMember (type member : String) : String :=
  "\x60" ++ type ++ "\x27 has no data member named \x60" ++ member ++ "\x27\n"

/-- Message thrown at line 1327. -/
def memberIsNotAString (member : String) : String :=
  "\x60" ++ member ++ "\x27is not a string \n"

/-- Body of the private `marshalKey(<memberType> key)` (lines 1394-1406):
`valueS` is `key`, or `key.toLowerCase()` for a case-insensitive index. -/
def marshalKeyBody (em : Emitter) (index : Index) (dataMemberType : TypePtr) : List Item :=
  [Item.nl ["Ice.OutputStream ostr = new Ice.OutputStream(communicator(), encoding(), false);"],
   Item.marshalCode dataMemberType (if index.caseSensitive then "key" else "key.toLowerCase()")
     true ""] ++
  (if em.usesClasses dataMemberType then [Item.nl ["ostr.writePendingValues();"]] else []) ++
  [Item.nl ["return ostr.prepareWrite().b;"]]

/-- What lines 1338-1409 hand to `out`: the class of an evictor index.
`name` is the index name without its package, `type` the class that was looked
up, `dataMemberType` the type of the member. -/
def indexClassItems (em : Emitter) (name : String) (index : Index) (type dataMemberType : TypePtr) :
    List Item :=
  [Item.sp, Item.nl ["public class ", name, " extends Freeze.Index"], Item.sb] ++
  [Item.sp, Item.nl ["public"], Item.nl [name, "(String indexName, String facet)"], Item.sb,
   Item.nl ["super(indexName, facet);"], Item.eb] ++
  [Item.sp, Item.nl ["public"], Item.nl [name, "(String indexName)"], Item.sb,
   Item.nl ["super(indexName, \x22\x22);"], Item.eb] ++
  [Item.sp, Item.nl ["public Ice.Identity[]"],
   Item.nl ["findFirst(", em.typeToString dataMemberType, " index, int firstN)"], Item.sb,
   Item.nl ["return untypedFindFirst(marshalKey(index), firstN);"], Item.eb] ++
  [Item.sp, Item.nl ["public Ice.Identity[]"],
   Item.nl ["find(", em.typeToString dataMemberType, " index)"], Item.sb,
   Item.nl ["return untypedFind(marshalKey(index));"], Item.eb] ++
  [Item.sp, Item.nl ["public int"],
   Item.nl ["count(", em.typeToString dataMemberType, " index)"], Item.sb,
   Item.nl ["return untypedCount(marshalKey(index));"], Item.eb] ++
  [Item.sp, Item.nl ["protected java.nio.ByteBuffer"],
   Item.nl ["marshalKey(Ice.Object servant)"], Item.sb,
   Item.nl ["if(servant instanceof ", em.typeToString type, ")"], Item.sb,
   Item.nl [em.typeToString dataMemberType, " key = ((", em.typeToString type, ")servant).",
     index.member, ";"],
   Item.nl ["return marshalKey(key);"], Item.eb,
   Item.nl ["else"], Item.sb, Item.nl ["return null;"], Item.eb, Item.eb] ++
  [Item.sp, Item.nl ["private java.nio.ByteBuffer"],
   Item.nl ["marshalKey(", em.typeToString dataMemberType, " key)"], Item.sb] ++
  marshalKeyBody em index dataMemberType ++ [Item.eb] ++
  [Item.eb]

/-- Embeds `FreezeGenerator::generate(UnitPtr&, const Index&)` (lines 1265-1412),
the overload of `generate` for an evictor index: the checks of lines 1279-1330,
and when none of them throws, what is handed to `out` between `open`
(line 1334) and `close` (line 1411).  A class without definition ends the run
at the dereference of `definition()` at line 1296. -/
def generateIndex (em : Emitter) (u : UnitPtr) (index : Index) : Except Failure (List Item) :=
  match u.lookupType index.type with
  | [] => .error (.thrown (notAValidType index.type))
  | type :: _ =>
    match type with
    | .classDecl _ definition =>
      match definition with
      | none => .error .nullDefinition
      | some dataMembers =>
        match findDataMember index.member dataMembers with
        | none => .error (.thrown (typeHasNoDataMember index.type index.member))
        | some dataMember =>
          if index.caseSensitive = false ∧ isBuiltinString dataMember.2 = false then
            .error (.thrown (memberIsNotAString index.member))
          else
            .ok (indexClassItems em (unqualified index.name) index type dataMember.2)
    | _ => .error (.thrown (notAClass index.type))

end FreezeGenerator

/-! ## Notions used to state the properties of the options and of validation -/

/-- Whether the projected type of an index contains a sequence: the value of
`containsSequence` after `Dictionary::legalKeyType` at lines 324 and 400. -/
def indexContainsSequence (lib : Library) (dict : Dict) (valueType : TypePtr)
    (index : DictIndex) : Bool :=
  match projectedType dict valueType index with
  | some t => (lib.legalKeyType t).2
  | none => false

/-- The read `capitalizedMember[0]` of line 428, `capitalizedMember` being a
copy of the member: `none` when the string has no character at position 0. -/
def firstCharacter (member : String) : Option Char :=
  member.data[0]?

/-- Two member names that differ only in the case of their first character:
the rest is the same and the first characters have the same upper case. -/
def DifferInFirstCase (m1 m2 : String) : Prop :=
  ∃ c1 c2 rest, m1 = String.mk (c1 :: rest) ∧ m2 = String.mk (c2 :: rest) ∧ c1 ≠ c2 ∧
    c1.toUpper = c2.toUpper

/-- A struct with the two members `name` and `Name`. -/
def twoCaseStruct : TypePtr :=
  .struct "Entry" [("name", .builtin .KindString), ("Name", .builtin .KindString)]

/-- A unit declaring the builtins `int`, `string`, `Value`, the class `Account`
and the struct `Entry`. -/
def builtinUnit : UnitPtr where
  lookupType := fun n =>
    if n = "int" then [.builtin .KindInt]
    else if n = "string" then [.builtin .KindString]
    else if n = "Value" then [.builtin .KindValue]
    else if n = "Account" then [accountClass]
    else if n = "Entry" then [twoCaseStruct]
    else []


/-- The local `indexClassName` of lines 680 and 1029: the name of the inner
class of an index. -/
def indexClassName (capitalizedMember : String) : String :=
  capitalizedMember ++ "Index"

/-- The name of the finder written at lines 701 and 718: `findBy` followed by
the capitalized member. -/
def finderName (capitalizedMember : String) : String :=
  "findBy" ++ capitalizedMember


/-- Two strings that differ only in letter case: of the same length, with
characters that have the same lower case at each position. -/
def SameIgnoringCase (s1 s2 : String) : Prop :=
  List.Forall₂ (fun a b : Char => a.toLower = b.toLower) s1.data s2.data


/-! ## Queries, consistency and `rebuild` of the indexed map (spec §4.3, §4.4) -/

namespace IndexedMap

/-- Modelled from the spec: the state of a map whose indices are in step with
its primary namespace (§4.3): every primary key is stored once, and the
namespace of every index is ordered, without repetition, and holds the entry
`(p, k)` exactly when the value stored under `k` projects to `p`. -/
def Consistent {V : Type} (s : Store V) : Prop :=
  (s.primary.map (fun x => x.1)).Nodup ∧
  ∀ ix ∈ s.indices,
    ix.entries.Pairwise (fun a b => entryLE a b = true) ∧ ix.entries.Nodup ∧
    ∀ p k, (p, k) ∈ ix.entries ↔ ∃ v, get s k = some v ∧ ix.project v = p

/-- A map of five entries with one index, the value being its own projection. -/
def fiveProjections : Store Nat :=
  copyInto (emptyStore [fun v => v]) [(1, 3), (2, 5), (3, 7), (4, 10), (5, 12)]

end IndexedMap


/-! ## The codec at run time (spec §3, §4.1, §4.5)

The generated `encode` and `decode` methods call the streams of the run time
(`Ice.OutputStream`, `Ice.InputStream`) and the marshalling code that the Slice
library writes; neither is part of the program embedded above.  They are
modelled here from the spec: a record is a sequence of bytes, numerics have a
fixed width in a fixed byte order (little-endian here), strings and sequences
are prefixed by their length in four bytes, the members of an aggregate follow
each other in declaration order, an encapsulation is a sub-record prefixed by
its length, and the instances that the object references of a value refer to
are written as a table behind the value. -/

namespace Codec

/-- Modelled from the spec: a `TypeDescriptor` of §3: a primitive kind (an
integer of 1, 2, 4 or 8 bytes, a boolean, a float of 4 or 8 bytes, a string),
an aggregate of named members in declaration order, a polymorphic object
reference, a sequence or a map. -/
inductive TypeDescriptor
  | integer (bytes : Nat)
  | boolean
  | float (bytes : Nat)
  | string
  | aggregate (members : List (String × TypeDescriptor))
  | object
  | sequence (element : TypeDescriptor)
  | map (key value : TypeDescriptor)

/-- Modelled from the spec: a value of a `TypeDescriptor` (§3, §9: a tagged
variant over value kinds).  A number is taken by its bit pattern, a string by
its UTF-8 bytes; an object reference holds the identity of an instance of the
object graph, `0` for the null reference and `i + 1` for instance number `i`. -/
inductive Value
  | number (n : Nat)
  | boolean (b : Bool)
  | text (utf8 : List Nat)
  | aggregate (members : List Value)
  | reference (identity : Nat)
  | sequence (elements : List Value)
  | map (entries : List (Value × Value))

/-- Modelled from the spec: the fixed-width encoding of a numeric (§4.1), the
least significant byte first. -/
def encodeNumber : Nat → Nat → List Nat
  | 0, _ => []
  | bytes + 1, n => n % 256 :: encodeNumber bytes (n / 256)

/-- Modelled from the spec: the numeric that fixed-width bytes stand for. -/
def decodeNumber : List Nat → Nat
  | [] => 0
  | b :: rest => b + 256 * decodeNumber rest

/-- Modelled from the spec: reading `count` bytes of a record. -/
def readBytes (count : Nat) (input : List Nat) : Option (List Nat × List Nat) :=
  if count ≤ input.length then some (input.take count, input.drop count) else none

/-- Modelled from the spec: reading a fixed-width numeric. -/
def readNumber (bytes : Nat) (input : List Nat) : Option (Nat × List Nat) :=
  match readBytes bytes input with
  | some (b, rest) => some (decodeNumber b, rest)
  | none => none

/-- Modelled from the spec: a length prefix, a numeric of four bytes; a length
that four bytes cannot hold is an `EncodingError` (§7). -/
def encodeLength (n : Nat) : Option (List Nat) :=
  if n < 256 ^ 4 then some (encodeNumber 4 n) else none

/-- One record behind another, when both were produced. -/
def followedBy (a b : Option (List Nat)) : Option (List Nat) :=
  match a, b with
  | some x, some y => some (x ++ y)
  | _, _ => none

/-- Modelled from the spec: the length-prefixed encoding of a string (§4.1). -/
def encodeText (utf8 : List Nat) : Option (List Nat) :=
  if utf8.all (fun b => b < 256) then followedBy (encodeLength utf8.length) (some utf8) else none

/-- Modelled from the spec: reading a length-prefixed string. -/
def readText (input : List Nat) : Option (List Nat × List Nat) :=
  match readNumber 4 input with
  | some (n, rest) => readBytes n rest
  | none => none

/-- Modelled from the spec: the elements of a sequence, one behind the other. -/
def encodeEach {α : Type} (encodeOne : α → Option (List Nat)) : List α → Option (List Nat)
  | [] => some []
  | x :: xs => followedBy (encodeOne x) (encodeEach encodeOne xs)

/-- Modelled from the spec: reading `count` elements, one behind the other. -/
def decodeRepeat {α : Type} (decodeOne : List Nat → Option (α × List Nat)) :
    Nat → List Nat → Option (List α × List Nat)
  | 0, input => some ([], input)
  | count + 1, input =>
    match decodeOne input with
    | none => none
    | some (x, rest) =>
      match decodeRepeat decodeOne count rest with
      | none => none
      | some (xs, rest1) => some (x :: xs, rest1)

/-- Modelled from the spec: reading an entry of a map, the key then the value. -/
def decodeEntry (decodeKey decodeValue : List Nat → Option (Value × List Nat))
    (input : List Nat) : Option ((Value × Value) × List Nat) :=
  match decodeKey input with
  | none => none
  | some (k, rest) =>
    match decodeValue rest with
    | none => none
    | some (v, rest1) => some ((k, v), rest1)

mutual
/-- Modelled from the spec: `encode(TypeDescriptor, value)` of §4.1 without
encapsulation; `none` is the `EncodingError` of a value that does not fit its
schema. -/
def encodeValue : TypeDescriptor → Value → Option (List Nat)
  | .integer bytes, .number n => if n < 256 ^ bytes then some (encodeNumber bytes n) else none
  | .boolean, .boolean b => some [if b then 1 else 0]
  | .float bytes, .number n => if n < 256 ^ bytes then some (encodeNumber bytes n) else none
  | .string, .text utf8 => encodeText utf8
  | .aggregate members, .aggregate values => encodeMembers members values
  | .object, .reference identity => encodeLength identity
  | .sequence element, .sequence elements =>
    followedBy (encodeLength elements.length) (encodeEach (encodeValue element) elements)
  | .map key value, .map entries =>
    followedBy (encodeLength entries.length)
      (encodeEach (fun e => followedBy (encodeValue key e.1) (encodeValue value e.2)) entries)
  | _, _ => none
/-- Modelled from the spec: the members of an aggregate in declaration order. -/
def encodeMembers : List (String × TypeDescriptor) → List Value → Option (List Nat)
  | [], [] => some []
  | (_, d) :: members, v :: values => followedBy (encodeValue d v) (encodeMembers members values)
  | _, _ => none
end

mutual
/-- Modelled from the spec: `decode(TypeDescriptor, Record)` of §4.1 without
encapsulation: the value and the rest of the record. -/
def decodeValue : TypeDescriptor → List Nat → Option (Value × List Nat)
  | .integer bytes, input =>
    match readNumber bytes input with
    | some (n, rest) => some (.number n, rest)
    | none => none
  | .boolean, input =>
    match readNumber 1 input with
    | some (0, rest) => some (.boolean false, rest)
    | some (1, rest) => some (.boolean true, rest)
    | _ => none
  | .float bytes, input =>
    match readNumber bytes input with
    | some (n, rest) => some (.number n, rest)
    | none => none
  | .string, input =>
    match readText input with
    | some (utf8, rest) => some (.text utf8, rest)
    | none => none
  | .aggregate members, input =>
    match decodeMembers members input with
    | some (values, rest) => some (.aggregate values, rest)
    | none => none
  | .object, input =>
    match readNumber 4 input with
    | some (identity, rest) => some (.reference identity, rest)
    | none => none
  | .sequence element, input =>
    match readNumber 4 input with
    | some (count, rest) =>
      match decodeRepeat (decodeValue element) count rest with
      | some (elements, rest1) => some (.sequence elements, rest1)
      | none => none
    | none => none
  | .map key value, input =>
    match readNumber 4 input with
    | some (count, rest) =>
      match decodeRepeat (decodeEntry (decodeValue key) (decodeValue value)) count rest with
      | some (entries, rest1) => some (.map entries, rest1)
      | none => none
    | none => none
/-- Modelled from the spec: the members of an aggregate in declaration order. -/
def decodeMembers : List (String × TypeDescriptor) → List Nat → Option (List Value × List Nat)
  | [], input => some ([], input)
  | (_, d) :: members, input =>
    match decodeValue d input with
    | none => none
    | some (v, rest) =>
      match decodeMembers members rest with
      | none => none
      | some (values, rest1) => some (v :: values, rest1)
end

mutual
/-- Modelled from the spec: a valid value of a `TypeDescriptor` (§8): a value
of the kind of the descriptor whose numerics fit their width and whose lengths
fit a length prefix. -/
def fits : TypeDescriptor → Value → Bool
  | .integer bytes, .number n => n < 256 ^ bytes
  | .boolean, .boolean _ => true
  | .float bytes, .number n => n < 256 ^ bytes
  | .string, .text utf8 => utf8.all (fun b => b < 256) && utf8.length < 256 ^ 4
  | .aggregate members, .aggregate values => fitsMembers members values
  | .object, .reference identity => identity < 256 ^ 4
  | .sequence element, .sequence elements =>
    elements.length < 256 ^ 4 && elements.all (fits element)
  | .map key value, .map entries =>
    entries.length < 256 ^ 4 && entries.all (fun e => fits key e.1 && fits value e.2)
  | _, _ => false
/-- Modelled from the spec: valid members of an aggregate. -/
def fitsMembers : List (String × TypeDescriptor) → List Value → Bool
  | [], [] => true
  | (_, d) :: members, v :: values => fits d v && fitsMembers members values
  | _, _ => false
end

mutual
/-- Modelled from the spec: the check of the Deferred Reference Resolver (§4.5)
once the object table of `count` instances is consumed: every reference of the
value is null or refers to an instance of the table; a value that fails it has
a `DanglingReference`. -/
def resolved (count : Nat) : TypeDescriptor → Value → Bool
  | .aggregate members, .aggregate values => resolvedMembers count members values
  | .object, .reference identity => identity ≤ count
  | .sequence element, .sequence elements => elements.all (resolved count element)
  | .map key value, .map entries =>
    entries.all (fun e => resolved count key e.1 && resolved count value e.2)
  | _, _ => true
/-- Modelled from the spec: the check of the resolver on the members of an aggregate. -/
def resolvedMembers (count : Nat) : List (String × TypeDescriptor) → List Value → Bool
  | (_, d) :: members, v :: values => resolved count d v && resolvedMembers count members values
  | _, _ => true
end

mutual
/-- Modelled from the spec: whether a value of the descriptor is, or
transitively contains, a polymorphic object reference (§4.1). -/
def containsObject : TypeDescriptor → Bool
  | .aggregate members => membersContainObject members
  | .object => true
  | .sequence element => containsObject element
  | .map key value => containsObject key || containsObject value
  | _ => false
/-- Modelled from the spec: whether a member contains an object reference. -/
def membersContainObject : List (String × TypeDescriptor) → Bool
  | [] => false
  | (_, d) :: members => containsObject d || membersContainObject members
end


mutual
/-- Modelled from the spec: the `TypeDescriptor` of a Slice type, by which the
marshalling code of the Slice library writes and reads a value of the type:
the seven numeric and boolean builtins are primitives of their width, `string`
is the string primitive, the builtin `Object` and a class are polymorphic
object references, a struct is the aggregate of its data members, and a
sequence and a dictionary are the sequence and the map of §3.  Proxies, local
objects and enumerations are none of the kinds of §3. -/
def descriptor : TypePtr → Option TypeDescriptor
  | .builtin .KindByte => some (.integer 1)
  | .builtin .KindBool => some .boolean
  | .builtin .KindShort => some (.integer 2)
  | .builtin .KindInt => some (.integer 4)
  | .builtin .KindLong => some (.integer 8)
  | .builtin .KindFloat => some (.float 4)
  | .builtin .KindDouble => some (.float 8)
  | .builtin .KindString => some .string
  | .builtin .KindObject => some .object
  | .builtin .KindObjectProxy => none
  | .builtin .KindLocalObject => none
  | .builtin .KindValue => some .object
  | .classDecl _ _ => some .object
  | .struct _ dataMembers =>
    match memberDescriptors dataMembers with
    | some members => some (.aggregate members)
    | none => none
  | .sequence _ type =>
    match descriptor type with
    | some element => some (.sequence element)
    | none => none
  | .dictionary _ keyType valueType =>
    match descriptor keyType, descriptor valueType with
    | some key, some value => some (.map key value)
    | _, _ => none
  | .enum _ => none
  | .proxy _ => none
/-- Modelled from the spec: the descriptors of the data members of a struct,
in declaration order. -/
def memberDescriptors : List (String × TypePtr) → Option (List (String × TypeDescriptor))
  | [] => some []
  | (name, type) :: dataMembers =>
    match descriptor type, memberDescriptors dataMembers with
    | some d, some members => some ((name, d) :: members)
    | _, _ => none
end

end Codec

/-! ## Lemmas on the validation loop -/

namespace FreezeGenerator

theorem isBuiltinString_eq_false_iff (t : TypePtr) :
    isBuiltinString t = false ↔ t ≠ TypePtr.builtin Kind.KindString := by
  constructor
  · intro h heq
    rw [heq] at h
    simp [isBuiltinString] at h
  · intro h
    cases t with
    | builtin k => cases k <;> simp_all [isBuiltinString]
    | _ => simp [isBuiltinString]

/-- What an accepted index has passed. -/
theorem indexStep_ok {lib : Library} {prog : String} {dict : Dict} {vt : TypePtr}
    {ix : DictIndex} {st st1 : IndexVectors}
    (h : indexStep lib prog dict vt ix st = .ok st1) :
    ∃ t, projectedType dict vt ix = some t ∧ (lib.legalKeyType t).1 = true ∧
      (ix.caseSensitive = false → isBuiltinString t = true) ∧
      (ix.member = "" → dict.indices.length ≤ 1) ∧
      st1.indexTypes = st.indexTypes ++ [t] := by
  unfold indexStep at h
  by_cases hm : ix.member = ""
  · simp only [hm, if_true] at h
    split_ifs at h with h1 h2 h3 h4 <;>
      (cases h
       exact ⟨vt, by simp [projectedType, hm], by simpa using h2,
         fun hcs => by
           by_contra hb
           exact h3 ⟨hcs, by simpa using hb⟩,
         fun _ => by omega, rfl⟩)
  · simp only [hm, if_false] at h
    cases hd : valueDataMembers dict vt with
    | error e => simp [hd] at h
    | ok dms =>
      cases hf : findDataMember ix.member dms with
      | none => simp [hd, hf] at h
      | some dm =>
        simp only [hd, hf] at h
        split_ifs at h with h2 h3 h4 <;>
          (cases h
           exact ⟨dm.2, by simp [projectedType, hm, hd, hf], by simpa using h2,
             fun hcs => by
               by_contra hb
               exact h3 ⟨hcs, by simpa using hb⟩,
             fun h0 => absurd h0 hm, rfl⟩)

/-- Whether the body fails, and how, does not depend on the vectors built so far. -/
theorem indexStep_error_indep {lib : Library} {prog : String} {dict : Dict} {vt : TypePtr}
    {ix : DictIndex} {st : IndexVectors} {e : Failure} (st1 : IndexVectors)
    (h : indexStep lib prog dict vt ix st = .error e) :
    indexStep lib prog dict vt ix st1 = .error e := by
  unfold indexStep at h ⊢
  by_cases hm : ix.member = ""
  · simp only [hm, if_true] at h ⊢
    split_ifs at h ⊢ <;> exact h
  · simp only [hm, if_false] at h ⊢
    cases hd : valueDataMembers dict vt with
    | error e1 => simpa [hd] using h
    | ok dms =>
      cases hf : findDataMember ix.member dms with
      | none => simpa [hd, hf] using h
      | some dm =>
        simp only [hd, hf] at h ⊢
        split_ifs at h ⊢ <;> exact h

/-- The loop stops at the first index whose body fails. -/
theorem indexLoop_append_error {lib : Library} {prog : String} {dict : Dict} {vt : TypePtr}
    (pre : List DictIndex) (ix : DictIndex) (post : List DictIndex)
    {st0 st : IndexVectors} {e : Failure}
    (hpre : indexLoop lib prog dict vt pre st0 = .ok st)
    (hix : indexStep lib prog dict vt ix st = .error e) :
    indexLoop lib prog dict vt (pre ++ ix :: post) st0 = .error e := by
  induction pre generalizing st0 with
  | nil =>
    simp only [indexLoop] at hpre
    cases hpre
    simp [indexLoop, hix]
  | cons a pre ih =>
    simp only [indexLoop, List.cons_append] at hpre ⊢
    cases ha : indexStep lib prog dict vt a st0 with
    | error e1 => simp [ha] at hpre
    | ok s1 =>
      simp only [ha] at hpre ⊢
      exact ih hpre

/-- Every index of an accepted list was accepted by the loop body. -/
theorem indexLoop_ok_mem {lib : Library} {prog : String} {dict : Dict} {vt : TypePtr}
    {l : List DictIndex} {st0 st : IndexVectors}
    (h : indexLoop lib prog dict vt l st0 = .ok st) {ix : DictIndex} (hix : ix ∈ l) :
    ∃ s s1, indexStep lib prog dict vt ix s = .ok s1 := by
  induction l generalizing st0 with
  | nil => cases hix
  | cons a l ih =>
    simp only [indexLoop] at h
    cases ha : indexStep lib prog dict vt a st0 with
    | error e1 => simp [ha] at h
    | ok s1 =>
      simp only [ha] at h
      rcases List.mem_cons.mp hix with rfl | hmem
      · exact ⟨st0, s1, ha⟩
      · exact ih h hmem

theorem findDataMember_eq_none {member : String} {dms : List DataMember}
    (h : ∀ dm ∈ dms, dm.1 ≠ member) : findDataMember member dms = none := by
  induction dms with
  | nil => rfl
  | cons q rest ih =>
    have hq : q.1 ≠ member := h q (List.mem_cons_self _ _)
    simp only [findDataMember, hq, if_false]
    exact ih (fun dm hdm => h dm (List.mem_cons_of_mem _ hdm))

/-- The data members of a class with a definition, or of a struct. -/
theorem valueDataMembers_aggregate {dict : Dict} {vt : TypePtr} {dms : List DataMember}
    (h : (∃ n, vt = TypePtr.classDecl n (some dms)) ∨ (∃ n, vt = TypePtr.struct n dms)) :
    valueDataMembers dict vt = .ok dms := by
  rcases h with ⟨n, rfl⟩ | ⟨n, rfl⟩ <;> rfl

/-- On a value type that is neither a class nor a struct no data members are obtained. -/
theorem valueDataMembers_other {dict : Dict} {vt : TypePtr}
    (hc : ∀ n d, vt ≠ TypePtr.classDecl n d) (hs : ∀ n d, vt ≠ TypePtr.struct n d) :
    valueDataMembers dict vt = .error (.thrown (neitherClassNorStruct dict.value)) := by
  cases vt with
  | classDecl n d => exact absurd rfl (hc n d)
  | struct n d => exact absurd rfl (hs n d)
  | _ => rfl

/-- The result of `generate` once both type names resolve. -/
theorem generate_resolved {lib : Library} {prog : String} {u : UnitPtr} {dict : Dict}
    {vt : TypePtr} {rest : List TypePtr}
    (hk : u.lookupType dict.key ≠ []) (hv : u.lookupType dict.value = vt :: rest)
    {e : Failure}
    (hl : indexLoop lib prog dict vt dict.indices IndexVectors.empty = .error e) :
    generate lib prog u dict = .error e := by
  unfold generate
  cases hk1 : u.lookupType dict.key with
  | nil => exact absurd hk1 hk
  | cons kt kr => simp [hv, hl]

/-- The loop over the indices does not read the key of the dictionary. -/
theorem indexLoop_key (lib : Library) (prog : String) (dict : Dict) (key1 : String)
    (vt : TypePtr) (l : List DictIndex) (st : IndexVectors) :
    indexLoop lib prog { dict with key := key1 } vt l st = indexLoop lib prog dict vt l st := by
  induction l generalizing st with
  | nil => rfl
  | cons a l ih =>
    have hstep : indexStep lib prog { dict with key := key1 } vt a st =
        indexStep lib prog dict vt a st := by
      cases vt <;> rfl
    simp only [indexLoop, hstep]
    cases indexStep lib prog dict vt a st with
    | error e => rfl
    | ok s1 => exact ih s1

/-- What `generate` has established when it reaches the output stage. -/
theorem generate_ok {lib : Library} {prog : String} {u : UnitPtr} {dict : Dict} {c : Checked}
    (h : generate lib prog u dict = .ok c) :
    (∃ rest, u.lookupType dict.key = c.keyType :: rest) ∧
    (∃ rest, u.lookupType dict.value = c.valueType :: rest) ∧
    indexLoop lib prog dict c.valueType dict.indices IndexVectors.empty = .ok c.vectors := by
  unfold generate at h
  cases hk : u.lookupType dict.key with
  | nil => simp [hk] at h
  | cons kt kr =>
    cases hv : u.lookupType dict.value with
    | nil => simp [hk, hv] at h
    | cons vt vr =>
      simp only [hk, hv] at h
      cases hl : indexLoop lib prog dict vt dict.indices IndexVectors.empty with
      | error e => simp [hl] at h
      | ok vs =>
        simp only [hl] at h
        cases h
        exact ⟨⟨kr, rfl⟩, ⟨vr, rfl⟩, hl⟩

/-- Every index of an accepted dictionary has passed the checks of the loop body. -/
theorem generate_ok_index {lib : Library} {prog : String} {u : UnitPtr} {dict : Dict} {c : Checked}
    (h : generate lib prog u dict = .ok c) {ix : DictIndex} (hix : ix ∈ dict.indices) :
    ∃ t, projectedType dict c.valueType ix = some t ∧ (lib.legalKeyType t).1 = true ∧
      (ix.caseSensitive = false → isBuiltinString t = true) ∧
      (ix.member = "" → dict.indices.length ≤ 1) := by
  obtain ⟨_, _, hl⟩ := generate_ok h
  obtain ⟨s, s1, hs⟩ := indexLoop_ok_mem hl hix
  obtain ⟨t, h1, h2, h3, h4, _⟩ := indexStep_ok hs
  exact ⟨t, h1, h2, h3, h4⟩

end FreezeGenerator

/-! ## Lemmas on the option loops -/

theorem DictIndex.eq_iff (a b : DictIndex) : a.eq b = true ↔ a.member = b.member := by
  simp [DictIndex.eq]

theorem parseDict_indices {lib : Library} {argv0 arg : String} {d : Dict}
    (h : parseDict lib argv0 arg = .ok d) : d.indices = [] := by
  unfold parseDict at h
  simp only at h
  split_ifs at h
  cases h
  rfl

theorem parseDicts_indices {lib : Library} {argv0 : String} (args : List String)
    {dicts0 dicts : List Dict} (h : parseDicts lib argv0 args dicts0 = .ok dicts)
    (h0 : ∀ d ∈ dicts0, d.indices = []) : ∀ d ∈ dicts, d.indices = [] := by
  induction args generalizing dicts0 with
  | nil =>
    simp only [parseDicts] at h
    cases h
    exact h0
  | cons a args ih =>
    simp only [parseDicts] at h
    cases ha : parseDict lib argv0 a with
    | error m => simp [ha] at h
    | ok d0 =>
      simp only [ha] at h
      refine ih h ?_
      intro d hd
      rcases List.mem_append.mp hd with hd | hd
      · exact h0 d hd
      · rw [List.mem_singleton.mp hd]
        exact parseDict_indices ha

theorem firstOfName_of_no_index {dicts : List Dict} (h : ∀ d ∈ dicts, d.indices = []) :
    FirstOfName dicts := by
  unfold FirstOfName
  induction dicts with
  | nil => exact List.Pairwise.nil
  | cons p rest ih =>
    refine List.Pairwise.cons ?_ (ih fun d hd => h d (List.mem_cons_of_mem _ hd))
    intro d hd hne
    exact absurd (h d (List.mem_cons_of_mem _ hd)) hne

/-- The dictionaries after `addIndex`: the old ones, but for one of the given
name that has received the index. -/
theorem addIndex_mem {argv0 arg dictName : String} {index : DictIndex} {dicts dicts1 : List Dict}
    (h : addIndex argv0 arg dictName index dicts = .ok dicts1) {d : Dict} (hd : d ∈ dicts1) :
    d ∈ dicts ∨ (d.name = dictName ∧ ∃ d0 ∈ dicts, d.indices = d0.indices ++ [index] ∧
      ∀ x ∈ d0.indices, x.member ≠ index.member) := by
  induction dicts generalizing dicts1 with
  | nil => simp [addIndex] at h
  | cons p rest ih =>
    unfold addIndex at h
    by_cases hn : p.name = dictName
    · simp only [hn, if_true] at h
      split_ifs at h with hany
      cases h
      rcases List.mem_cons.mp hd with rfl | hmem
      · right
        refine ⟨rfl, p, List.mem_cons_self _ _, rfl, ?_⟩
        intro x hx hxm
        exact hany (List.any_eq_true.mpr ⟨x, hx, (DictIndex.eq_iff x index).mpr hxm⟩)
      · exact Or.inl (List.mem_cons_of_mem _ hmem)
    · simp only [hn, if_false] at h
      cases hr : addIndex argv0 arg dictName index rest with
      | error m => simp [hr] at h
      | ok rest1 =>
        simp only [hr] at h
        cases h
        rcases List.mem_cons.mp hd with rfl | hmem
        · exact Or.inl (List.mem_cons_self _ _)
        · rcases ih hr hmem with h1 | ⟨h1, d0, hd0, h2⟩
          · exact Or.inl (List.mem_cons_of_mem _ h1)
          · exact Or.inr ⟨h1, d0, List.mem_cons_of_mem _ hd0, h2⟩

theorem addIndex_firstOfName {argv0 arg dictName : String} {index : DictIndex}
    {dicts dicts1 : List Dict} (h : addIndex argv0 arg dictName index dicts = .ok dicts1)
    (hinv : FirstOfName dicts) : FirstOfName dicts1 := by
  unfold FirstOfName at hinv ⊢
  induction dicts generalizing dicts1 with
  | nil => simp [addIndex] at h
  | cons p rest ih =>
    obtain ⟨hp, hrest⟩ := List.pairwise_cons.mp hinv
    unfold addIndex at h
    by_cases hn : p.name = dictName
    · simp only [hn, if_true] at h
      split_ifs at h with hany
      cases h
      refine List.Pairwise.cons (fun d hd hne => ?_) hrest
      show dictName ≠ d.name
      rw [← hn]
      exact hp d hd hne
    · simp only [hn, if_false] at h
      cases hr : addIndex argv0 arg dictName index rest with
      | error m => simp [hr] at h
      | ok rest1 =>
        simp only [hr] at h
        cases h
        refine List.Pairwise.cons ?_ (ih hr hrest)
        intro d hd hne
        rcases addIndex_mem hr hd with h1 | ⟨h1, _⟩
        · exact hp d h1 hne
        · rw [h1]
          exact hn

theorem addIndex_nodup {argv0 arg dictName : String} {index : DictIndex}
    {dicts dicts1 : List Dict} (h : addIndex argv0 arg dictName index dicts = .ok dicts1)
    (hinv : ∀ d ∈ dicts, (d.indices.map (fun x => x.member)).Nodup) :
    ∀ d ∈ dicts1, (d.indices.map (fun x => x.member)).Nodup := by
  intro d hd
  rcases addIndex_mem h hd with h1 | ⟨_, d0, hd0, heq, hne⟩
  · exact hinv d h1
  · rw [heq, List.map_append, List.nodup_append]
    refine ⟨hinv d0 hd0, by simp, ?_⟩
    intro m hm hm1
    simp only [List.map_cons, List.map_nil, List.mem_singleton] at hm1
    obtain ⟨x, hx, hxm⟩ := List.mem_map.mp hm
    exact hne x hx (hxm.trans hm1)

/-- An index whose member the dictionary of that name already holds is refused. -/
theorem addIndex_duplicate {argv0 arg dictName : String} {index : DictIndex} {dicts : List Dict}
    (hinv : FirstOfName dicts) {d : Dict} (hd : d ∈ dicts) (hname : d.name = dictName)
    {x : DictIndex} (hx : x ∈ d.indices) (hxm : x.member = index.member) :
    addIndex argv0 arg dictName index dicts = .error (definedTwice argv0 arg) := by
  unfold FirstOfName at hinv
  induction dicts with
  | nil => cases hd
  | cons p rest ih =>
    obtain ⟨hp, hrest⟩ := List.pairwise_cons.mp hinv
    unfold addIndex
    by_cases hn : p.name = dictName
    · have hdp : d = p := by
        rcases List.mem_cons.mp hd with h1 | h1
        · exact h1
        · exact absurd (hn.trans hname.symm) (hp d h1 (List.ne_nil_of_mem hx))
      subst hdp
      have hany : d.indices.any (fun y => y.eq index) = true :=
        List.any_eq_true.mpr ⟨x, hx, (DictIndex.eq_iff x index).mpr hxm⟩
      simp [hn, hany]
    · have hdr : d ∈ rest := by
        rcases List.mem_cons.mp hd with h1 | h1
        · rw [h1] at hname
          exact absurd hname hn
        · exact h1
      simp [hn, ih hrest hdr]

theorem dictIndexStep_firstOfName {lib : Library} {argv0 arg : String} {dicts dicts1 : List Dict}
    (h : dictIndexStep lib argv0 arg dicts = .ok dicts1) (hinv : FirstOfName dicts) :
    FirstOfName dicts1 := by
  unfold dictIndexStep at h
  cases hp : parseDictIndex lib argv0 arg with
  | error m => simp [hp] at h
  | ok r =>
    obtain ⟨dictName, index⟩ := r
    simp only [hp] at h
    exact addIndex_firstOfName h hinv

theorem dictIndexStep_nodup {lib : Library} {argv0 arg : String} {dicts dicts1 : List Dict}
    (h : dictIndexStep lib argv0 arg dicts = .ok dicts1)
    (hinv : ∀ d ∈ dicts, (d.indices.map (fun x => x.member)).Nodup) :
    ∀ d ∈ dicts1, (d.indices.map (fun x => x.member)).Nodup := by
  unfold dictIndexStep at h
  cases hp : parseDictIndex lib argv0 arg with
  | error m => simp [hp] at h
  | ok r =>
    obtain ⟨dictName, index⟩ := r
    simp only [hp] at h
    exact addIndex_nodup h hinv

theorem parseDictIndices_inv {lib : Library} {argv0 : String} (args : List String)
    {dicts dicts1 : List Dict} (h : parseDictIndices lib argv0 args dicts = .ok dicts1)
    (hfirst : FirstOfName dicts)
    (hnodup : ∀ d ∈ dicts, (d.indices.map (fun x => x.member)).Nodup) :
    FirstOfName dicts1 ∧ ∀ d ∈ dicts1, (d.indices.map (fun x => x.member)).Nodup := by
  induction args generalizing dicts with
  | nil =>
    simp only [parseDictIndices] at h
    cases h
    exact ⟨hfirst, hnodup⟩
  | cons a args ih =>
    simp only [parseDictIndices] at h
    cases ha : dictIndexStep lib argv0 a dicts with
    | error m => simp [ha] at h
    | ok d1 =>
      simp only [ha] at h
      exact ih h (dictIndexStep_firstOfName ha hfirst) (dictIndexStep_nodup ha hnodup)

theorem parseDictIndices_append {lib : Library} {argv0 : String} (pre l : List String)
    {dicts dicts1 : List Dict} (h : parseDictIndices lib argv0 pre dicts = .ok dicts1) :
    parseDictIndices lib argv0 (pre ++ l) dicts = parseDictIndices lib argv0 l dicts1 := by
  induction pre generalizing dicts with
  | nil =>
    simp only [parseDictIndices] at h
    cases h
    rfl
  | cons a pre ih =>
    simp only [parseDictIndices, List.cons_append] at h ⊢
    cases ha : dictIndexStep lib argv0 a dicts with
    | error m => simp [ha] at h
    | ok d1 =>
      simp only [ha] at h ⊢
      exact ih h

/-- The `--dict-index` loop stops with the defined-twice error at an argument
that names a dictionary already holding an index on the same member. -/
theorem parseDictIndices_duplicate {lib : Library} {argv0 : String}
    (pre : List String) (arg : String) (post : List String)
    {dicts0 dicts1 : List Dict} (h0 : ∀ d ∈ dicts0, d.indices = [])
    (hpre : parseDictIndices lib argv0 pre dicts0 = .ok dicts1)
    {dictName : String} {index : DictIndex}
    (harg : parseDictIndex lib argv0 arg = .ok (dictName, index))
    {d : Dict} (hd : d ∈ dicts1) (hname : d.name = dictName)
    {x : DictIndex} (hx : x ∈ d.indices) (hxm : x.member = index.member) :
    parseDictIndices lib argv0 (pre ++ arg :: post) dicts0 = .error (definedTwice argv0 arg) := by
  have hinv := (parseDictIndices_inv pre hpre (firstOfName_of_no_index h0)
    (fun d hd => by rw [h0 d hd]; exact List.nodup_nil)).1
  rw [parseDictIndices_append pre (arg :: post) hpre]
  simp [parseDictIndices, dictIndexStep, harg, addIndex_duplicate hinv hd hname hx hxm]

/-! ## Duplicate index definitions (option processing) -/

/-- C1: with `--help` and `--version` absent, (a) a `--dict-index` argument that
names a dictionary which, after the arguments before it, already holds an index
with the same member (whatever the two case flags) stops the `--dict-index` loop
with the defined-twice error and makes `compile` return failure; (b) whenever
`compile` returns success, option processing has produced dictionaries whose
index lists have pairwise distinct members, hence at most one empty member. -/
theorem compile_rejects_duplicate_index (lib : Library) (back : BackEnd) (argv0 : String)
    (opts : Options) (front : FrontEnd)
    (hhelp : opts.help = false) (hversion : opts.version = false) :
    (∀ (dicts0 dicts1 : List Dict) (pre post : List String) (arg dictName : String)
        (index x : DictIndex) (d : Dict),
        parseDicts lib argv0 opts.dict [] = .ok dicts0 →
        opts.dictIndex = pre ++ arg :: post →
        parseDictIndices lib argv0 pre dicts0 = .ok dicts1 →
        parseDictIndex lib argv0 arg = .ok (dictName, index) →
        d ∈ dicts1 → d.name = dictName → x ∈ d.indices → x.member = index.member →
        parseDictIndices lib argv0 opts.dictIndex dicts0 = .error (definedTwice argv0 arg) ∧
        ∃ m, compile lib back argv0 opts front = .failure m) ∧
    (compile lib back argv0 opts front = .success →
      ∃ dicts indices, processOptions lib argv0 opts = .ok (dicts, indices) ∧
        ∀ d ∈ dicts, (d.indices.map (fun x => x.member)).Nodup ∧
          (d.indices.map (fun x => x.member)).count "" ≤ 1) := by
  constructor
  · intro dicts0 dicts1 pre post arg dictName index x d hd0 hsplit hpre harg hd hname hx hxm
    have h0 : ∀ d ∈ dicts0, d.indices = [] :=
      parseDicts_indices opts.dict hd0 (fun d hd => absurd hd (List.not_mem_nil d))
    have hdup := parseDictIndices_duplicate pre arg post h0 hpre harg hd hname hx hxm
    rw [← hsplit] at hdup
    refine ⟨hdup, ?_⟩
    cases hi : parseIndices lib argv0 opts.index [] with
    | error m =>
      exact ⟨m, by simp [compile, processOptions, hhelp, hversion, hd0, hi]⟩
    | ok indices =>
      exact ⟨definedTwice argv0 arg,
        by simp [compile, processOptions, hhelp, hversion, hd0, hi, hdup]⟩
  · intro hs
    cases hp : processOptions lib argv0 opts with
    | error m =>
      unfold compile at hs
      simp [hhelp, hversion, hp] at hs
    | ok r =>
      obtain ⟨dicts, indices⟩ := r
      refine ⟨dicts, indices, rfl, ?_⟩
      unfold processOptions at hp
      cases hd0 : parseDicts lib argv0 opts.dict [] with
      | error m => simp [hd0] at hp
      | ok dicts0 =>
        cases hi : parseIndices lib argv0 opts.index [] with
        | error m => simp [hd0, hi] at hp
        | ok indices0 =>
          cases hdi : parseDictIndices lib argv0 opts.dictIndex dicts0 with
          | error m => simp [hd0, hi, hdi] at hp
          | ok dicts2 =>
            simp only [hd0, hi, hdi] at hp
            cases hp
            have h0 : ∀ d ∈ dicts0, d.indices = [] :=
              parseDicts_indices opts.dict hd0 (fun d hd => absurd hd (List.not_mem_nil d))
            have hinv := (parseDictIndices_inv opts.dictIndex hdi (firstOfName_of_no_index h0)
              (fun d hd => by rw [h0 d hd]; exact List.nodup_nil)).2
            intro d hd
            exact ⟨hinv d hd, List.nodup_iff_count_le_one.mp (hinv d hd) ""⟩

/-- A run stopped by a second index on `name` that differs only in case
sensitivity, and a successful run with three distinct indices. -/
theorem compile_rejects_duplicate_index_witness :
    (parseDictIndices sampleLibrary "slice2freezej"
        ["D,name", "D , name, case-insensitive"]
        [⟨"D", "int", "Person", []⟩] =
      .error (definedTwice "slice2freezej" "D , name, case-insensitive") ∧
      ∃ m, compile sampleLibrary sampleBackEnd "slice2freezej"
        (sampleOptions ["D, int, Person"] ["D,name", "D , name, case-insensitive"])
        (.parsed sampleUnit true false) = .failure m) ∧
    ∃ dicts indices, processOptions sampleLibrary "slice2freezej"
        (sampleOptions ["D, int, Person"] ["D,name", "D,age"]) = .ok (dicts, indices) ∧
      ∀ d ∈ dicts, (d.indices.map (fun x => x.member)).Nodup ∧
        (d.indices.map (fun x => x.member)).count "" ≤ 1 :=
  ⟨(compile_rejects_duplicate_index sampleLibrary sampleBackEnd "slice2freezej"
      (sampleOptions ["D, int, Person"] ["D,name", "D , name, case-insensitive"])
      (.parsed sampleUnit true false) rfl rfl).1
      [⟨"D", "int", "Person", []⟩] [⟨"D", "int", "Person", [⟨"name", true⟩]⟩]
      ["D,name"] [] "D , name, case-insensitive" "D" ⟨"name", false⟩ ⟨"name", true⟩
      ⟨"D", "int", "Person", [⟨"name", true⟩]⟩
      rfl rfl rfl rfl (by simp) rfl (by simp) rfl,
   (compile_rejects_duplicate_index sampleLibrary sampleBackEnd "slice2freezej"
      (sampleOptions ["D, int, Person"] ["D,name", "D,age"])
      (.parsed sampleUnit true false) rfl rfl).2 rfl⟩

/-! ## Equality of index definitions -/

/-- C2: `a == b` holds exactly when the members are equal, whatever the
`caseSensitive` flags, and `a != b` is the negation of `a == b`. -/
theorem dictIndex_eq_iff_member (a b : DictIndex) :
    (a.eq b = true ↔ a.member = b.member) ∧ a.ne b = !a.eq b := by
  refine ⟨DictIndex.eq_iff a b, ?_⟩
  simp [DictIndex.ne, DictIndex.eq, bne]

/-! ## Validation failures of `generate` -/

namespace FreezeGenerator

/-- C3: a dictionary with two or more indices, one of which has no member, does
not get through `generate`: the run ends in a failure (a thrown message, or the
null dereference of line 363) before the output stage. -/
theorem generate_fails_whole_value_not_sole (lib : Library) (prog : String) (u : UnitPtr)
    (dict : Dict) (ix : DictIndex)
    (hlen : 2 ≤ dict.indices.length) (hix : ix ∈ dict.indices) (hm : ix.member = "") :
    ∃ e, generate lib prog u dict = .error e := by
  cases h : generate lib prog u dict with
  | error e => exact ⟨e, rfl⟩
  | ok c =>
    obtain ⟨t, _, _, _, h4⟩ := generate_ok_index h hix
    have := h4 hm
    omega

/-- A whole-value index next to an index on `name`. -/
theorem generate_fails_whole_value_not_sole_witness :
    2 ≤ (Dict.mk "D" "int" "Person" [⟨"", true⟩, ⟨"name", true⟩]).indices.length ∧
    (⟨"", true⟩ : DictIndex) ∈ (Dict.mk "D" "int" "Person" [⟨"", true⟩, ⟨"name", true⟩]).indices ∧
    ∃ e, generate sampleLibrary "slice2freezej" sampleUnit
      ⟨"D", "int", "Person", [⟨"", true⟩, ⟨"name", true⟩]⟩ = .error e :=
  ⟨by decide, by decide,
    generate_fails_whole_value_not_sole sampleLibrary "slice2freezej" sampleUnit
      ⟨"D", "int", "Person", [⟨"", true⟩, ⟨"name", true⟩]⟩ ⟨"", true⟩
      (by decide) (by decide) rfl⟩

/-- C4: when the value type resolves to `vt` and some index is case-insensitive
while its projected type `t` is not the builtin string, `generate` fails before
the output stage. -/
theorem generate_fails_case_insensitive_non_string (lib : Library) (prog : String) (u : UnitPtr)
    (dict : Dict) (vt : TypePtr) (rest : List TypePtr) (ix : DictIndex) (t : TypePtr)
    (hv : u.lookupType dict.value = vt :: rest)
    (hix : ix ∈ dict.indices) (hcs : ix.caseSensitive = false)
    (hp : projectedType dict vt ix = some t) (ht : t ≠ TypePtr.builtin Kind.KindString) :
    ∃ e, generate lib prog u dict = .error e := by
  cases h : generate lib prog u dict with
  | error e => exact ⟨e, rfl⟩
  | ok c =>
    obtain ⟨_, ⟨r, hr⟩, _⟩ := generate_ok h
    obtain ⟨t1, h1, _, h3, _⟩ := generate_ok_index h hix
    rw [hv] at hr
    cases hr
    rw [hp] at h1
    cases h1
    have := h3 hcs
    rw [(isBuiltinString_eq_false_iff t).mpr ht] at this
    cases this

/-- A case-insensitive index on the `int` member `age` of `Person`. -/
theorem generate_fails_case_insensitive_non_string_witness :
    sampleUnit.lookupType "Person" = [personStruct] ∧
    projectedType ⟨"D", "int", "Person", [⟨"age", false⟩]⟩ personStruct ⟨"age", false⟩ =
      some (TypePtr.builtin Kind.KindInt) ∧
    ∃ e, generate sampleLibrary "slice2freezej" sampleUnit
      ⟨"D", "int", "Person", [⟨"age", false⟩]⟩ = .error e :=
  ⟨rfl, rfl,
    generate_fails_case_insensitive_non_string sampleLibrary "slice2freezej" sampleUnit
      ⟨"D", "int", "Person", [⟨"age", false⟩]⟩ personStruct [] ⟨"age", false⟩
      (TypePtr.builtin Kind.KindInt) rfl (by decide) rfl rfl (by simp)⟩

/-- C5 (as stated, refuted): `Person` has no data member `nonexistent`, yet the
dictionary with the indices `weight`, `nonexistent` is rejected for `weight`
(a `double`, not a legal key), not with the unknown-member error. -/
theorem unknown_member_error_not_reported :
    sampleUnit.lookupType "Person" = [personStruct] ∧
    findDataMember "nonexistent" [("name", TypePtr.builtin Kind.KindString),
      ("age", TypePtr.builtin Kind.KindInt), ("weight", TypePtr.builtin Kind.KindDouble)] = none ∧
    generate sampleLibrary "slice2freezej" sampleUnit
      ⟨"D", "int", "Person", [⟨"weight", true⟩, ⟨"nonexistent", true⟩]⟩ =
        .error (.thrown (cannotBeIndexKey "weight")) ∧
    generate sampleLibrary "slice2freezej" sampleUnit
      ⟨"D", "int", "Person", [⟨"weight", true⟩, ⟨"nonexistent", true⟩]⟩ ≠
        .error (.thrown (noDataMember "D" "nonexistent")) := by
  refine ⟨rfl, rfl, rfl, ?_⟩
  intro h
  have h1 : (Except.error (Failure.thrown (cannotBeIndexKey "weight")) : Except Failure Checked) =
      .error (.thrown (noDataMember "D" "nonexistent")) := h
  injection h1 with h2
  injection h2 with h3
  revert h3
  decide

/-- C5 (amended): when the value type resolves to a class with a definition or
to a struct and a member index names none of its data members, `generate`
fails; the failure is the unknown-member error whenever the key type resolves
and the indices before that one pass their checks. -/
theorem generate_unknown_member (lib : Library) (prog : String) (u : UnitPtr) (dict : Dict)
    (vt : TypePtr) (rest : List TypePtr) (ix : DictIndex) (dms : List DataMember)
    (hv : u.lookupType dict.value = vt :: rest)
    (hix : ix ∈ dict.indices) (hm : ix.member ≠ "")
    (hagg : (∃ n, vt = TypePtr.classDecl n (some dms)) ∨ (∃ n, vt = TypePtr.struct n dms))
    (hnot : ∀ dm ∈ dms, dm.1 ≠ ix.member) :
    (∃ e, generate lib prog u dict = .error e) ∧
    (∀ pre post st, u.lookupType dict.key ≠ [] → dict.indices = pre ++ ix :: post →
      indexLoop lib prog dict vt pre IndexVectors.empty = .ok st →
      generate lib prog u dict = .error (.thrown (noDataMember dict.name ix.member))) := by
  have hstep : ∀ st, indexStep lib prog dict vt ix st =
      .error (.thrown (noDataMember dict.name ix.member)) := by
    intro st
    simp [indexStep, hm, valueDataMembers_aggregate hagg, findDataMember_eq_none hnot]
  constructor
  · cases h : generate lib prog u dict with
    | error e => exact ⟨e, rfl⟩
    | ok c =>
      obtain ⟨_, ⟨r, hr⟩, hl⟩ := generate_ok h
      rw [hv] at hr
      cases hr
      obtain ⟨s, s1, hs⟩ := indexLoop_ok_mem hl hix
      rw [hstep s] at hs
      cases hs
  · intro pre post st hk hsplit hpre
    apply generate_resolved hk hv
    rw [hsplit]
    exact indexLoop_append_error pre ix post hpre (hstep st)

/-- An index on `nonexistent` after an accepted index on `name`. -/
theorem generate_unknown_member_witness :
    sampleUnit.lookupType "Person" = [personStruct] ∧
    generate sampleLibrary "slice2freezej" sampleUnit
      ⟨"D", "int", "Person", [⟨"name", true⟩, ⟨"nonexistent", true⟩]⟩ =
        .error (.thrown (noDataMember "D" "nonexistent")) :=
  ⟨rfl,
    (generate_unknown_member sampleLibrary "slice2freezej" sampleUnit
      ⟨"D", "int", "Person", [⟨"name", true⟩, ⟨"nonexistent", true⟩]⟩ personStruct []
      ⟨"nonexistent", true⟩
      [("name", TypePtr.builtin Kind.KindString), ("age", TypePtr.builtin Kind.KindInt),
        ("weight", TypePtr.builtin Kind.KindDouble)]
      rfl (by decide) (by decide) (Or.inr ⟨"Person", rfl⟩) (by decide)).2
      [⟨"name", true⟩] []
      ⟨[TypePtr.builtin Kind.KindString], ["name"], ["Name"], ["name"], []⟩
      (by simp [sampleUnit]) rfl rfl⟩

/-- C6 (as stated, refuted): the value type `int` is no aggregate and `x` is a
member index, yet the dictionary is rejected for the whole-value index that
stands first, with the bad-index error. -/
theorem not_an_aggregate_error_not_reported :
    sampleUnit.lookupType "int" = [TypePtr.builtin Kind.KindInt] ∧
    generate sampleLibrary "slice2freezej" sampleUnit
      ⟨"D", "int", "int", [⟨"", true⟩, ⟨"x", true⟩]⟩ = .error (.thrown (badIndex "D")) ∧
    generate sampleLibrary "slice2freezej" sampleUnit
      ⟨"D", "int", "int", [⟨"", true⟩, ⟨"x", true⟩]⟩ ≠
        .error (.thrown (neitherClassNorStruct "int")) := by
  refine ⟨rfl, rfl, ?_⟩
  intro h
  have h1 : (Except.error (Failure.thrown (badIndex "D")) : Except Failure Checked) =
      .error (.thrown (neitherClassNorStruct "int")) := h
  injection h1 with h2
  injection h2 with h3
  revert h3
  decide

/-- C6 (amended): when the value type resolves to a type that is neither a
class nor a struct and the dictionary has a member index, `generate` fails;
the loop body refuses every member index with the not-an-aggregate error
whatever its member name; and that is the error of `generate` whenever the key
type resolves and the first index is a member index. -/
theorem generate_not_an_aggregate (lib : Library) (prog : String) (u : UnitPtr) (dict : Dict)
    (vt : TypePtr) (rest : List TypePtr) (ix : DictIndex)
    (hv : u.lookupType dict.value = vt :: rest)
    (hix : ix ∈ dict.indices) (hm : ix.member ≠ "")
    (hc : ∀ n d, vt ≠ TypePtr.classDecl n d) (hs : ∀ n d, vt ≠ TypePtr.struct n d) :
    (∃ e, generate lib prog u dict = .error e) ∧
    (∀ (jx : DictIndex) (st : IndexVectors), jx.member ≠ "" →
      indexStep lib prog dict vt jx st = .error (.thrown (neitherClassNorStruct dict.value))) ∧
    (∀ first others, u.lookupType dict.key ≠ [] → dict.indices = first :: others →
      first.member ≠ "" →
      generate lib prog u dict = .error (.thrown (neitherClassNorStruct dict.value))) := by
  have hstep : ∀ (jx : DictIndex) (st : IndexVectors), jx.member ≠ "" →
      indexStep lib prog dict vt jx st =
        .error (.thrown (neitherClassNorStruct dict.value)) := by
    intro jx st hj
    simp [indexStep, hj, valueDataMembers_other hc hs]
  refine ⟨?_, hstep, ?_⟩
  · cases h : generate lib prog u dict with
    | error e => exact ⟨e, rfl⟩
    | ok c =>
      obtain ⟨_, ⟨r, hr⟩, hl⟩ := generate_ok h
      rw [hv] at hr
      cases hr
      obtain ⟨s, s1, hs1⟩ := indexLoop_ok_mem hl hix
      rw [hstep ix s hm] at hs1
      cases hs1
  · intro first others hk hsplit hf
    apply generate_resolved hk hv
    rw [hsplit]
    exact indexLoop_append_error [] first others rfl (hstep first IndexVectors.empty hf)

/-- An index on member `x` of a dictionary whose value type is `int`. -/
theorem generate_not_an_aggregate_witness :
    sampleUnit.lookupType "int" = [TypePtr.builtin Kind.KindInt] ∧
    generate sampleLibrary "slice2freezej" sampleUnit ⟨"D", "int", "int", [⟨"x", true⟩]⟩ =
      .error (.thrown (neitherClassNorStruct "int")) :=
  ⟨rfl,
    (generate_not_an_aggregate sampleLibrary "slice2freezej" sampleUnit
      ⟨"D", "int", "int", [⟨"x", true⟩]⟩ (TypePtr.builtin Kind.KindInt) [] ⟨"x", true⟩
      rfl (by decide) (by decide) (by simp) (by simp)).2.2
      ⟨"x", true⟩ [] (by simp [sampleUnit]) rfl (by decide)⟩

/-- C7: when the key type name or the value type name does not resolve,
`generate` throws the not-a-valid-type message; it names the key when the key
does not resolve (whether or not the value resolves) and the value otherwise. -/
theorem generate_unknown_type (lib : Library) (prog : String) (u : UnitPtr) (dict : Dict)
    (h : u.lookupType dict.key = [] ∨ u.lookupType dict.value = []) :
    generate lib prog u dict =
      .error (.thrown (notAValidType
        (if (u.lookupType dict.key).isEmpty then dict.key else dict.value))) := by
  unfold generate
  cases hk : u.lookupType dict.key with
  | nil => simp
  | cons kt kr =>
    rcases h with h | h
    · rw [hk] at h
      cases h
    · simp [h]

/-- Both names unresolved: the key is the one reported. -/
theorem generate_unknown_type_witness :
    (sampleUnit.lookupType "Nope" = [] ∨ sampleUnit.lookupType "Nada" = []) ∧
    generate sampleLibrary "slice2freezej" sampleUnit ⟨"D", "Nope", "Nada", []⟩ =
      .error (.thrown (notAValidType "Nope")) :=
  ⟨Or.inl rfl,
    generate_unknown_type sampleLibrary "slice2freezej" sampleUnit ⟨"D", "Nope", "Nada", []⟩
      (Or.inl rfl)⟩

/-- C8 (as stated, refuted): the key type `Account` resolves to a class, which
is not a legal key type, and the dictionary is accepted all the same: `generate`
reaches the output stage and `compile` returns success. -/
theorem illegal_key_type_accepted :
    sampleUnit.lookupType "Account" = [accountClass] ∧
    (sampleLibrary.legalKeyType accountClass).1 = false ∧
    generate sampleLibrary "slice2freezej" sampleUnit ⟨"D", "Account", "int", []⟩ =
      .ok ⟨"D", accountClass, TypePtr.builtin Kind.KindInt, IndexVectors.empty⟩ ∧
    compile sampleLibrary sampleBackEnd "slice2freezej"
      (sampleOptions ["D,Account,int"] []) (.parsed sampleUnit true false) = .success :=
  ⟨rfl, rfl, rfl, rfl⟩

/-- C8 (amended): of the key type `generate` checks only that its name resolves.
For a dictionary whose key resolves, replacing the key by any other name that
resolves, legal key type or not, leaves the failure of `generate` unchanged;
and with a resolving value type and no index the dictionary is accepted
whatever the key type is. -/
theorem generate_key_only_resolved (lib : Library) (prog : String) (u : UnitPtr) (dict : Dict)
    (hk : u.lookupType dict.key ≠ []) :
    (∀ key1, u.lookupType key1 ≠ [] → ∀ e,
      generate lib prog u dict = .error e ↔
        generate lib prog u { dict with key := key1 } = .error e) ∧
    (u.lookupType dict.value ≠ [] → dict.indices = [] →
      ∃ c, generate lib prog u dict = .ok c) := by
  constructor
  · intro key1 hk1 e
    unfold generate
    cases h0 : u.lookupType dict.key with
    | nil => exact absurd h0 hk
    | cons kt kr =>
      cases h1 : u.lookupType key1 with
      | nil => exact absurd h1 hk1
      | cons kt1 kr1 =>
        cases hv : u.lookupType dict.value with
        | nil => simp [h1, hv]
        | cons vt vr =>
          simp only [h1, hv, indexLoop_key]
          cases indexLoop lib prog dict vt dict.indices IndexVectors.empty with
          | error e1 => simp
          | ok vs => simp
  · intro hv hnil
    unfold generate
    cases h0 : u.lookupType dict.key with
    | nil => exact absurd h0 hk
    | cons kt kr =>
      cases h1 : u.lookupType dict.value with
      | nil => exact absurd h1 hv
      | cons vt vr =>
        exact ⟨⟨unqualified dict.name, kt, vt, IndexVectors.empty⟩, by simp [hnil, indexLoop]⟩

/-- The rejection of the index on `weight` is the same under the class key
`Account` as under the key `int`, and a dictionary keyed by `Account` without
index is accepted. -/
theorem generate_key_only_resolved_witness :
    (generate sampleLibrary "slice2freezej" sampleUnit
        ⟨"D", "Account", "Person", [⟨"weight", true⟩]⟩ =
          .error (.thrown (cannotBeIndexKey "weight")) ↔
      generate sampleLibrary "slice2freezej" sampleUnit
        ⟨"D", "int", "Person", [⟨"weight", true⟩]⟩ =
          .error (.thrown (cannotBeIndexKey "weight"))) ∧
    ∃ c, generate sampleLibrary "slice2freezej" sampleUnit ⟨"D", "Account", "int", []⟩ = .ok c :=
  ⟨(generate_key_only_resolved sampleLibrary "slice2freezej" sampleUnit
      ⟨"D", "Account", "Person", [⟨"weight", true⟩]⟩ (by simp [sampleUnit])).1 "int"
      (by simp [sampleUnit]) (.thrown (cannotBeIndexKey "weight")),
   (generate_key_only_resolved sampleLibrary "slice2freezej" sampleUnit
      ⟨"D", "Account", "int", []⟩ (by simp [sampleUnit])).2 (by simp [sampleUnit]) rfl⟩

/-- C9: (a) when `generate` accepts a dictionary, its value type is the resolved
one and every index has a projected type that `legalKeyType` accepts; (b) an
index whose projected type `legalKeyType` refuses makes `generate` fail. -/
theorem generate_index_types_legal (lib : Library) (prog : String) (u : UnitPtr) (dict : Dict) :
    (∀ c, generate lib prog u dict = .ok c →
      (∃ rest, u.lookupType dict.value = c.valueType :: rest) ∧
      ∀ ix ∈ dict.indices, ∃ t, projectedType dict c.valueType ix = some t ∧
        (lib.legalKeyType t).1 = true) ∧
    (∀ vt rest ix t, u.lookupType dict.value = vt :: rest → ix ∈ dict.indices →
      projectedType dict vt ix = some t → (lib.legalKeyType t).1 = false →
      ∃ e, generate lib prog u dict = .error e) := by
  constructor
  · intro c h
    refine ⟨(generate_ok h).2.1, ?_⟩
    intro ix hix
    obtain ⟨t, h1, h2, _⟩ := generate_ok_index h hix
    exact ⟨t, h1, h2⟩
  · intro vt rest ix t hv hix hp hlegal
    cases h : generate lib prog u dict with
    | error e => exact ⟨e, rfl⟩
    | ok c =>
      obtain ⟨_, ⟨r, hr⟩, _⟩ := generate_ok h
      obtain ⟨t1, h1, h2, _⟩ := generate_ok_index h hix
      rw [hv] at hr
      cases hr
      rw [hp] at h1
      cases h1
      rw [hlegal] at h2
      cases h2

/-- The accepted indices `name`, `age` of `Person` have legal types; the index
on the `double` member `weight` is refused. -/
theorem generate_index_types_legal_witness :
    (∀ ix ∈ [(⟨"name", true⟩ : DictIndex), ⟨"age", true⟩],
      ∃ t, projectedType ⟨"D", "int", "Person", [⟨"name", true⟩, ⟨"age", true⟩]⟩ personStruct ix
          = some t ∧ (sampleLibrary.legalKeyType t).1 = true) ∧
    ∃ e, generate sampleLibrary "slice2freezej" sampleUnit
      ⟨"D", "int", "Person", [⟨"weight", true⟩]⟩ = .error e :=
  ⟨((generate_index_types_legal sampleLibrary "slice2freezej" sampleUnit
      ⟨"D", "int", "Person", [⟨"name", true⟩, ⟨"age", true⟩]⟩).1
      ⟨"D", TypePtr.builtin Kind.KindInt, personStruct,
        ⟨[TypePtr.builtin Kind.KindString, TypePtr.builtin Kind.KindInt], ["name", "age"],
          ["Name", "Age"], ["name", "age"], []⟩⟩ rfl).2,
   (generate_index_types_legal sampleLibrary "slice2freezej" sampleUnit
      ⟨"D", "int", "Person", [⟨"weight", true⟩]⟩).2 personStruct [] ⟨"weight", true⟩
      (TypePtr.builtin Kind.KindDouble) rfl (by decide) rfl rfl⟩

end FreezeGenerator

/-! ## Order of the checks -/

/-- C10 (as stated, refuted): the key type `Nope` of dictionary `D` does not
resolve and `D` is given two indices on `name`; `generate` alone would throw
the unknown-type message, but `compile` returns failure with the defined-twice
error, not with the unknown-type error. -/
theorem duplicate_reported_before_unknown_type :
    FreezeGenerator.generate sampleLibrary "slice2freezej" sampleUnit
      ⟨"D", "Nope", "Person", [⟨"name", true⟩, ⟨"name", true⟩]⟩ =
        .error (.thrown (FreezeGenerator.notAValidType "Nope")) ∧
    compile sampleLibrary sampleBackEnd "slice2freezej"
      (sampleOptions ["D,Nope,Person"] ["D,name", "D,name"]) (.parsed sampleUnit true false) =
        .failure (definedTwice "slice2freezej" "D,name") ∧
    compile sampleLibrary sampleBackEnd "slice2freezej"
      (sampleOptions ["D,Nope,Person"] ["D,name", "D,name"]) (.parsed sampleUnit true false) ≠
        .failure (caught "slice2freezej" (FreezeGenerator.notAValidType "Nope")) := by
  refine ⟨rfl, rfl, ?_⟩
  decide

/-- C10 (amended): duplicate detection comes first, in `compile`, while the
options are processed: with `--help` and `--version` absent and well-formed
`--dict` and `--index` arguments, a `--dict-index` argument repeating a member
of its dictionary makes `compile` return the defined-twice failure whatever the
front end delivers.  `generate` then checks the key name, the value name, and
the indices one after the other in input order, and reports the first failure. -/
theorem compile_checks_in_order (lib : Library) (back : BackEnd) (argv0 : String) :
    (∀ (opts : Options) (front : FrontEnd) (dicts0 dicts1 : List Dict) (indices : List Index)
        (pre post : List String) (arg dictName : String) (index x : DictIndex) (d : Dict),
        opts.help = false → opts.version = false →
        parseDicts lib argv0 opts.dict [] = .ok dicts0 →
        parseIndices lib argv0 opts.index [] = .ok indices →
        opts.dictIndex = pre ++ arg :: post →
        parseDictIndices lib argv0 pre dicts0 = .ok dicts1 →
        parseDictIndex lib argv0 arg = .ok (dictName, index) →
        d ∈ dicts1 → d.name = dictName → x ∈ d.indices → x.member = index.member →
        compile lib back argv0 opts front = .failure (definedTwice argv0 arg)) ∧
    (∀ (u : UnitPtr) (dict : Dict), u.lookupType dict.key = [] →
        FreezeGenerator.generate lib argv0 u dict =
          .error (.thrown (FreezeGenerator.notAValidType dict.key))) ∧
    (∀ (u : UnitPtr) (dict : Dict), u.lookupType dict.key ≠ [] → u.lookupType dict.value = [] →
        FreezeGenerator.generate lib argv0 u dict =
          .error (.thrown (FreezeGenerator.notAValidType dict.value))) ∧
    (∀ (u : UnitPtr) (dict : Dict) (vt : TypePtr) (rest : List TypePtr)
        (pre post : List DictIndex) (ix : DictIndex) (st : FreezeGenerator.IndexVectors)
        (e : Failure),
        u.lookupType dict.key ≠ [] → u.lookupType dict.value = vt :: rest →
        dict.indices = pre ++ ix :: post →
        FreezeGenerator.indexLoop lib argv0 dict vt pre FreezeGenerator.IndexVectors.empty = .ok st →
        FreezeGenerator.indexStep lib argv0 dict vt ix st = .error e →
        FreezeGenerator.generate lib argv0 u dict = .error e) := by
  refine ⟨?_, ?_, ?_, ?_⟩
  · intro opts front dicts0 dicts1 indices pre post arg dictName index x d hhelp hversion
      hd0 hi hsplit hpre harg hd hname hx hxm
    have h0 : ∀ d ∈ dicts0, d.indices = [] :=
      parseDicts_indices opts.dict hd0 (fun d hd => absurd hd (List.not_mem_nil d))
    have hdup := parseDictIndices_duplicate pre arg post h0 hpre harg hd hname hx hxm
    rw [← hsplit] at hdup
    simp [compile, processOptions, hhelp, hversion, hd0, hi, hdup]
  · intro u dict hk
    simp [FreezeGenerator.generate, hk]
  · intro u dict hk hv
    unfold FreezeGenerator.generate
    cases h0 : u.lookupType dict.key with
    | nil => exact absurd h0 hk
    | cons kt kr => simp [hv]
  · intro u dict vt rest pre post ix st e hk hv hsplit hpre hstep
    apply FreezeGenerator.generate_resolved hk hv
    rw [hsplit]
    exact FreezeGenerator.indexLoop_append_error pre ix post hpre hstep

/-- The four parts on sample runs: the duplicate is reported although the key
`Nope` resolves in no unit; an unresolved key is reported before an unresolved
value; an unresolved value is reported before any index is looked at; and of
the indices `name`, `weight`, `nonexistent` the first one refused is reported. -/
theorem compile_checks_in_order_witness :
    compile sampleLibrary sampleBackEnd "slice2freezej"
      (sampleOptions ["D,Nope,Person"] ["D,name", "D,name,case-insensitive"])
      (.parsed sampleUnit true false) =
        .failure (definedTwice "slice2freezej" "D,name,case-insensitive") ∧
    FreezeGenerator.generate sampleLibrary "slice2freezej" sampleUnit
      ⟨"D", "Nope", "Nada", [⟨"nonexistent", true⟩]⟩ =
        .error (.thrown (FreezeGenerator.notAValidType "Nope")) ∧
    FreezeGenerator.generate sampleLibrary "slice2freezej" sampleUnit
      ⟨"D", "int", "Nada", [⟨"nonexistent", true⟩]⟩ =
        .error (.thrown (FreezeGenerator.notAValidType "Nada")) ∧
    FreezeGenerator.generate sampleLibrary "slice2freezej" sampleUnit
      ⟨"D", "int", "Person", [⟨"name", true⟩, ⟨"weight", true⟩, ⟨"nonexistent", true⟩]⟩ =
        .error (.thrown (FreezeGenerator.cannotBeIndexKey "weight")) :=
  ⟨(compile_checks_in_order sampleLibrary sampleBackEnd "slice2freezej").1
      (sampleOptions ["D,Nope,Person"] ["D,name", "D,name,case-insensitive"])
      (.parsed sampleUnit true false)
      [⟨"D", "Nope", "Person", []⟩] [⟨"D", "Nope", "Person", [⟨"name", true⟩]⟩] []
      ["D,name"] [] "D,name,case-insensitive" "D" ⟨"name", false⟩ ⟨"name", true⟩
      ⟨"D", "Nope", "Person", [⟨"name", true⟩]⟩
      rfl rfl rfl rfl rfl rfl rfl (by simp) rfl (by simp) rfl,
   (compile_checks_in_order sampleLibrary sampleBackEnd "slice2freezej").2.1 sampleUnit
      ⟨"D", "Nope", "Nada", [⟨"nonexistent", true⟩]⟩ rfl,
   (compile_checks_in_order sampleLibrary sampleBackEnd "slice2freezej").2.2.1 sampleUnit
      ⟨"D", "int", "Nada", [⟨"nonexistent", true⟩]⟩ (by simp [sampleUnit]) rfl,
   (compile_checks_in_order sampleLibrary sampleBackEnd "slice2freezej").2.2.2 sampleUnit
      ⟨"D", "int", "Person", [⟨"name", true⟩, ⟨"weight", true⟩, ⟨"nonexistent", true⟩]⟩
      personStruct [] [⟨"name", true⟩] [⟨"nonexistent", true⟩] ⟨"weight", true⟩
      ⟨[TypePtr.builtin Kind.KindString], ["name"], ["Name"], ["name"], []⟩
      (.thrown (FreezeGenerator.cannotBeIndexKey "weight"))
      (by simp [sampleUnit]) rfl rfl rfl rfl⟩

/-! ## Lemmas on the realized index list -/

namespace FreezeGenerator

/-- What one accepted turn of the loop appends to the four vectors. -/
theorem indexStep_vectors {lib : Library} {prog : String} {dict : Dict} {vt : TypePtr}
    {ix : DictIndex} {st st1 : IndexVectors}
    (h : indexStep lib prog dict vt ix st = .ok st1) :
    st1.members = st.members ++ [memberLabel ix] ∧
    st1.capitalizedMembers = st.capitalizedMembers ++ [capitalizedLabel ix] ∧
    st1.indexNames = st.indexNames ++ [indexNameLabel ix] ∧
    st1.indexTypes.map some = st.indexTypes.map some ++ [projectedType dict vt ix] := by
  unfold indexStep at h
  by_cases hm : ix.member = ""
  · simp only [hm, if_true] at h
    split_ifs at h <;>
      (cases h
       simp [memberLabel, capitalizedLabel, indexNameLabel, projectedType, hm])
  · simp only [hm, if_false] at h
    cases hd : valueDataMembers dict vt with
    | error e => simp [hd] at h
    | ok dms =>
      cases hf : findDataMember ix.member dms with
      | none => simp [hd, hf] at h
      | some dm =>
        simp only [hd, hf] at h
        split_ifs at h <;>
          (cases h
           simp [memberLabel, capitalizedLabel, indexNameLabel, projectedType, hm, hd, hf])

/-- The four vectors after the loop: one entry per index, in input order. -/
theorem indexLoop_vectors {lib : Library} {prog : String} {dict : Dict} {vt : TypePtr}
    {l : List DictIndex} {st st1 : IndexVectors}
    (h : indexLoop lib prog dict vt l st = .ok st1) :
    st1.members = st.members ++ l.map memberLabel ∧
    st1.capitalizedMembers = st.capitalizedMembers ++ l.map capitalizedLabel ∧
    st1.indexNames = st.indexNames ++ l.map indexNameLabel ∧
    st1.indexTypes.map some = st.indexTypes.map some ++ l.map (projectedType dict vt) := by
  induction l generalizing st with
  | nil =>
    simp only [indexLoop] at h
    cases h
    simp
  | cons a l ih =>
    simp only [indexLoop] at h
    cases ha : indexStep lib prog dict vt a st with
    | error e => simp [ha] at h
    | ok s1 =>
      simp only [ha] at h
      obtain ⟨h1, h2, h3, h4⟩ := indexStep_vectors ha
      obtain ⟨g1, g2, g3, g4⟩ := ih h
      rw [g1, g2, g3, g4, h1, h2, h3, h4]
      simp

/-- The four vectors of an accepted dictionary. -/
theorem generate_vectors {lib : Library} {prog : String} {u : UnitPtr} {dict : Dict} {c : Checked}
    (h : generate lib prog u dict = .ok c) :
    c.vectors.members = dict.indices.map memberLabel ∧
    c.vectors.capitalizedMembers = dict.indices.map capitalizedLabel ∧
    c.vectors.indexNames = dict.indices.map indexNameLabel ∧
    c.vectors.indexTypes.map some = dict.indices.map (projectedType dict c.valueType) := by
  obtain ⟨_, _, hl⟩ := generate_ok h
  simpa [IndexVectors.empty] using indexLoop_vectors hl

/-- The results of `gather`, position by position. -/
theorem gather_getElem? {f : Nat → Option IndexLocals} {is : List Nat} {xs : List IndexLocals}
    (h : gather f is = some xs) (k i : Nat) (hk : is[k]? = some i) :
    ∃ x, xs[k]? = some x ∧ f i = some x := by
  induction is generalizing xs k with
  | nil => simp at hk
  | cons a is ih =>
    unfold gather at h
    cases ha : f a with
    | none => simp [ha] at h
    | some x =>
      cases hg : gather f is with
      | none => simp [ha, hg] at h
      | some ys =>
        simp only [ha, hg] at h
        cases h
        cases k with
        | zero =>
          simp at hk
          subst hk
          exact ⟨x, by simp, ha⟩
        | succ k =>
          simp at hk
          obtain ⟨y, hy, hfy⟩ := ih hg k hk
          exact ⟨y, by simpa using hy, hfy⟩

/-- `gather` succeeds when every read succeeds. -/
theorem gather_isSome {f : Nat → Option IndexLocals} {is : List Nat}
    (h : ∀ i ∈ is, ∃ x, f i = some x) : ∃ xs, gather f is = some xs := by
  induction is with
  | nil => exact ⟨[], rfl⟩
  | cons a is ih =>
    obtain ⟨x, hx⟩ := h a (List.mem_cons_self _ _)
    obtain ⟨xs, hxs⟩ := ih (fun i hi => h i (List.mem_cons_of_mem _ hi))
    exact ⟨x :: xs, by simp [gather, hx, hxs]⟩

/-- The variables of the turn for the `i`-th index of an accepted dictionary. -/
theorem indexLocals_accepted {lib : Library} {prog : String} {u : UnitPtr} {dict : Dict}
    {c : Checked} (h : generate lib prog u dict = .ok c) {em : Emitter} {n : Nat}
    {xs : List IndexLocals} (hxs : indexLocals em dict c.vectors n = some xs)
    {i : Nat} (hi : i < n) {ix : DictIndex} (hix : dict.indices[i]? = some ix) :
    ∃ x, xs[i]? = some x ∧ x.i = i ∧ x.index = ix ∧ x.member = memberLabel ix ∧
      x.capitalizedMember = capitalizedLabel ix ∧ x.indexName = indexNameLabel ix ∧
      projectedType dict c.valueType ix = some x.indexType ∧
      x.indexTypeS = em.typeToString x.indexType ∧
      typeToObjectString em x.indexType = some x.indexObjTypeS := by
  obtain ⟨x, hx, hfx⟩ := gather_getElem? hxs i i (by simp [List.getElem?_range, hi])
  refine ⟨x, hx, ?_⟩
  obtain ⟨h1, h2, h3, h4⟩ := generate_vectors h
  unfold indexLocalsAt at hfx
  have e1 : c.vectors.members[i]? = some (memberLabel ix) := by simp [h1, hix]
  have e2 : c.vectors.capitalizedMembers[i]? = some (capitalizedLabel ix) := by simp [h2, hix]
  have e3 : c.vectors.indexNames[i]? = some (indexNameLabel ix) := by simp [h3, hix]
  have e4 : (c.vectors.indexTypes.map some)[i]? = some (projectedType dict c.valueType ix) := by
    simp [h4, hix]
  cases ht : c.vectors.indexTypes[i]? with
  | none => simp [hix, ht] at hfx
  | some t =>
    have e5 : projectedType dict c.valueType ix = some t := by
      simp [List.getElem?_map, ht] at e4
      exact e4.symm
    simp only [hix, ht, e1, e2, e3] at hfx
    cases ho : typeToObjectString em t with
    | none => simp [ho] at hfx
    | some objS =>
      simp only [ho] at hfx
      cases hfx
      exact ⟨rfl, rfl, rfl, rfl, rfl, e5, rfl, ho⟩

/-- The items of a list of pairs of lines, position by position. -/
theorem flatten_pairs_getElem? {β : Type} (a b : β → Item) (xs : List β) (k : Nat) (x : β)
    (h : xs[k]? = some x) :
    ((xs.map fun y => [a y, b y]).flatten)[2 * k]? = some (a x) ∧
    ((xs.map fun y => [a y, b y]).flatten)[2 * k + 1]? = some (b x) := by
  induction xs generalizing k with
  | nil => simp at h
  | cons y ys ih =>
    cases k with
    | zero =>
      simp at h
      subst h
      simp
    | succ k =>
      simp at h
      obtain ⟨g1, g2⟩ := ih k h
      have e1 : 2 * (k + 1) = (2 * k) + 1 + 1 := by ring
      rw [e1]
      simpa using ⟨g1, g2⟩

end FreezeGenerator


/-! ## The realized index list and the output stage -/

namespace FreezeGenerator

/-- Only the builtin kind `Value` lies outside `builtinTable`. -/
theorem typeToObjectString_isSome (em : Emitter) {t : TypePtr}
    (h : t ≠ TypePtr.builtin Kind.KindValue) : ∃ s, typeToObjectString em t = some s := by
  cases t with
  | builtin k =>
    cases k <;> first | exact absurd rfl h | exact ⟨_, rfl⟩
  | _ => exact ⟨_, rfl⟩

/-- The reads of the loops succeed on an accepted dictionary none of whose
index types is the builtin `Value`. -/
theorem indexLocals_isSome {lib : Library} {prog : String} {u : UnitPtr} {dict : Dict}
    {c : Checked} (h : generate lib prog u dict = .ok c) (em : Emitter)
    (hv : ∀ t ∈ c.vectors.indexTypes, t ≠ TypePtr.builtin Kind.KindValue) :
    ∃ xs, indexLocals em dict c.vectors dict.indices.length = some xs := by
  obtain ⟨h1, h2, h3, h4⟩ := generate_vectors h
  have hlen : c.vectors.indexTypes.length = dict.indices.length := by
    have := congrArg List.length h4
    simpa using this
  apply gather_isSome
  intro i hi
  have hi1 : i < dict.indices.length := by simpa using hi
  have hi2 : i < c.vectors.indexTypes.length := by omega
  obtain ⟨s, hs⟩ := typeToObjectString_isSome em
    (hv _ (List.getElem_mem hi2))
  refine ⟨⟨i, dict.indices[i], c.vectors.indexTypes[i], memberLabel dict.indices[i],
    capitalizedLabel dict.indices[i], indexNameLabel dict.indices[i],
    em.typeToString c.vectors.indexTypes[i], s⟩, ?_⟩
  simp [indexLocalsAt, h1, h2, h3, hi1, hi2, hs]

end FreezeGenerator


/-! ## Validation failures and the output stage -/

namespace FreezeGenerator

/-- The failures of one turn of the loop over the indices. -/
theorem indexStep_error {lib : Library} {prog : String} {dict : Dict} {vt : TypePtr}
    {ix : DictIndex} {st : IndexVectors} {e : Failure}
    (h : indexStep lib prog dict vt ix st = .error e) :
    e = .thrown (badIndex dict.name) ∨ e = .thrown (notAValidIndexType dict.value) ∨
    e = .thrown (valueNotAString dict.value) ∨ e = .thrown (neitherClassNorStruct dict.value) ∨
    e = .nullDefinition ∨ e = .thrown (noDataMember dict.name ix.member) ∨
    e = .thrown (cannotBeIndexKey ix.member) ∨ e = .thrown (memberNotAString ix.member) := by
  unfold indexStep at h
  by_cases hm : ix.member = ""
  · simp only [hm, if_true] at h
    split_ifs at h <;> cases h <;> simp
  · simp only [hm, if_false] at h
    cases hd : valueDataMembers dict vt with
    | error e1 =>
      simp only [hd] at h
      cases h
      cases vt with
      | classDecl n d =>
        cases d with
        | none =>
          simp only [valueDataMembers] at hd
          cases hd
          simp
        | some all => simp [valueDataMembers] at hd
      | struct n d => simp [valueDataMembers] at hd
      | _ =>
        simp only [valueDataMembers] at hd
        cases hd
        simp
    | ok dms =>
      cases hf : findDataMember ix.member dms with
      | none =>
        simp only [hd, hf] at h
        cases h
        simp
      | some dm =>
        simp only [hd, hf] at h
        split_ifs at h <;> cases h <;> simp

/-- A failure of the loop is the failure of one of its turns. -/
theorem indexLoop_error {lib : Library} {prog : String} {dict : Dict} {vt : TypePtr}
    {l : List DictIndex} {st : IndexVectors} {e : Failure}
    (h : indexLoop lib prog dict vt l st = .error e) :
    ∃ ix ∈ l, ∃ s, indexStep lib prog dict vt ix s = .error e := by
  induction l generalizing st with
  | nil => simp [indexLoop] at h
  | cons a l ih =>
    simp only [indexLoop] at h
    cases ha : indexStep lib prog dict vt a st with
    | error e1 =>
      simp only [ha] at h
      cases h
      exact ⟨a, List.mem_cons_self _ _, st, ha⟩
    | ok s1 =>
      simp only [ha] at h
      obtain ⟨ix, hix, s, hs⟩ := ih h
      exact ⟨ix, List.mem_cons_of_mem _ hix, s, hs⟩

/-- C12: a run of `generate` that fails a check of lines 283-432 consists of
that throw alone: the output file is not opened and nothing is written.  The
failures of these checks are the unknown type (key or value), the bad
whole-value index, the illegal index type (value or member), the value that is
neither class nor struct, the unknown member, the case-insensitive index that
is not a string, and the null dereference of line 363; and no run contains a
throw together with an opened file or a written item. -/
theorem validation_failure_emits_nothing (lib : Library) (em : Emitter) (prog : String)
    (u : UnitPtr) (dict : Dict) :
    (∀ e, generate lib prog u dict = .error e →
      run lib em prog u dict = [Effect.threw e] ∧
      (e = .thrown (notAValidType dict.key) ∨ e = .thrown (notAValidType dict.value) ∨
        e = .thrown (badIndex dict.name) ∨ e = .thrown (notAValidIndexType dict.value) ∨
        e = .thrown (valueNotAString dict.value) ∨
        e = .thrown (neitherClassNorStruct dict.value) ∨ e = .nullDefinition ∨
        ∃ ix ∈ dict.indices, e = .thrown (noDataMember dict.name ix.member) ∨
          e = .thrown (cannotBeIndexKey ix.member) ∨
          e = .thrown (memberNotAString ix.member))) ∧
    (∀ e, Effect.threw e ∈ run lib em prog u dict →
      (∀ file, Effect.opened file ∉ run lib em prog u dict) ∧
      (∀ item, Effect.wrote item ∉ run lib em prog u dict)) := by
  constructor
  · intro e h
    refine ⟨by simp [run, h], ?_⟩
    unfold generate at h
    cases hk : u.lookupType dict.key with
    | nil =>
      simp only [hk] at h
      cases h
      simp
    | cons kt kr =>
      cases hv : u.lookupType dict.value with
      | nil =>
        simp only [hk, hv] at h
        cases h
        simp
      | cons vt vr =>
        simp only [hk, hv] at h
        cases hl : indexLoop lib prog dict vt dict.indices IndexVectors.empty with
        | ok vs => simp [hl] at h
        | error e1 =>
          simp only [hl] at h
          cases h
          obtain ⟨ix, hix, s, hs⟩ := indexLoop_error hl
          rcases indexStep_error hs with h1 | h1 | h1 | h1 | h1 | h1 | h1 | h1
          · exact Or.inr (Or.inr (Or.inl h1))
          · exact Or.inr (Or.inr (Or.inr (Or.inl h1)))
          · exact Or.inr (Or.inr (Or.inr (Or.inr (Or.inl h1))))
          · exact Or.inr (Or.inr (Or.inr (Or.inr (Or.inr (Or.inl h1)))))
          · exact Or.inr (Or.inr (Or.inr (Or.inr (Or.inr (Or.inr (Or.inl h1))))))
          · exact Or.inr (Or.inr (Or.inr (Or.inr (Or.inr (Or.inr (Or.inr
              ⟨ix, hix, Or.inl h1⟩))))))
          · exact Or.inr (Or.inr (Or.inr (Or.inr (Or.inr (Or.inr (Or.inr
              ⟨ix, hix, Or.inr (Or.inl h1)⟩))))))
          · exact Or.inr (Or.inr (Or.inr (Or.inr (Or.inr (Or.inr (Or.inr
              ⟨ix, hix, Or.inr (Or.inr h1)⟩))))))
  · intro e he
    unfold run at he ⊢
    cases hg : generate lib prog u dict with
    | error e1 => simp
    | ok c =>
      simp only [hg] at he
      cases hw : writeClass em dict c with
      | none => simp [hw] at he
      | some items => simp [hw] at he

/-- A dictionary with the unknown member `nonexistent`: the run is the throw alone. -/
theorem validation_failure_emits_nothing_witness :
    run sampleLibrary sampleEmitter "slice2freezej" sampleUnit
      ⟨"D", "int", "Person", [⟨"name", true⟩, ⟨"nonexistent", true⟩]⟩ =
      [Effect.threw (.thrown (noDataMember "D" "nonexistent"))] :=
  ((validation_failure_emits_nothing sampleLibrary sampleEmitter "slice2freezej" sampleUnit
      ⟨"D", "int", "Person", [⟨"name", true⟩, ⟨"nonexistent", true⟩]⟩).1
      (.thrown (noDataMember "D" "nonexistent")) rfl).1

end FreezeGenerator


/-! ## Encapsulation in the generated codecs -/

namespace FreezeGenerator

/-- The sections of the written class. -/
theorem writeClass_sections {em : Emitter} {dict : Dict} {c : Checked} {items : List Item}
    (h : writeClass em dict c = some items) :
    ∃ keyTypeS valueTypeS xs ys,
      typeToObjectString em c.keyType = some keyTypeS ∧
      typeToObjectString em c.valueType = some valueTypeS ∧
      indexLocals em dict c.vectors dict.indices.length = some xs ∧
      indexLocals em dict c.vectors c.vectors.capitalizedMembers.length = some ys ∧
      items = classHeader c.name keyTypeS valueTypeS ++
        indexComparators dict xs ++
        privateConstructor c.name keyTypeS dict xs ++
        publicConstructors em c.name keyTypeS c.keyType c.valueType dict ++
        recreateMethods em c.name keyTypeS c.keyType c.valueType dict ++
        (ys.map (indexMethods keyTypeS valueTypeS)).flatten ++
        topLevelCodec em c.keyType keyTypeS c.valueType valueTypeS ++
        (ys.map (indexClass c.name keyTypeS valueTypeS)).flatten ++
        patcherClass em c.valueType ++
        fields dict xs := by
  unfold writeClass at h
  cases h1 : typeToObjectString em c.keyType with
  | none => simp [h1] at h
  | some keyTypeS =>
    cases h2 : typeToObjectString em c.valueType with
    | none => simp [h1, h2] at h
    | some valueTypeS =>
      cases h3 : indexLocals em dict c.vectors dict.indices.length with
      | none => simp [h1, h2, h3] at h
      | some xs =>
        cases h4 : indexLocals em dict c.vectors c.vectors.capitalizedMembers.length with
        | none => simp [h1, h2, h3, h4] at h
        | some ys =>
          simp only [h1, h2, h3, h4] at h
          cases h
          exact ⟨keyTypeS, valueTypeS, xs, ys, rfl, rfl, rfl, rfl, rfl⟩

end FreezeGenerator


/-! ## The index classes: key codec and projection -/

namespace FreezeGenerator

/-- The index type of a case-insensitive index of an accepted dictionary is the
builtin string. -/
theorem indexType_string_of_case_insensitive {lib : Library} {prog : String} {u : UnitPtr}
    {dict : Dict} {c : Checked} (h : generate lib prog u dict = .ok c) {ix : DictIndex}
    (hmem : ix ∈ dict.indices) (hcs : ix.caseSensitive = false) {t : TypePtr}
    (ht : projectedType dict c.valueType ix = some t) : t = TypePtr.builtin Kind.KindString := by
  obtain ⟨t1, h1, _, h3, _⟩ := generate_ok_index h hmem
  rw [ht] at h1
  cases h1
  have hs := h3 hcs
  by_contra hne
  rw [(isBuiltinString_eq_false_iff t).mpr hne] at hs
  cases hs

/-- The value of a key expression with `.toLowerCase()` appended. -/
theorem evalKeyExpression_lower (var x : String) :
    evalKeyExpression var (var ++ ".toLowerCase()") x = some (toLowerCase x) := by
  have hne : var ++ ".toLowerCase()" ≠ var := by
    intro heq
    have := congrArg String.length heq
    rw [String.length_append] at this
    have h14 : (".toLowerCase()" : String).length = 14 := by decide
    omega
  simp [evalKeyExpression, hne]

end FreezeGenerator


/-! ## The steps of `decode` against those of `encode` -/


namespace FreezeGenerator

end FreezeGenerator


/-! ## Lemmas on the indexed map at run time -/

namespace IndexedMap

theorem lookup_insertPrimary_self {V : Type} (k : Nat) (v : V) (l : List (Nat × V)) :
    lookup k (insertPrimary k v l) = some v := by
  induction l with
  | nil => simp [insertPrimary, lookup]
  | cons x xs ih =>
    unfold insertPrimary
    by_cases hle : k ≤ x.1
    · simp [hle, lookup]
    · have hne : x.1 ≠ k := by omega
      simp [hle, lookup, hne, ih]

theorem lookup_insertPrimary_other {V : Type} {k k1 : Nat} (hne : k1 ≠ k) (v : V)
    (l : List (Nat × V)) : lookup k1 (insertPrimary k v l) = lookup k1 l := by
  induction l with
  | nil => simp [insertPrimary, lookup, hne.symm]
  | cons x xs ih =>
    unfold insertPrimary
    by_cases hle : k ≤ x.1
    · simp [hle, lookup, hne.symm]
    · simp [hle, lookup, ih]

theorem lookup_filter_other {V : Type} {k k1 : Nat} (hne : k1 ≠ k) (l : List (Nat × V)) :
    lookup k1 (l.filter (fun x => x.1 ≠ k)) = lookup k1 l := by
  induction l with
  | nil => rfl
  | cons x xs ih =>
    by_cases hx : x.1 = k
    · have hx1 : x.1 ≠ k1 := by omega
      rw [List.filter_cons_of_neg (by simpa using hx)]
      simp only [lookup, hx1, if_false]
      exact ih
    · rw [List.filter_cons_of_pos (by simpa using hx)]
      by_cases hx1 : x.1 = k1
      · simp only [lookup, hx1, if_true]
      · simp only [lookup, hx1, if_false]
        exact ih

/-- Index maintenance without I/O failure updates every index. -/
theorem maintainIndices_noFault {V : Type} (old : Option V) (k : Nat) (v : V) (j : Nat)
    (l : List (Index V)) :
    maintainIndices noFault old k v j l = .ok (l.map (maintainIndex old k v)) := by
  induction l generalizing j with
  | nil => rfl
  | cons ix rest ih => simp [maintainIndices, noFault, ih]

/-- The store after a `put` without I/O failure. -/
theorem put_noFault {V : Type} (k : Nat) (v : V) (s : Store V) :
    put noFault k v s =
      (⟨writePrimary k v s.primary, s.indices.map (maintainIndex (get s k) k v)⟩, .ok ()) := by
  simp [put, atomically, putBody, noFault, maintainIndices_noFault]

theorem get_put_self {V : Type} (k : Nat) (v : V) (s : Store V) :
    get (put noFault k v s).1 k = some v := by
  rw [put_noFault]
  exact lookup_insertPrimary_self k v _

theorem get_put_other {V : Type} {k k1 : Nat} (hne : k1 ≠ k) (v : V) (s : Store V) :
    get (put noFault k v s).1 k1 = get s k1 := by
  rw [put_noFault]
  simp only [get, writePrimary]
  rw [lookup_insertPrimary_other hne, lookup_filter_other hne]

end IndexedMap


/-! ## Copies of a map -/

namespace IndexedMap

/-- The indices of a copy are those of the destination's index set. -/
theorem indices_length_copyInto {V : Type} (l : List (Nat × V)) (dest : Store V) :
    (copyInto dest l).indices.length = dest.indices.length := by
  induction l generalizing dest with
  | nil => rfl
  | cons x xs ih =>
    simp only [copyInto]
    rw [ih, put_noFault]
    simp

end IndexedMap


/-! ## Atomicity of `put` -/

namespace IndexedMap

/-- Index maintenance meets the I/O failure of one of its writes. -/
theorem maintainIndices_fault {V : Type} (fault : Nat → Bool) (old : Option V) (k : Nat) (v : V)
    (l : List (Index V)) (j i : Nat) (hi : i < l.length) (hf : fault (j + i + 1) = true) :
    maintainIndices fault old k v j l = .error .ioFailure := by
  induction l generalizing j i with
  | nil => simp at hi
  | cons ix rest ih =>
    unfold maintainIndices
    by_cases h0 : fault (j + 1) = true
    · simp [h0]
    · cases i with
      | zero => exact absurd hf h0
      | succ i =>
        have hi1 : i < rest.length := by simpa using hi
        have hf1 : fault (j + 1 + i + 1) = true := by
          rw [show j + 1 + i + 1 = j + (i + 1) + 1 by ring]
          exact hf
        simp [h0, ih (j + 1) i hi1 hf1]

/-- C20: when the write to the primary name space succeeds and the write to
one of the indices meets an I/O failure, `put` surfaces the store error and
leaves the store as it was before: `get` of the key yields the value it had
before the `put` (or absence), and the primary entries and every index are
unchanged.  More generally a `put` that ends in an error leaves the store as
it was, and one that ends without error has written the value. -/
theorem put_is_atomic {V : Type} (s : Store V) (fault : Nat → Bool) (k : Nat) (v : V) (j : Nat)
    (hprimary : fault 0 = false) (hj : j < s.indices.length) (hfault : fault (j + 1) = true) :
    (put fault k v s).2 = .error .ioFailure ∧
    (put fault k v s).1 = s ∧
    get (put fault k v s).1 k = get s k ∧
    (∀ (t : Store V) (g : Nat → Bool) (k1 : Nat) (v1 : V) (e : StoreError),
      (put g k1 v1 t).2 = .error e → (put g k1 v1 t).1 = t) ∧
    (∀ (t : Store V) (g : Nat → Bool) (k1 : Nat) (v1 : V),
      (put g k1 v1 t).2 = .ok () → get (put g k1 v1 t).1 k1 = some v1) := by
  have hm : maintainIndices fault (get s k) k v 0 s.indices = .error .ioFailure :=
    maintainIndices_fault fault (get s k) k v s.indices 0 j hj (by simpa using hfault)
  have hput : put fault k v s = (s, .error .ioFailure) := by
    simp [put, atomically, putBody, hprimary, hm]
  refine ⟨by rw [hput], by rw [hput], by rw [hput], ?_, ?_⟩
  · intro t g k1 v1 e he
    unfold put atomically at he ⊢
    cases hb : putBody g k1 v1 t with
    | error e1 => rfl
    | ok t1 => simp [hb] at he
  · intro t g k1 v1 hok
    unfold put atomically at hok ⊢
    cases hb : putBody g k1 v1 t with
    | error e1 => simp [hb] at hok
    | ok t1 =>
      simp only []
      unfold putBody at hb
      by_cases h0 : g 0 = true
      · simp [h0] at hb
      · simp only [h0, Bool.false_eq_true, if_false] at hb
        cases hmi : maintainIndices g (get t k1) k1 v1 0 t.indices with
        | error e1 => simp [hmi] at hb
        | ok idxs =>
          simp only [hmi] at hb
          cases hb
          exact lookup_insertPrimary_self k1 v1 _

/-- A `put` of a new value for key 1 whose write to the second index fails:
the store, with value 5 for key 1, is as before. -/
theorem put_is_atomic_witness :
    get (put (fun n => decide (n = 2)) 1 6
      (⟨[(1, 5)], [⟨fun v => v, [(5, 1)]⟩, ⟨fun v => v + 1, [(6, 1)]⟩]⟩ : Store Nat)).1 1 =
      get (⟨[(1, 5)], [⟨fun v => v, [(5, 1)]⟩, ⟨fun v => v + 1, [(6, 1)]⟩]⟩ : Store Nat) 1 :=
  (put_is_atomic (⟨[(1, 5)], [⟨fun v => v, [(5, 1)]⟩, ⟨fun v => v + 1, [(6, 1)]⟩]⟩ : Store Nat)
    (fun n => decide (n = 2)) 1 6 1 (by decide) (by decide) (by decide)).2.2.1

end IndexedMap


/-! ## The arguments of `--dict` and `--dict-index` -/

/-- Without a comma there is nothing to cut. -/
theorem cutAtComma_none {l : List Char} (h : ',' ∉ l) : cutAtComma l = none := by
  induction l with
  | nil => rfl
  | cons c cs ih =>
    have hc : c ≠ ',' := fun e => h (by simp [e])
    have hcs : ',' ∉ cs := fun e => h (List.mem_cons_of_mem _ e)
    simp [cutAtComma, hc, ih hcs]

/-- The cut is made at the first comma. -/
theorem cutAtComma_append {a : List Char} (b : List Char) (h : ',' ∉ a) :
    cutAtComma (a ++ ',' :: b) = some (a, b) := by
  induction a with
  | nil => simp [cutAtComma]
  | cons c cs ih =>
    have hc : c ≠ ',' := fun e => h (by simp [e])
    have hcs : ',' ∉ cs := fun e => h (List.mem_cons_of_mem _ e)
    simp [cutAtComma, hc, ih hcs]

/-- What a cut has found. -/
theorem cutAtComma_some {l a b : List Char} (h : cutAtComma l = some (a, b)) :
    l = a ++ ',' :: b ∧ ',' ∉ a := by
  induction l generalizing a with
  | nil => simp [cutAtComma] at h
  | cons c cs ih =>
    unfold cutAtComma at h
    by_cases hc : c = ','
    · simp only [hc, if_true, Option.some.injEq, Prod.mk.injEq] at h
      obtain ⟨rfl, rfl⟩ := h
      simp [hc]
    · simp only [hc, if_false] at h
      cases hr : cutAtComma cs with
      | none => simp [hr] at h
      | some r =>
        obtain ⟨f, k⟩ := r
        simp only [hr, Option.some.injEq, Prod.mk.injEq] at h
        obtain ⟨rfl, rfl⟩ := h
        obtain ⟨h1, h2⟩ := ih hr
        refine ⟨by rw [h1]; rfl, ?_⟩
        intro hmem
        rcases List.mem_cons.mp hmem with e | e
        · exact hc e.symm
        · exact h2 e

theorem cut_none {s : String} (h : ',' ∉ s.data) : cut s = none := by
  simp [cut, cutAtComma_none h]

theorem cut_append (a b : String) (h : ',' ∉ a.data) : cut (a ++ "," ++ b) = some (a, b) := by
  have e : (a ++ "," ++ b).data = a.data ++ ',' :: b.data := by
    simp [String.data_append]
  simp [cut, e, cutAtComma_append b.data h]

theorem cut_some {s a b : String} (h : cut s = some (a, b)) :
    s = a ++ "," ++ b ∧ ',' ∉ a.data := by
  unfold cut at h
  cases hr : cutAtComma s.data with
  | none => simp [hr] at h
  | some r =>
    obtain ⟨f, k⟩ := r
    simp only [hr, Option.some.injEq, Prod.mk.injEq] at h
    obtain ⟨rfl, rfl⟩ := h
    obtain ⟨h1, h2⟩ := cutAtComma_some hr
    refine ⟨?_, h2⟩
    apply String.ext
    simp [String.data_append, h1]


/-- The dictionaries keep their names when an index is added. -/
theorem addIndex_names {argv0 arg dictName : String} {index : DictIndex} {dicts dicts1 : List Dict}
    (h : addIndex argv0 arg dictName index dicts = .ok dicts1) :
    dicts1.map (fun d => d.name) = dicts.map (fun d => d.name) := by
  induction dicts generalizing dicts1 with
  | nil => simp [addIndex] at h
  | cons p rest ih =>
    unfold addIndex at h
    by_cases hn : p.name = dictName
    · simp only [hn, if_true] at h
      split_ifs at h
      cases h
      simp [hn]
    · simp only [hn, if_false] at h
      cases hr : addIndex argv0 arg dictName index rest with
      | error m => simp [hr] at h
      | ok rest1 =>
        simp only [hr] at h
        cases h
        simp [ih hr]

/-- An index for a name that no dictionary has is refused. -/
theorem addIndex_unknown (argv0 arg dictName : String) (index : DictIndex) {dicts : List Dict}
    (h : ∀ d ∈ dicts, d.name ≠ dictName) :
    addIndex argv0 arg dictName index dicts = .error (errorLine argv0 arg "unknown dictionary") := by
  induction dicts with
  | nil => rfl
  | cons p rest ih =>
    have hp : p.name ≠ dictName := h p (List.mem_cons_self _ _)
    simp [addIndex, hp, ih (fun d hd => h d (List.mem_cons_of_mem _ hd))]

/-- The `--dict-index` loop keeps the names of the dictionaries. -/
theorem parseDictIndices_names {lib : Library} {argv0 : String} (args : List String)
    {dicts dicts1 : List Dict} (h : parseDictIndices lib argv0 args dicts = .ok dicts1) :
    dicts1.map (fun d => d.name) = dicts.map (fun d => d.name) := by
  induction args generalizing dicts with
  | nil =>
    simp only [parseDictIndices] at h
    cases h
    rfl
  | cons a args ih =>
    simp only [parseDictIndices] at h
    cases ha : dictIndexStep lib argv0 a dicts with
    | error m => simp [ha] at h
    | ok d1 =>
      simp only [ha] at h
      rw [ih h]
      unfold dictIndexStep at ha
      cases hp : parseDictIndex lib argv0 a with
      | error m => simp [hp] at ha
      | ok r =>
        obtain ⟨dictName, index⟩ := r
        simp only [hp] at ha
        exact addIndex_names ha

/-- The `--dict-index` loop stops at the first argument whose turn fails. -/
theorem parseDictIndices_stops {lib : Library} {argv0 : String} (pre : List String) (arg : String)
    (post : List String) {dicts dicts1 : List Dict} {m : String}
    (hpre : parseDictIndices lib argv0 pre dicts = .ok dicts1)
    (harg : dictIndexStep lib argv0 arg dicts1 = .error m) :
    parseDictIndices lib argv0 (pre ++ arg :: post) dicts = .error m := by
  rw [parseDictIndices_append pre (arg :: post) hpre]
  simp [parseDictIndices, harg]

/-- C21: a `--dict-index` argument is read, after `removeWhitespace`, as
follows.  `DICT` without comma: the whole-value, case-sensitive index of
`DICT`.  `DICT,X`: the whole-value index with case `X` when `X` is
`case-sensitive` or `case-insensitive`, else the case-sensitive index on
member `X`.  `DICT,M,C`: the index on member `M` with case `C` when `C` is one
of the two keywords, else the error on the case.  The case is insensitive only
when the keyword `case-insensitive` is given.  An empty `DICT` is an error, and
with `--help` and `--version` absent and well-formed `--dict` and `--index`
arguments, `compile` returns failure for an argument that is refused or whose
`DICT` is the name of no dictionary given by `--dict`. -/
theorem parseDictIndex_forms (lib : Library) (argv0 arg dictS : String)
    (hd : ',' ∉ dictS.data) (hne : dictS ≠ "") :
    (lib.removeWhitespace arg = dictS →
      parseDictIndex lib argv0 arg = .ok (dictS, ⟨"", true⟩)) ∧
    (∀ x, ',' ∉ x.data → lib.removeWhitespace arg = dictS ++ "," ++ x →
      parseDictIndex lib argv0 arg = .ok (dictS,
        if x = "case-sensitive" then ⟨"", true⟩
        else if x = "case-insensitive" then ⟨"", false⟩
        else ⟨x, true⟩)) ∧
    (∀ m c, ',' ∉ m.data → lib.removeWhitespace arg = dictS ++ "," ++ m ++ "," ++ c →
      parseDictIndex lib argv0 arg =
        if c = "case-sensitive" then .ok (dictS, ⟨m, true⟩)
        else if c = "case-insensitive" then .ok (dictS, ⟨m, false⟩)
        else .error (caseError argv0 arg)) ∧
    (∀ arg1 dictName index, parseDictIndex lib argv0 arg1 = .ok (dictName, index) →
      dictName ≠ "" ∧
      (index.caseSensitive = false → ∃ front,
        lib.removeWhitespace arg1 = front ++ "," ++ "case-insensitive")) ∧
    (∀ arg1 rest, lib.removeWhitespace arg1 = "" ∨ lib.removeWhitespace arg1 = "," ++ rest →
      parseDictIndex lib argv0 arg1 = .error (errorLine argv0 arg1 "no dictionary specified")) ∧
    (∀ (back : BackEnd) (opts : Options) (front : FrontEnd) (dicts0 dicts1 : List Dict)
        (indices : List Index) (pre post : List String) (arg1 : String),
      opts.help = false → opts.version = false →
      parseDicts lib argv0 opts.dict [] = .ok dicts0 →
      parseIndices lib argv0 opts.index [] = .ok indices →
      opts.dictIndex = pre ++ arg1 :: post →
      parseDictIndices lib argv0 pre dicts0 = .ok dicts1 →
      (∀ m, parseDictIndex lib argv0 arg1 = .error m →
        compile lib back argv0 opts front = .failure m) ∧
      (∀ dictName index, parseDictIndex lib argv0 arg1 = .ok (dictName, index) →
        (∀ d ∈ dicts0, d.name ≠ dictName) →
        compile lib back argv0 opts front =
          .failure (errorLine argv0 arg1 "unknown dictionary"))) := by
  refine ⟨?_, ?_, ?_, ?_, ?_, ?_⟩
  · intro hs
    simp [parseDictIndex, hs, cut_none hd, hne]
  · intro x hx hs
    have h2 : cut x = none := cut_none hx
    unfold parseDictIndex
    simp only [hs, cut_append dictS x hd, h2]
    by_cases h1 : x = "case-sensitive"
    · simp [h1, hne]
    · by_cases h3 : x = "case-insensitive"
      · simp [h3, hne]
      · simp [h1, h3, hne]
  · intro m c hm hs
    have e : dictS ++ "," ++ m ++ "," ++ c = dictS ++ "," ++ (m ++ "," ++ c) := by
      simp [String.append_assoc]
    unfold parseDictIndex
    simp only [hs, e, cut_append dictS (m ++ "," ++ c) hd, cut_append m c hm]
    by_cases h1 : c = "case-sensitive"
    · simp [h1, hne]
    · by_cases h3 : c = "case-insensitive"
      · simp [h3, hne]
      · simp [h1, h3, hne]
  · intro arg1 dictName index h
    unfold parseDictIndex at h
    cases h1 : cut (lib.removeWhitespace arg1) with
    | none =>
      simp only [h1] at h
      split_ifs at h with g1 g2
      cases h
      exact ⟨g1, by simp⟩
    | some r =>
      obtain ⟨front, s1⟩ := r
      obtain ⟨e1, _⟩ := cut_some h1
      cases h2 : cut s1 with
      | some r2 =>
        obtain ⟨m, s2⟩ := r2
        obtain ⟨e2, _⟩ := cut_some h2
        simp only [h1, h2] at h
        split_ifs at h with g1 g2
        cases h
        refine ⟨g1, ?_⟩
        intro hcase
        have hs2 : s2 = "case-insensitive" := by
          by_contra hne2
          have : s2 = "case-sensitive" := by
            by_contra hne3
            exact g2 ⟨hne3, hne2⟩
          simp [this] at hcase
        refine ⟨dictName ++ "," ++ m, ?_⟩
        rw [e1, e2, hs2]
        simp [String.append_assoc]
      | none =>
        simp only [h1, h2] at h
        by_cases hk : s1 = "case-sensitive" ∨ s1 = "case-insensitive"
        · simp only [hk, if_true] at h
          split_ifs at h with g1 g2
          cases h
          refine ⟨g1, ?_⟩
          intro hcase
          have hs1 : s1 = "case-insensitive" := by
            rcases hk with hk | hk
            · simp [hk] at hcase
            · exact hk
          exact ⟨dictName, by rw [e1, hs1]⟩
        · simp only [hk, if_false] at h
          split_ifs at h with g1 g2
          cases h
          exact ⟨g1, by simp⟩
  · intro arg1 rest hs
    rcases hs with hs | hs
    · have hc : cut (lib.removeWhitespace arg1) = none := by
        rw [hs]
        rfl
      unfold parseDictIndex
      simp only [hc]
      simp [hs]
    · have hc : cut (lib.removeWhitespace arg1) = some ("", rest) := by
        rw [hs]
        have := cut_append "" rest (by simp)
        simpa using this
      unfold parseDictIndex
      simp only [hc]
      cases h2 : cut rest with
      | some r2 =>
        obtain ⟨m, s2⟩ := r2
        simp
      | none =>
        by_cases hk : rest = "case-sensitive" ∨ rest = "case-insensitive"
        · simp [hk]
        · simp [hk]
  · intro back opts front dicts0 dicts1 indices pre post arg1 hhelp hversion hd0 hi hsplit hpre
    constructor
    · intro m hm
      have hstep : dictIndexStep lib argv0 arg1 dicts1 = .error m := by
        simp [dictIndexStep, hm]
      have hloop := parseDictIndices_stops pre arg1 post hpre hstep
      rw [← hsplit] at hloop
      simp [compile, processOptions, hhelp, hversion, hd0, hi, hloop]
    · intro dictName index hok hnone
      have hnames := parseDictIndices_names pre hpre
      have hnone1 : ∀ d ∈ dicts1, d.name ≠ dictName := by
        intro d hd
        have hmem : d.name ∈ dicts1.map (fun d => d.name) := List.mem_map.mpr ⟨d, hd, rfl⟩
        rw [hnames] at hmem
        obtain ⟨d0, hd0m, hd0n⟩ := List.mem_map.mp hmem
        rw [← hd0n]
        exact hnone d0 hd0m
      have hstep : dictIndexStep lib argv0 arg1 dicts1 =
          .error (errorLine argv0 arg1 "unknown dictionary") := by
        simp [dictIndexStep, hok, addIndex_unknown argv0 arg1 dictName index hnone1]
      have hloop := parseDictIndices_stops pre arg1 post hpre hstep
      rw [← hsplit] at hloop
      simp [compile, processOptions, hhelp, hversion, hd0, hi, hloop]

/-- The three forms on sample arguments for the dictionary `D`. -/
theorem parseDictIndex_forms_witness :
    parseDictIndex sampleLibrary "slice2freezej" " D " = .ok ("D", ⟨"", true⟩) ∧
    parseDictIndex sampleLibrary "slice2freezej" "D, case-insensitive" = .ok ("D", ⟨"", false⟩) ∧
    parseDictIndex sampleLibrary "slice2freezej" "D,name" = .ok ("D", ⟨"name", true⟩) ∧
    parseDictIndex sampleLibrary "slice2freezej" "D,name,case-insensitive" =
      .ok ("D", ⟨"name", false⟩) ∧
    parseDictIndex sampleLibrary "slice2freezej" "D,name,lower" =
      .error (caseError "slice2freezej" "D,name,lower") ∧
    compile sampleLibrary sampleBackEnd "slice2freezej"
      (sampleOptions ["D,int,Person"] ["E,name"]) (.parsed sampleUnit true false) =
      .failure (errorLine "slice2freezej" "E,name" "unknown dictionary") :=
  ⟨(parseDictIndex_forms sampleLibrary "slice2freezej" " D " "D" (by decide) (by decide)).1
      (by decide),
   (parseDictIndex_forms sampleLibrary "slice2freezej" "D, case-insensitive" "D" (by decide)
      (by decide)).2.1 "case-insensitive" (by decide) (by decide),
   (parseDictIndex_forms sampleLibrary "slice2freezej" "D,name" "D" (by decide)
      (by decide)).2.1 "name" (by decide) (by decide),
   (parseDictIndex_forms sampleLibrary "slice2freezej" "D,name,case-insensitive" "D" (by decide)
      (by decide)).2.2.1 "name" "case-insensitive" (by decide) (by decide),
   (parseDictIndex_forms sampleLibrary "slice2freezej" "D,name,lower" "D" (by decide)
      (by decide)).2.2.1 "name" "lower" (by decide) (by decide),
   ((parseDictIndex_forms sampleLibrary "slice2freezej" "D" "D" (by decide)
      (by decide)).2.2.2.2.2 sampleBackEnd (sampleOptions ["D,int,Person"] ["E,name"])
      (.parsed sampleUnit true false) [⟨"D", "int", "Person", []⟩] [⟨"D", "int", "Person", []⟩]
      [] [] [] "E,name" rfl rfl rfl rfl rfl rfl).2 "E" ⟨"name", true⟩ rfl (by decide)⟩

/-- The `--dict` loop fails when the body fails for one of its arguments. -/
theorem parseDicts_error {lib : Library} {argv0 : String} {args : List String} {arg m : String}
    (harg : arg ∈ args) (h : parseDict lib argv0 arg = .error m) (dicts : List Dict) :
    ∃ m1, parseDicts lib argv0 args dicts = .error m1 := by
  induction args generalizing dicts with
  | nil => cases harg
  | cons a args ih =>
    unfold parseDicts
    cases ha : parseDict lib argv0 a with
    | error m1 => exact ⟨m1, rfl⟩
    | ok d =>
      rcases List.mem_cons.mp harg with e | e
      · rw [e, ha] at h
        cases h
      · exact ih e (dicts ++ [d])

/-- The `--dict` loop records the dictionary of each argument, in input order. -/
theorem parseDicts_ok {lib : Library} {argv0 : String} (args : List String)
    {dicts0 dicts : List Dict} (h : parseDicts lib argv0 args dicts0 = .ok dicts) :
    ∃ ds, dicts = dicts0 ++ ds ∧
      List.Forall₂ (fun arg d => parseDict lib argv0 arg = .ok d) args ds := by
  induction args generalizing dicts0 with
  | nil =>
    simp only [parseDicts] at h
    cases h
    exact ⟨[], by simp, List.Forall₂.nil⟩
  | cons a args ih =>
    simp only [parseDicts] at h
    cases ha : parseDict lib argv0 a with
    | error m => simp [ha] at h
    | ok d =>
      simp only [ha] at h
      obtain ⟨ds, h1, h2⟩ := ih h
      exact ⟨d :: ds, by simp [h1], List.Forall₂.cons ha h2⟩

/-- C22: a `--dict` argument is read, after `removeWhitespace`, as name, key
and value: the text before the first comma, the text between the first and
the second comma, and everything after the second comma.  The body of the
loop succeeds exactly when the argument has these two commas and none of the
three parts is empty, and then records the dictionary of these three strings
with no index; with fewer than two commas or an empty part it fails, with the
error of the first part that is missing.  With `--help` and `--version` absent
`compile` returns failure when the body fails for one argument, and otherwise
the loop records the dictionaries of all arguments in input order. -/
theorem parseDict_fields (lib : Library) (argv0 arg : String) :
    (∀ d, parseDict lib argv0 arg = .ok d ↔
      ∃ n k v, lib.removeWhitespace arg = n ++ "," ++ k ++ "," ++ v ∧
        ',' ∉ n.data ∧ ',' ∉ k.data ∧ n ≠ "" ∧ k ≠ "" ∧ v ≠ "" ∧ d = ⟨n, k, v, []⟩) ∧
    (',' ∉ (lib.removeWhitespace arg).data →
      parseDict lib argv0 arg = .error (errorLine argv0 arg "no name specified")) ∧
    (∀ n r, ',' ∉ n.data → ',' ∉ r.data → lib.removeWhitespace arg = n ++ "," ++ r →
      parseDict lib argv0 arg =
        if n = "" then .error (errorLine argv0 arg "no name specified")
        else .error (errorLine argv0 arg "no key specified")) ∧
    (∀ n k v, ',' ∉ n.data → ',' ∉ k.data →
      lib.removeWhitespace arg = n ++ "," ++ k ++ "," ++ v →
      parseDict lib argv0 arg =
        if n = "" then .error (errorLine argv0 arg "no name specified")
        else if k = "" then .error (errorLine argv0 arg "no key specified")
        else if v = "" then .error (errorLine argv0 arg "no value specified")
        else .ok ⟨n, k, v, []⟩) ∧
    (∀ (back : BackEnd) (opts : Options) (front : FrontEnd) (m : String),
      opts.help = false → opts.version = false → arg ∈ opts.dict →
      parseDict lib argv0 arg = .error m →
      ∃ m1, compile lib back argv0 opts front = .failure m1) ∧
    (∀ (args : List String) (dicts : List Dict), parseDicts lib argv0 args [] = .ok dicts →
      List.Forall₂ (fun a d => parseDict lib argv0 a = .ok d) args dicts) := by
  have form3 : ∀ n k v, ',' ∉ n.data → ',' ∉ k.data →
      lib.removeWhitespace arg = n ++ "," ++ k ++ "," ++ v →
      parseDict lib argv0 arg =
        if n = "" then .error (errorLine argv0 arg "no name specified")
        else if k = "" then .error (errorLine argv0 arg "no key specified")
        else if v = "" then .error (errorLine argv0 arg "no value specified")
        else .ok ⟨n, k, v, []⟩ := by
    intro n k v hn hk hs
    have e : n ++ "," ++ k ++ "," ++ v = n ++ "," ++ (k ++ "," ++ v) := by
      simp [String.append_assoc]
    unfold parseDict
    simp only [hs, e, cut_append n (k ++ "," ++ v) hn, cut_append k v hk]
  refine ⟨?_, ?_, ?_, form3, ?_, ?_⟩
  · intro d
    constructor
    · intro h
      cases h1 : cut (lib.removeWhitespace arg) with
      | none =>
        unfold parseDict at h
        simp [h1] at h
      | some r =>
        obtain ⟨n, s1⟩ := r
        obtain ⟨e1, hn⟩ := cut_some h1
        cases h2 : cut s1 with
        | none =>
          unfold parseDict at h
          simp only [h1, h2] at h
          split_ifs at h
        | some r2 =>
          obtain ⟨k, v⟩ := r2
          obtain ⟨e2, hk⟩ := cut_some h2
          have hs : lib.removeWhitespace arg = n ++ "," ++ k ++ "," ++ v := by
            rw [e1, e2]
            simp [String.append_assoc]
          rw [form3 n k v hn hk hs] at h
          split_ifs at h with g1 g2 g3
          cases h
          exact ⟨n, k, v, hs, hn, hk, g1, g2, g3, rfl⟩
    · rintro ⟨n, k, v, hs, hn, hk, g1, g2, g3, rfl⟩
      rw [form3 n k v hn hk hs]
      simp [g1, g2, g3]
  · intro hs
    unfold parseDict
    simp [cut_none hs]
  · intro n r hn hr hs
    unfold parseDict
    simp only [hs, cut_append n r hn, cut_none hr]
    by_cases g : n = "" <;> simp [g]
  · intro back opts front m hhelp hversion harg hm
    obtain ⟨m1, hm1⟩ := parseDicts_error harg hm []
    exact ⟨m1, by simp [compile, processOptions, hhelp, hversion, hm1]⟩
  · intro args dicts h
    obtain ⟨ds, h1, h2⟩ := parseDicts_ok args h
    simpa [h1] using h2

/-- The argument `Contacts, int, Person` gives the three fields; `Contacts,int`
has one comma only and is refused for its key. -/
theorem parseDict_fields_witness :
    parseDict sampleLibrary "slice2freezej" "Contacts, int, Person" =
      .ok ⟨"Contacts", "int", "Person", []⟩ ∧
    parseDict sampleLibrary "slice2freezej" "Contacts,int" =
      .error (errorLine "slice2freezej" "Contacts,int" "no key specified") ∧
    (∃ m1, compile sampleLibrary sampleBackEnd "slice2freezej"
      (sampleOptions ["Contacts,int"] []) (.parsed sampleUnit true false) = .failure m1) :=
  ⟨(parseDict_fields sampleLibrary "slice2freezej" "Contacts, int, Person").2.2.2.1
      "Contacts" "int" "Person" (by decide) (by decide) (by decide),
   (parseDict_fields sampleLibrary "slice2freezej" "Contacts,int").2.2.1
      "Contacts" "int" (by decide) (by decide) (by decide),
   (parseDict_fields sampleLibrary "slice2freezej" "Contacts,int").2.2.2.2.1 sampleBackEnd
      (sampleOptions ["Contacts,int"] []) (.parsed sampleUnit true false)
      (errorLine "slice2freezej" "Contacts,int" "no key specified") rfl rfl (by simp [sampleOptions])
      rfl⟩

/-! ## The evictor index -/

namespace FreezeGenerator

/-- What `findDataMember` has found is a data member of that name. -/
theorem findDataMember_some {member : String} {dms : List DataMember} {dm : DataMember}
    (h : findDataMember member dms = some dm) : dm ∈ dms ∧ dm.1 = member := by
  induction dms with
  | nil => simp [findDataMember] at h
  | cons q rest ih =>
    unfold findDataMember at h
    by_cases hq : q.1 = member
    · simp only [hq, if_true, Option.some.injEq] at h
      subst h
      exact ⟨List.mem_cons_self _ _, hq⟩
    · simp only [hq, if_false] at h
      obtain ⟨h1, h2⟩ := ih h
      exact ⟨List.mem_cons_of_mem _ h1, h2⟩

end FreezeGenerator

/-! ## The convenience overloads of the index methods -/

namespace FreezeGenerator

/-- The methods of the `i`-th index are part of the class written for an
accepted dictionary. -/
theorem indexMethods_written {lib : Library} {em : Emitter} {prog : String} {u : UnitPtr}
    {dict : Dict} {c : Checked} (h : generate lib prog u dict = .ok c) {items : List Item}
    (hw : writeClass em dict c = some items) {i : Nat} {ix : DictIndex}
    (hix : dict.indices[i]? = some ix) :
    ∃ keyTypeS valueTypeS x, x.index = ix ∧ x.member = memberLabel ix ∧
      x.capitalizedMember = capitalizedLabel ix ∧
      (indexMethods keyTypeS valueTypeS x).Sublist items := by
  obtain ⟨keyTypeS, valueTypeS, xs, ys, _, _, _, hys, hitems⟩ := writeClass_sections hw
  have hi : i < dict.indices.length := by
    by_contra hge
    rw [List.getElem?_eq_none (by omega)] at hix
    cases hix
  have hlen : c.vectors.capitalizedMembers.length = dict.indices.length := by
    rw [(generate_vectors h).2.1]
    simp
  obtain ⟨x, hx, _, h2, h3, h4, _⟩ := indexLocals_accepted h hys (by omega) hix
  refine ⟨keyTypeS, valueTypeS, x, h2, h3, h4, ?_⟩
  have hmem : indexMethods keyTypeS valueTypeS x ∈ ys.map (indexMethods keyTypeS valueTypeS) :=
    List.mem_map.mpr ⟨x, List.getElem?_mem hx, rfl⟩
  have hsub := List.sublist_flatten_of_mem hmem
  rw [hitems]
  simp only [List.append_assoc]
  refine List.Sublist.trans hsub ?_
  refine List.Sublist.trans ?_ (List.sublist_append_right _ _)
  refine List.Sublist.trans ?_ (List.sublist_append_right _ _)
  refine List.Sublist.trans ?_ (List.sublist_append_right _ _)
  refine List.Sublist.trans ?_ (List.sublist_append_right _ _)
  refine List.Sublist.trans ?_ (List.sublist_append_right _ _)
  exact List.sublist_append_left _ _

end FreezeGenerator

/-! ## Validation accepts every legal definition -/

namespace FreezeGenerator

/-- One turn of the loop on an index that meets the rules: it is accepted, with
one warning exactly when its projected type contains a sequence. -/
theorem indexStep_accepts (lib : Library) (prog : String) {dict : Dict} {vt : TypePtr}
    {ix : DictIndex} {t : TypePtr} (st : IndexVectors)
    (hp : projectedType dict vt ix = some t)
    (hlegal : (lib.legalKeyType t).1 = true)
    (hcase : ix.caseSensitive = false → isBuiltinString t = true)
    (hsole : ix.member = "" → dict.indices.length ≤ 1) :
    ∃ st1, indexStep lib prog dict vt ix st = .ok st1 ∧
      st1.warnings = st.warnings ++
        (if indexContainsSequence lib dict vt ix then [sequenceWarning prog] else []) := by
  unfold indexStep
  by_cases hm : ix.member = ""
  · have ht : t = vt := by
      simp [projectedType, hm] at hp
      exact hp.symm
    subst ht
    have h1 : ¬ dict.indices.length > 1 := by
      have := hsole hm
      omega
    have h3 : ¬ (ix.caseSensitive = false ∧ isBuiltinString t = false) := by
      rintro ⟨g1, g2⟩
      rw [hcase g1] at g2
      cases g2
    simp only [hm, if_true, h1, if_false, hlegal, h3]
    refine ⟨_, rfl, ?_⟩
    simp only [indexContainsSequence, projectedType, hm, if_true]
    cases (lib.legalKeyType t).2 <;> simp
  · simp only [hm, if_false]
    unfold projectedType at hp
    simp only [hm, if_false] at hp
    cases hd : valueDataMembers dict vt with
    | error e => simp [hd] at hp
    | ok dms =>
      simp only [hd] at hp
      cases hf : findDataMember ix.member dms with
      | none => simp [hf] at hp
      | some dm =>
        simp only [hf, Option.some.injEq] at hp
        subst hp
        have h3 : ¬ (ix.caseSensitive = false ∧ isBuiltinString dm.2 = false) := by
          rintro ⟨g1, g2⟩
          rw [hcase g1] at g2
          cases g2
        simp only [hf, hlegal, h3, if_false, Bool.true_eq_false]
        refine ⟨_, rfl, ?_⟩
        simp only [indexContainsSequence, projectedType, hm, if_false, hd, hf]
        cases (lib.legalKeyType dm.2).2 <;> simp

/-- The loop accepts a list of indices each of which meets the rules. -/
theorem indexLoop_accepts (lib : Library) (prog : String) {dict : Dict} {vt : TypePtr}
    (l : List DictIndex) (st : IndexVectors)
    (h : ∀ ix ∈ l, ∃ t, projectedType dict vt ix = some t ∧ (lib.legalKeyType t).1 = true ∧
      (ix.caseSensitive = false → isBuiltinString t = true) ∧
      (ix.member = "" → dict.indices.length ≤ 1)) :
    ∃ st1, indexLoop lib prog dict vt l st = .ok st1 ∧
      st1.warnings = st.warnings ++
        (l.filter (indexContainsSequence lib dict vt)).map (fun _ => sequenceWarning prog) := by
  induction l generalizing st with
  | nil => exact ⟨st, rfl, by simp⟩
  | cons a l ih =>
    obtain ⟨t, h1, h2, h3, h4⟩ := h a (List.mem_cons_self _ _)
    obtain ⟨s1, hs1, hw1⟩ := indexStep_accepts lib prog st h1 h2 h3 h4
    obtain ⟨s2, hs2, hw2⟩ := ih s1 (fun ix hix => h ix (List.mem_cons_of_mem _ hix))
    refine ⟨s2, by simp [indexLoop, hs1, hs2], ?_⟩
    rw [hw2, hw1]
    cases hc : indexContainsSequence lib dict vt a <;> simp [List.filter_cons, hc]

/-- The projected type of an index that meets the rules of the claim. -/
theorem projectedType_of_rules {dict : Dict} {vt : TypePtr} {ix : DictIndex} {t : TypePtr}
    (h : (ix.member = "" ∧ t = vt) ∨
      (ix.member ≠ "" ∧ ∃ dms, ((∃ n, vt = TypePtr.classDecl n (some dms)) ∨
        (∃ n, vt = TypePtr.struct n dms)) ∧ ∃ dm, findDataMember ix.member dms = some dm ∧
        t = dm.2)) :
    projectedType dict vt ix = some t := by
  rcases h with ⟨hm, rfl⟩ | ⟨hm, dms, hvt, dm, hf, rfl⟩
  · simp [projectedType, hm]
  · simp [projectedType, hm, valueDataMembers_aggregate hvt, hf]

/-- C25: when the key and the value type names resolve (the value to `vt`)
and every index is either a whole-value index that is the only index, with
`vt` a legal key type, and the builtin string if the index is
case-insensitive, or an index on a member of `vt`, a class with a definition
or a struct, whose first data member of that name has a legal key type, the
builtin string if the index is case-insensitive, then `generate` throws
nothing and reaches the output stage with the resolved types.  A projected
type that is legal and contains a sequence is accepted all the same: the
warnings of the run are one deprecation warning per index whose projected
type contains a sequence, in the order of the indices. -/
theorem generate_accepts_legal (lib : Library) (prog : String) (u : UnitPtr) (dict : Dict)
    (kt vt : TypePtr) (krest vrest : List TypePtr)
    (hk : u.lookupType dict.key = kt :: krest) (hv : u.lookupType dict.value = vt :: vrest)
    (hix : ∀ ix ∈ dict.indices,
      (ix.member = "" ∧ dict.indices.length ≤ 1 ∧ (lib.legalKeyType vt).1 = true ∧
        (ix.caseSensitive = false → vt = TypePtr.builtin Kind.KindString)) ∨
      (ix.member ≠ "" ∧ ∃ dms, ((∃ n, vt = TypePtr.classDecl n (some dms)) ∨
          (∃ n, vt = TypePtr.struct n dms)) ∧
        ∃ dm, findDataMember ix.member dms = some dm ∧ (lib.legalKeyType dm.2).1 = true ∧
          (ix.caseSensitive = false → dm.2 = TypePtr.builtin Kind.KindString))) :
    ∃ c, generate lib prog u dict = .ok c ∧ c.keyType = kt ∧ c.valueType = vt ∧
      c.vectors.warnings =
        (dict.indices.filter (indexContainsSequence lib dict vt)).map
          (fun _ => sequenceWarning prog) ∧
      c.vectors.warnings.length ≤ dict.indices.length ∧
      (∀ ix ∈ dict.indices, ∀ t, projectedType dict vt ix = some t →
        (lib.legalKeyType t).2 = true → sequenceWarning prog ∈ c.vectors.warnings) := by
  have hall : ∀ ix ∈ dict.indices, ∃ t, projectedType dict vt ix = some t ∧
      (lib.legalKeyType t).1 = true ∧
      (ix.caseSensitive = false → isBuiltinString t = true) ∧
      (ix.member = "" → dict.indices.length ≤ 1) := by
    intro ix hmem
    rcases hix ix hmem with ⟨hm, hlen, hlegal, hcase⟩ | ⟨hm, dms, hvt, dm, hf, hlegal, hcase⟩
    · refine ⟨vt, projectedType_of_rules (Or.inl ⟨hm, rfl⟩), hlegal, ?_, fun _ => hlen⟩
      intro hcs
      rw [hcase hcs]
      rfl
    · refine ⟨dm.2, projectedType_of_rules (Or.inr ⟨hm, dms, hvt, dm, hf, rfl⟩), hlegal, ?_,
        fun h0 => absurd h0 hm⟩
      intro hcs
      rw [hcase hcs]
      rfl
  obtain ⟨st1, hloop, hwarn⟩ := indexLoop_accepts lib prog dict.indices
    IndexVectors.empty hall
  have hw : st1.warnings = (dict.indices.filter (indexContainsSequence lib dict vt)).map
      (fun _ => sequenceWarning prog) := by
    simpa [IndexVectors.empty] using hwarn
  refine ⟨⟨unqualified dict.name, kt, vt, st1⟩, by simp [generate, hk, hv, hloop], rfl, rfl, hw,
    ?_, ?_⟩
  · show st1.warnings.length ≤ dict.indices.length
    rw [hw, List.length_map]
    exact List.length_filter_le _ _
  · intro ix hmem t ht hseq
    show sequenceWarning prog ∈ st1.warnings
    rw [hw]
    refine List.mem_map.mpr ⟨ix, List.mem_filter.mpr ⟨hmem, ?_⟩, rfl⟩
    simp [indexContainsSequence, ht, hseq]

/-- The dictionary `D` from `int` to `Person` with indices on `name`
(case-insensitive) and `age` is accepted, without warning. -/
theorem generate_accepts_legal_witness :
    ∃ c, generate sampleLibrary "slice2freezej" sampleUnit
        ⟨"D", "int", "Person", [⟨"name", false⟩, ⟨"age", true⟩]⟩ = .ok c ∧
      c.vectors.warnings.length ≤ 2 :=
  let ⟨c, h1, _, _, _, h5, _⟩ := generate_accepts_legal sampleLibrary "slice2freezej" sampleUnit
    ⟨"D", "int", "Person", [⟨"name", false⟩, ⟨"age", true⟩]⟩
    (TypePtr.builtin Kind.KindInt) personStruct [] [] rfl rfl
    (by
      intro ix hmem
      right
      simp only [List.mem_cons, List.mem_singleton, List.not_mem_nil, or_false] at hmem
      rcases hmem with rfl | rfl
      · exact ⟨by decide, _, Or.inr ⟨"Person", rfl⟩, ("name", TypePtr.builtin Kind.KindString),
          rfl, rfl, fun _ => rfl⟩
      · exact ⟨by decide, _, Or.inr ⟨"Person", rfl⟩, ("age", TypePtr.builtin Kind.KindInt),
          rfl, rfl, fun h => by cases h⟩)
  ⟨c, h1, h5⟩

end FreezeGenerator

/-! ## The class `Patcher` -/


namespace FreezeGenerator

/-- The statement that reads the value is none of the statements on `Patcher`. -/
theorem readInto_ne_patcher (type : TypePtr) (pp s : String)
    (hs : s = "Patcher p = new Patcher();" ∨ s = "return p.value;") :
    Item.nl [s] ≠ readInto type pp := by
  rcases hs with rfl | rfl <;>
    (cases type with
     | builtin k => cases k <;> simp [readInto]
     | _ => simp [readInto])

/-- A `decode` body instantiates `Patcher`, and returns `p.value`, exactly for
the builtin `Object` and for a class. -/
theorem decodeBody_patcher (em : Emitter) (type : TypePtr) (typeS : String) (encaps : Bool) :
    (Item.nl ["Patcher p = new Patcher();"] ∈ decodeBody em type typeS encaps ↔
      usesPatcher type = true) ∧
    (Item.nl ["return p.value;"] ∈ decodeBody em type typeS encaps ↔ usesPatcher type = true) := by
  have h1 := fun pp => readInto_ne_patcher type pp "Patcher p = new Patcher();" (Or.inl rfl)
  have h2 := fun pp => readInto_ne_patcher type pp "return p.value;" (Or.inr rfl)
  constructor
  · cases hp : usesPatcher type <;> cases hu : em.usesClasses type <;> cases encaps <;>
      cases hst : isStruct type <;> simp [decodeBody, hp, hu, hst, h1]
  · cases hp : usesPatcher type <;> cases hu : em.usesClasses type <;> cases encaps <;>
      cases hst : isStruct type <;> simp [decodeBody, hp, hu, hst, h2]

/-- The types for which `Patcher` is used. -/
theorem usesPatcher_iff (type : TypePtr) :
    usesPatcher type = true ↔
      type = TypePtr.builtin Kind.KindObject ∨ ∃ n d, type = TypePtr.classDecl n d := by
  cases type with
  | builtin k => cases k <;> simp [usesPatcher]
  | classDecl n d => simp [usesPatcher]
  | _ => simp [usesPatcher]

end FreezeGenerator

/-! ## The table of `typeToObjectString` -/

namespace FreezeGenerator

/-- C27 (the code reads outside the table): `builtinTable` has 11 entries and
the switches of `varToObject` and `objectToVar` name 12 kinds; every kind but
`Value` indexes inside the table, and `Value`, the twelfth kind, indexes at
position 11, outside of it; whatever numbers the kinds have, as long as two
kinds have different numbers, some kind indexes outside the table.  The
dictionary `D` from `int` to `Value` is accepted, and the run reads past the
end of the table at line 439, right after the file is opened. -/
theorem typeToObjectString_value_outside_table :
    builtinTable.length = 11 ∧
    (∀ kind, kind ≠ Kind.KindValue → kind.toNat < builtinTable.length) ∧
    Kind.KindValue.toNat = 11 ∧
    ¬ Kind.KindValue.toNat < builtinTable.length ∧
    (∀ em, typeToObjectString em (TypePtr.builtin Kind.KindValue) = none) ∧
    (∀ f : Kind → Nat, Function.Injective f → ∃ kind, builtinTable.length ≤ f kind) ∧
    generate sampleLibrary "slice2freezej" builtinUnit ⟨"D", "int", "Value", []⟩ =
      .ok ⟨"D", TypePtr.builtin Kind.KindInt, TypePtr.builtin Kind.KindValue,
        IndexVectors.empty⟩ ∧
    writeClass sampleEmitter ⟨"D", "int", "Value", []⟩
      ⟨"D", TypePtr.builtin Kind.KindInt, TypePtr.builtin Kind.KindValue,
        IndexVectors.empty⟩ = none ∧
    run sampleLibrary sampleEmitter "slice2freezej" builtinUnit ⟨"D", "int", "Value", []⟩ =
      [Effect.opened "D", Effect.readPastEnd] := by
  refine ⟨rfl, ?_, rfl, by decide, fun _ => rfl, ?_, rfl, rfl, rfl⟩
  · intro kind hk
    cases kind <;> first | exact absurd rfl hk | decide
  · intro f hf
    by_contra hall
    push_neg at hall
    have hcard : (Finset.image f ({Kind.KindByte, Kind.KindBool, Kind.KindShort, Kind.KindInt,
        Kind.KindLong, Kind.KindFloat, Kind.KindDouble, Kind.KindString, Kind.KindObject,
        Kind.KindObjectProxy, Kind.KindLocalObject, Kind.KindValue} : Finset Kind)).card = 12 := by
      rw [Finset.card_image_of_injective _ hf]
      decide
    have hsub : Finset.image f ({Kind.KindByte, Kind.KindBool, Kind.KindShort, Kind.KindInt,
        Kind.KindLong, Kind.KindFloat, Kind.KindDouble, Kind.KindString, Kind.KindObject,
        Kind.KindObjectProxy, Kind.KindLocalObject, Kind.KindValue} : Finset Kind) ⊆
        Finset.range 11 := by
      intro n hn
      obtain ⟨kind, _, rfl⟩ := Finset.mem_image.mp hn
      exact Finset.mem_range.mpr (hall kind)
    have hle := Finset.card_le_card hsub
    rw [hcard, Finset.card_range] at hle
    omega

end FreezeGenerator

/-! ## The assertion of line 1066 and the access of line 428 -/

namespace FreezeGenerator

/-- A member that is not the empty string has a first character, which
`capitalize` puts into upper case. -/
theorem capitalize_of_ne_empty {member : String} (h : member ≠ "") :
    ∃ ch rest, member = String.mk (ch :: rest) ∧ firstCharacter member = some ch ∧
      capitalize member = String.mk (ch.toUpper :: rest) ∧ 0 < member.length := by
  obtain ⟨l⟩ := member
  cases l with
  | nil => exact absurd rfl h
  | cons ch rest =>
    exact ⟨ch, rest, rfl, by simp [firstCharacter], rfl, by simp [String.length]⟩

/-- C28: let every type that `Dictionary::legalKeyType` accepts be a type that
does not use classes.  Then for every accepted dictionary and every index of
it that has a member, the test of the assertion at line 1066 holds in the turn
of that index: the index type, which is the type of the member and a legal
key type, does not use classes.  And the member, not being empty, has a
character at position 0, so that the access `capitalizedMember[0]` of line 428
is within the string; the capitalized member is the member with that
character in upper case. -/
theorem member_index_assertion_holds (lib : Library) (em : Emitter) (prog : String) (u : UnitPtr)
    (dict : Dict) (c : Checked) (h : generate lib prog u dict = .ok c)
    (hlib : ∀ t, (lib.legalKeyType t).1 = true → em.usesClasses t = false)
    (n : Nat) (xs : List IndexLocals) (hxs : indexLocals em dict c.vectors n = some xs)
    (i : Nat) (ix : DictIndex) (x : IndexLocals) (hi : i < n)
    (hix : dict.indices[i]? = some ix) (hx : xs[i]? = some x) (hm : ix.member ≠ "") :
    encodeKeyAssertion em x = true ∧
    em.usesClasses x.indexType = false ∧
    projectedType dict c.valueType ix = some x.indexType ∧
    (lib.legalKeyType x.indexType).1 = true ∧
    (∃ ch rest, ix.member = String.mk (ch :: rest) ∧ firstCharacter ix.member = some ch ∧
      capitalize ix.member = String.mk (ch.toUpper :: rest) ∧ 0 < ix.member.length) ∧
    x.capitalizedMember = capitalize ix.member := by
  obtain ⟨y, hy, _, _, _, h5, _, h6, _⟩ := indexLocals_accepted h hxs hi hix
  rw [hx] at hy
  cases hy
  obtain ⟨t, ht, hlegal, _⟩ := generate_ok_index h (List.getElem?_mem hix)
  rw [h6] at ht
  cases ht
  have huses := hlib x.indexType hlegal
  refine ⟨by simp [encodeKeyAssertion, huses], huses, h6, hlegal, capitalize_of_ne_empty hm, ?_⟩
  rw [h5]
  simp [capitalizedLabel, hm]

/-- The index on `name` of `Person`: the string type does not use classes, and
`name` has the first character `n`. -/
theorem member_index_assertion_holds_witness :
    encodeKeyAssertion sampleEmitter ⟨0, ⟨"name", true⟩, TypePtr.builtin Kind.KindString, "name",
      "Name", "name", "String", "java.lang.String"⟩ = true ∧
    (∃ ch rest, (DictIndex.mk "name" true).member = String.mk (ch :: rest) ∧
      firstCharacter (DictIndex.mk "name" true).member = some ch ∧
      capitalize (DictIndex.mk "name" true).member = String.mk (ch.toUpper :: rest) ∧
      0 < (DictIndex.mk "name" true).member.length) :=
  ⟨(member_index_assertion_holds sampleLibrary sampleEmitter "slice2freezej" sampleUnit
      ⟨"D", "int", "Person", [⟨"name", true⟩]⟩
      ⟨"D", TypePtr.builtin Kind.KindInt, personStruct,
        ⟨[TypePtr.builtin Kind.KindString], ["name"], ["Name"], ["name"], []⟩⟩ rfl
      (by
        intro t ht
        cases t with
        | builtin k => cases k <;> first | rfl | simp [sampleLibrary, sampleLegalKeyType] at ht
        | enum n => rfl
        | _ => simp [sampleLibrary, sampleLegalKeyType] at ht)
      1 [⟨0, ⟨"name", true⟩, TypePtr.builtin Kind.KindString, "name", "Name", "name",
        "String", "java.lang.String"⟩] rfl
      0 ⟨"name", true⟩ ⟨0, ⟨"name", true⟩, TypePtr.builtin Kind.KindString, "name", "Name",
        "name", "String", "java.lang.String"⟩ (by decide) rfl rfl (by decide)).1,
   (member_index_assertion_holds sampleLibrary sampleEmitter "slice2freezej" sampleUnit
      ⟨"D", "int", "Person", [⟨"name", true⟩]⟩
      ⟨"D", TypePtr.builtin Kind.KindInt, personStruct,
        ⟨[TypePtr.builtin Kind.KindString], ["name"], ["Name"], ["name"], []⟩⟩ rfl
      (by
        intro t ht
        cases t with
        | builtin k => cases k <;> first | rfl | simp [sampleLibrary, sampleLegalKeyType] at ht
        | enum n => rfl
        | _ => simp [sampleLibrary, sampleLegalKeyType] at ht)
      1 [⟨0, ⟨"name", true⟩, TypePtr.builtin Kind.KindString, "name", "Name", "name",
        "String", "java.lang.String"⟩] rfl
      0 ⟨"name", true⟩ ⟨0, ⟨"name", true⟩, TypePtr.builtin Kind.KindString, "name", "Name",
        "name", "String", "java.lang.String"⟩ (by decide) rfl rfl (by decide)).2.2.2.2.1⟩

end FreezeGenerator

/-! ## The names generated for the indices -/

namespace FreezeGenerator

/-- Two members with the same capitalized form are equal or differ only in
the case of the first character. -/
theorem capitalize_eq_iff {m1 m2 : String} (h1 : m1 ≠ "") (h2 : m2 ≠ "") (hne : m1 ≠ m2) :
    capitalize m1 = capitalize m2 ↔ DifferInFirstCase m1 m2 := by
  obtain ⟨c1, r1, e1, _, k1, _⟩ := capitalize_of_ne_empty h1
  obtain ⟨c2, r2, e2, _, k2, _⟩ := capitalize_of_ne_empty h2
  constructor
  · intro h
    rw [k1, k2] at h
    have hd : c1.toUpper :: r1 = c2.toUpper :: r2 := congrArg String.data h
    simp only [List.cons.injEq] at hd
    obtain ⟨hc, hr⟩ := hd
    subst hr
    refine ⟨c1, c2, r1, e1, e2, ?_, hc⟩
    intro hcc
    subst hcc
    exact hne (e1.trans e2.symm)
  · rintro ⟨d1, d2, rest, g1, g2, _, hup⟩
    subst g1
    subst g2
    show String.mk (d1.toUpper :: rest) = String.mk (d2.toUpper :: rest)
    rw [hup]

/-- The names of the inner class and of the finder determine the capitalized member. -/
theorem generated_names_eq_iff (a b : String) :
    (indexClassName a = indexClassName b ↔ a = b) ∧ (finderName a = finderName b ↔ a = b) := by
  constructor
  · constructor
    · intro h
      have hd : (a ++ "Index").data = (b ++ "Index").data := congrArg String.data h
      simp only [String.data_append] at hd
      exact String.ext (List.append_cancel_right hd)
    · rintro rfl
      rfl
  · constructor
    · intro h
      have hd : ("findBy" ++ a).data = ("findBy" ++ b).data := congrArg String.data h
      simp only [String.data_append] at hd
      exact String.ext (List.append_cancel_left hd)
    · rintro rfl
      rfl

end FreezeGenerator


/-! ## The sections of the written class -/

namespace FreezeGenerator

/-- The constructor, the `recreate` methods and the codec of the map, and the
methods and the inner class of every index, are written into the class, and
a run that writes the class writes nothing else. -/
theorem sections_written {lib : Library} {em : Emitter} {prog : String} {u : UnitPtr}
    {dict : Dict} {c : Checked} (h : generate lib prog u dict = .ok c) {items : List Item}
    (hw : writeClass em dict c = some items) :
    ∃ keyTypeS valueTypeS xs,
      typeToObjectString em c.keyType = some keyTypeS ∧
      typeToObjectString em c.valueType = some valueTypeS ∧
      indexLocals em dict c.vectors dict.indices.length = some xs ∧
      run lib em prog u dict = [Effect.opened dict.name] ++ items.map Effect.wrote ++
        [Effect.closed] ∧
      (privateConstructor c.name keyTypeS dict xs).Sublist items ∧
      (recreateMethods em c.name keyTypeS c.keyType c.valueType dict).Sublist items ∧
      (topLevelCodec em c.keyType keyTypeS c.valueType valueTypeS).Sublist items ∧
      ∀ x ∈ xs, (indexMethods keyTypeS valueTypeS x).Sublist items ∧
        (indexClass c.name keyTypeS valueTypeS x).Sublist items := by
  obtain ⟨keyTypeS, valueTypeS, xs, ys, hk, hv, hxs, hys, hitems⟩ := writeClass_sections hw
  have hlen : c.vectors.capitalizedMembers.length = dict.indices.length := by
    rw [(generate_vectors h).2.1]
    simp
  rw [hlen, hxs] at hys
  cases hys
  refine ⟨keyTypeS, valueTypeS, xs, hk, hv, hxs, by simp [run, h, hw], ?_, ?_, ?_, ?_⟩
  · rw [hitems]
    simp only [List.append_assoc]
    refine List.Sublist.trans ?_ (List.sublist_append_right _ _)
    refine List.Sublist.trans ?_ (List.sublist_append_right _ _)
    exact List.sublist_append_left _ _
  · rw [hitems]
    simp only [List.append_assoc]
    refine List.Sublist.trans ?_ (List.sublist_append_right _ _)
    refine List.Sublist.trans ?_ (List.sublist_append_right _ _)
    refine List.Sublist.trans ?_ (List.sublist_append_right _ _)
    refine List.Sublist.trans ?_ (List.sublist_append_right _ _)
    exact List.sublist_append_left _ _
  · rw [hitems]
    simp only [List.append_assoc]
    refine List.Sublist.trans ?_ (List.sublist_append_right _ _)
    refine List.Sublist.trans ?_ (List.sublist_append_right _ _)
    refine List.Sublist.trans ?_ (List.sublist_append_right _ _)
    refine List.Sublist.trans ?_ (List.sublist_append_right _ _)
    refine List.Sublist.trans ?_ (List.sublist_append_right _ _)
    refine List.Sublist.trans ?_ (List.sublist_append_right _ _)
    exact List.sublist_append_left _ _
  · intro x hx
    constructor
    · have hmem : indexMethods keyTypeS valueTypeS x ∈ xs.map (indexMethods keyTypeS valueTypeS) :=
        List.mem_map.mpr ⟨x, hx, rfl⟩
      rw [hitems]
      simp only [List.append_assoc]
      refine List.Sublist.trans (List.sublist_flatten_of_mem hmem) ?_
      refine List.Sublist.trans ?_ (List.sublist_append_right _ _)
      refine List.Sublist.trans ?_ (List.sublist_append_right _ _)
      refine List.Sublist.trans ?_ (List.sublist_append_right _ _)
      refine List.Sublist.trans ?_ (List.sublist_append_right _ _)
      refine List.Sublist.trans ?_ (List.sublist_append_right _ _)
      exact List.sublist_append_left _ _
    · have hmem : indexClass c.name keyTypeS valueTypeS x ∈
          xs.map (indexClass c.name keyTypeS valueTypeS) :=
        List.mem_map.mpr ⟨x, hx, rfl⟩
      rw [hitems]
      simp only [List.append_assoc]
      refine List.Sublist.trans (List.sublist_flatten_of_mem hmem) ?_
      refine List.Sublist.trans ?_ (List.sublist_append_right _ _)
      refine List.Sublist.trans ?_ (List.sublist_append_right _ _)
      refine List.Sublist.trans ?_ (List.sublist_append_right _ _)
      refine List.Sublist.trans ?_ (List.sublist_append_right _ _)
      refine List.Sublist.trans ?_ (List.sublist_append_right _ _)
      refine List.Sublist.trans ?_ (List.sublist_append_right _ _)
      refine List.Sublist.trans ?_ (List.sublist_append_right _ _)
      exact List.sublist_append_left _ _

/-- The variables of the turn of the `i`-th index, among those of all turns. -/
theorem indexLocals_at {lib : Library} {em : Emitter} {prog : String} {u : UnitPtr}
    {dict : Dict} {c : Checked} (h : generate lib prog u dict = .ok c) {xs : List IndexLocals}
    (hxs : indexLocals em dict c.vectors dict.indices.length = some xs) {i : Nat}
    {ix : DictIndex} (hix : dict.indices[i]? = some ix) :
    ∃ x, xs[i]? = some x ∧ x ∈ xs ∧ x.i = i ∧ x.index = ix ∧ x.member = memberLabel ix ∧
      x.capitalizedMember = capitalizedLabel ix ∧ x.indexName = indexNameLabel ix ∧
      projectedType dict c.valueType ix = some x.indexType ∧
      x.indexTypeS = em.typeToString x.indexType ∧
      typeToObjectString em x.indexType = some x.indexObjTypeS := by
  have hi : i < dict.indices.length := by
    by_contra hge
    rw [List.getElem?_eq_none (by omega)] at hix
    cases hix
  obtain ⟨x, hx, h1, h2, h3, h4, h5, h6, h7, h8⟩ := indexLocals_accepted h hxs hi hix
  exact ⟨x, hx, List.getElem?_mem hx, h1, h2, h3, h4, h5, h6, h7, h8⟩

/-- An item of a part of the written class is an item of the class. -/
theorem mem_of_sublist {part items : List Item} (hs : part.Sublist items) {item : Item}
    (h : item ∈ part) : item ∈ items :=
  hs.subset h


/-- `gather` reads one result per position. -/
theorem gather_length {f : Nat → Option IndexLocals} {is : List Nat} {xs : List IndexLocals}
    (h : gather f is = some xs) : xs.length = is.length := by
  induction is generalizing xs with
  | nil =>
    simp only [gather, Option.some.injEq] at h
    subst h
    rfl
  | cons a is ih =>
    unfold gather at h
    cases ha : f a with
    | none => simp [ha] at h
    | some x =>
      cases hg : gather f is with
      | none => simp [ha, hg] at h
      | some ys =>
        simp only [ha, hg, Option.some.injEq] at h
        subst h
        simp [ih hg]

/-- The class of an accepted dictionary is written unless the key type, the
value type or an index type is the builtin `Value`. -/
theorem writeClass_isSome {lib : Library} {prog : String} {u : UnitPtr} {dict : Dict}
    {c : Checked} (h : generate lib prog u dict = .ok c) (em : Emitter)
    (hk : c.keyType ≠ TypePtr.builtin Kind.KindValue)
    (hv : c.valueType ≠ TypePtr.builtin Kind.KindValue)
    (hi : ∀ t ∈ c.vectors.indexTypes, t ≠ TypePtr.builtin Kind.KindValue) :
    ∃ items, writeClass em dict c = some items := by
  obtain ⟨keyTypeS, h1⟩ := typeToObjectString_isSome em hk
  obtain ⟨valueTypeS, h2⟩ := typeToObjectString_isSome em hv
  obtain ⟨xs, h3⟩ := indexLocals_isSome h em hi
  have hlen : c.vectors.capitalizedMembers.length = dict.indices.length := by
    rw [(generate_vectors h).2.1]
    simp
  unfold writeClass
  rw [h1, h2, hlen, h3]
  exact ⟨_, rfl⟩

/-- C11: for an accepted dictionary the four vectors `members`,
`capitalizedMembers`, `indexNames`, `indexTypes` hold exactly one entry per
index, in input order: the member (or the label `value`), its capitalized
form (or `Value`), the member (or the name `index`), and the projected type
(the value type for a whole-value index).  In the class that is written, the
loops have one turn per index, in input order, and the private constructor,
which is part of the class, consists of its heading, its body and the end of
the block; in the body the `i`-th turn creates the index of the `i`-th
definition and assigns it to `_indices[i]`, and both statements are written.
The class is written unless the key type, the value type or an index type is
the builtin `Value`. -/
theorem generate_realizes_indices_in_order (lib : Library) (prog : String) (u : UnitPtr)
    (dict : Dict) (c : Checked) (h : generate lib prog u dict = .ok c) :
    (c.vectors.members = dict.indices.map memberLabel ∧
      c.vectors.capitalizedMembers = dict.indices.map capitalizedLabel ∧
      c.vectors.indexNames = dict.indices.map indexNameLabel ∧
      c.vectors.indexTypes.map some = dict.indices.map (projectedType dict c.valueType)) ∧
    (∀ (em : Emitter) (items : List Item), writeClass em dict c = some items →
      ∃ keyTypeS xs, indexLocals em dict c.vectors dict.indices.length = some xs ∧
        xs.length = dict.indices.length ∧
        run lib em prog u dict = [Effect.opened dict.name] ++ items.map Effect.wrote ++
          [Effect.closed] ∧
        (privateConstructor c.name keyTypeS dict xs).Sublist items ∧
        privateConstructor c.name keyTypeS dict xs =
          [Item.sp, Item.nl ["private"],
            Item.nl ([c.name, "(Freeze.Connection connection, String dbName, java.util.Comparator<",
                keyTypeS, "> comparator"] ++
              (if dict.indices.length > 0 then [", IndexComparators indexComparators"] else []) ++
              [")"]),
            Item.sb] ++ privateConstructorBody dict xs ++ [Item.eb] ∧
        ∀ (i : Nat) (ix : DictIndex), dict.indices[i]? = some ix →
          (∃ x, xs[i]? = some x ∧ x.i = i ∧ x.index = ix) ∧
          (privateConstructorBody dict xs)[2 * i + 2]? =
            some (Item.nl ["_", memberLabel ix, "Index = new ", capitalizedLabel ix, "Index(\x22",
              indexNameLabel ix, "\x22, indexComparators == null ? null : indexComparators.",
              memberLabel ix, "Comparator);"]) ∧
          (privateConstructorBody dict xs)[2 * i + 3]? =
            some (Item.nl ["_indices[", toString i, "] = _", memberLabel ix, "Index;"]) ∧
          Item.nl ["_", memberLabel ix, "Index = new ", capitalizedLabel ix, "Index(\x22",
              indexNameLabel ix, "\x22, indexComparators == null ? null : indexComparators.",
              memberLabel ix, "Comparator);"] ∈ items ∧
          Item.nl ["_indices[", toString i, "] = _", memberLabel ix, "Index;"] ∈ items) ∧
    (∀ (em : Emitter), c.keyType ≠ TypePtr.builtin Kind.KindValue →
      c.valueType ≠ TypePtr.builtin Kind.KindValue →
      (∀ t ∈ c.vectors.indexTypes, t ≠ TypePtr.builtin Kind.KindValue) →
      ∃ items, writeClass em dict c = some items) := by
  refine ⟨generate_vectors h, ?_, fun em hk hv hi => writeClass_isSome h em hk hv hi⟩
  intro em items hw
  obtain ⟨keyTypeS, valueTypeS, xs, _, _, hxs, hrun, hsub, _⟩ := sections_written h hw
  have hlen : xs.length = dict.indices.length := by
    have := gather_length hxs
    simpa using this
  refine ⟨keyTypeS, xs, hxs, hlen, hrun, hsub, rfl, ?_⟩
  intro i ix hix
  obtain ⟨x, hx, _, h1, h2, h3, h4, h5, _⟩ := indexLocals_at h hxs hix
  have hi : i < dict.indices.length := by
    by_contra hge
    rw [List.getElem?_eq_none (by omega)] at hix
    cases hix
  have hpos : 0 < dict.indices.length := by omega
  obtain ⟨g1, g2⟩ := flatten_pairs_getElem?
    (fun y : IndexLocals => Item.nl ["_", y.member, "Index = new ", y.capitalizedMember,
      "Index(\x22", y.indexName, "\x22, indexComparators == null ? null : indexComparators.",
      y.member, "Comparator);"])
    (fun y : IndexLocals => Item.nl ["_indices[", toString y.i, "] = _", y.member, "Index;"])
    xs i x hx
  have b1 : (privateConstructorBody dict xs)[2 * i + 2]? =
      some (Item.nl ["_", memberLabel ix, "Index = new ", capitalizedLabel ix, "Index(\x22",
        indexNameLabel ix, "\x22, indexComparators == null ? null : indexComparators.",
        memberLabel ix, "Comparator);"]) := by
    unfold privateConstructorBody
    simp only [hpos, if_true, gt_iff_lt]
    rw [show 2 * i + 2 = 2 + 2 * i by ring]
    simp only [List.singleton_append, List.cons_append, List.nil_append]
    rw [show 2 + 2 * i = (2 * i + 1) + 1 by ring, List.getElem?_cons_succ,
      List.getElem?_cons_succ, g1, h3, h4, h5]
  have b2 : (privateConstructorBody dict xs)[2 * i + 3]? =
      some (Item.nl ["_indices[", toString i, "] = _", memberLabel ix, "Index;"]) := by
    unfold privateConstructorBody
    simp only [hpos, if_true, gt_iff_lt]
    simp only [List.singleton_append, List.cons_append, List.nil_append]
    rw [show 2 * i + 3 = (2 * i + 1 + 1) + 1 by ring, List.getElem?_cons_succ,
      List.getElem?_cons_succ, g2, h1, h3]
  have hbody : ∀ item ∈ privateConstructorBody dict xs, item ∈ items := by
    intro item hmem
    apply hsub.subset
    simp only [privateConstructor, List.mem_append]
    exact Or.inl (Or.inr hmem)
  exact ⟨⟨x, hx, h1, h2⟩, b1, b2, hbody _ (List.getElem?_mem b1), hbody _ (List.getElem?_mem b2)⟩

/-- The dictionary `D` of `Person` with the indices `name` and `age`: the
class that is written holds the assignment of the index on `age` to `_indices[1]`. -/
theorem generate_realizes_indices_in_order_witness :
    Item.nl ["_indices[", toString 1, "] = _", memberLabel ⟨"age", true⟩, "Index;"] ∈
      (writeClass sampleEmitter ⟨"D", "int", "Person", [⟨"name", true⟩, ⟨"age", true⟩]⟩
        ⟨"D", TypePtr.builtin Kind.KindInt, personStruct,
          ⟨[TypePtr.builtin Kind.KindString, TypePtr.builtin Kind.KindInt], ["name", "age"],
            ["Name", "Age"], ["name", "age"], []⟩⟩).getD [] :=
  let ⟨_, _, _, _, _, _, _, hall⟩ :=
    (generate_realizes_indices_in_order sampleLibrary "slice2freezej" sampleUnit
      ⟨"D", "int", "Person", [⟨"name", true⟩, ⟨"age", true⟩]⟩
      ⟨"D", TypePtr.builtin Kind.KindInt, personStruct,
        ⟨[TypePtr.builtin Kind.KindString, TypePtr.builtin Kind.KindInt], ["name", "age"],
          ["Name", "Age"], ["name", "age"], []⟩⟩ rfl).2.1 sampleEmitter
      ((writeClass sampleEmitter ⟨"D", "int", "Person", [⟨"name", true⟩, ⟨"age", true⟩]⟩
        ⟨"D", TypePtr.builtin Kind.KindInt, personStruct,
          ⟨[TypePtr.builtin Kind.KindString, TypePtr.builtin Kind.KindInt], ["name", "age"],
            ["Name", "Age"], ["name", "age"], []⟩⟩).getD []) rfl
  (hall 1 ⟨"age", true⟩ rfl).2.2.2.2

end FreezeGenerator

/-! ## The index classes: key codec -/

namespace FreezeGenerator

end FreezeGenerator

/-! ## The index classes: projection and letter case -/

/-- Strings that differ only in letter case have the same lower case. -/
theorem toLowerCase_eq_of_sameIgnoringCase {s1 s2 : String} (h : SameIgnoringCase s1 s2) :
    toLowerCase s1 = toLowerCase s2 := by
  have hmap : ∀ l1 l2 : List Char, List.Forall₂ (fun a b : Char => a.toLower = b.toLower) l1 l2 →
      l1.map Char.toLower = l2.map Char.toLower := by
    intro l1 l2 hl
    induction hl with
    | nil => rfl
    | cons hab _ ih => simp [hab, ih]
  unfold toLowerCase
  rw [hmap s1.data s2.data h]

namespace FreezeGenerator

/-- C15: in the class written for an accepted dictionary, the statements of
`extractKey` and of `encodeKey` of the `i`-th index are written, and:
`extractKey` of a whole-value index returns `value`, and `value.toLowerCase()`
when the index is case-insensitive; `extractKey` of a member index returns
`value.<member>`, with `.toLowerCase()` appended exactly when the index is
case-insensitive (boxed by `varToObject` for a numeric type); `encodeKey`
hands on the key expression `key`, with `.toLowerCase()` appended exactly when
the index is case-insensitive.  A case-insensitive index has the string type,
for which `varToObject` and `objectToVar` change nothing, and for any two
strings that differ only in letter case, such as `Apple` and `apple`, the
expression of `extractKey` has the same value, the lower case of the string,
as has the expression of `encodeKey`.  The expressions of a case-sensitive
index have the string itself as their value, so that no two different strings
give the same key. -/
theorem index_projection_case (lib : Library) (em : Emitter) (prog : String) (u : UnitPtr)
    (dict : Dict) (c : Checked) (h : generate lib prog u dict = .ok c)
    (items : List Item) (hw : writeClass em dict c = some items)
    (i : Nat) (ix : DictIndex) (hix : dict.indices[i]? = some ix) :
    ∃ keyTypeS valueTypeS x, x.index = ix ∧ x.i = i ∧
      projectedType dict c.valueType ix = some x.indexType ∧
      (indexClass c.name keyTypeS valueTypeS x).Sublist items ∧
      (∀ item ∈ extractKeyBody x, item ∈ items) ∧
      (∀ item ∈ encodeKeyBody x, item ∈ items) ∧
      (ix.member = "" →
        extractKeyBody x = [Item.nl ["return " ++
          (if ix.caseSensitive then "value" else "value" ++ ".toLowerCase()") ++ ";"]] ∧
        encodeKeyBody x = [Item.nl ["encodeValue(",
          if ix.caseSensitive then "key" else "key" ++ ".toLowerCase()", ", ostr);"]]) ∧
      (ix.member ≠ "" →
        extractKeyBody x = [Item.nl ["return ",
          varToObject x.indexType
            (if ix.caseSensitive then "value." ++ ix.member
             else "value." ++ ix.member ++ ".toLowerCase()"),
          ";"]] ∧
        encodeKeyBody x = [Item.marshalCode x.indexType
          (objectToVar x.indexType (if ix.caseSensitive then "key" else "key" ++ ".toLowerCase()"))
          true ""]) ∧
      (ix.caseSensitive = false →
        x.indexType = TypePtr.builtin Kind.KindString ∧
        (∀ e, varToObject x.indexType e = e ∧ objectToVar x.indexType e = e) ∧
        (∀ var s1 s2, SameIgnoringCase s1 s2 →
          evalKeyExpression var
              (if ix.caseSensitive then var else var ++ ".toLowerCase()") s1 =
            some (toLowerCase s1) ∧
          evalKeyExpression var
              (if ix.caseSensitive then var else var ++ ".toLowerCase()") s1 =
            evalKeyExpression var
              (if ix.caseSensitive then var else var ++ ".toLowerCase()") s2) ∧
        SameIgnoringCase "Apple" "apple") ∧
      (ix.caseSensitive = true →
        (∀ var s, evalKeyExpression var
          (if ix.caseSensitive then var else var ++ ".toLowerCase()") s = some s) ∧
        (∀ var s1 s2, evalKeyExpression var
            (if ix.caseSensitive then var else var ++ ".toLowerCase()") s1 =
          evalKeyExpression var
            (if ix.caseSensitive then var else var ++ ".toLowerCase()") s2 → s1 = s2)) := by
  obtain ⟨keyTypeS, valueTypeS, xs, _, _, hxs, _, _, _, _, hall⟩ := sections_written h hw
  obtain ⟨x, _, hxmem, h1, h2, _, _, _, h6, _⟩ := indexLocals_at h hxs hix
  have hsub := (hall x hxmem).2
  have hmem : ix ∈ dict.indices := List.getElem?_mem hix
  subst h2
  have hext : ∀ item ∈ extractKeyBody x, item ∈ items := by
    intro item hm
    apply hsub.subset
    simp only [indexClass, List.mem_append, hm, true_or, or_true]
  have henc : ∀ item ∈ encodeKeyBody x, item ∈ items := by
    intro item hm
    apply hsub.subset
    simp only [indexClass, List.mem_append, hm, true_or, or_true]
  have hwhole : x.index.member = "" →
      extractKeyBody x = [Item.nl ["return " ++
        (if x.index.caseSensitive then "value" else "value" ++ ".toLowerCase()") ++ ";"]] ∧
      encodeKeyBody x = [Item.nl ["encodeValue(",
        if x.index.caseSensitive then "key" else "key" ++ ".toLowerCase()", ", ostr);"]] := by
    intro hm
    constructor
    · cases hcs : x.index.caseSensitive
      · simp only [extractKeyBody, hm, hcs, if_true, Bool.false_eq_true, if_false]
        rfl
      · simp only [extractKeyBody, hm, hcs, if_true]
        rfl
    · simp only [encodeKeyBody, hm, if_true]
      rfl
  have hmember : x.index.member ≠ "" →
      extractKeyBody x = [Item.nl ["return ",
        varToObject x.indexType
          (if x.index.caseSensitive then "value." ++ x.index.member
           else "value." ++ x.index.member ++ ".toLowerCase()"),
        ";"]] ∧
      encodeKeyBody x = [Item.marshalCode x.indexType
        (objectToVar x.indexType
          (if x.index.caseSensitive then "key" else "key" ++ ".toLowerCase()"))
        true ""] := by
    intro hm
    constructor
    · simp only [extractKeyBody, hm, if_false]
    · simp only [encodeKeyBody, hm, if_false]
      rfl
  have hfalse : x.index.caseSensitive = false →
      x.indexType = TypePtr.builtin Kind.KindString ∧
      (∀ e, varToObject x.indexType e = e ∧ objectToVar x.indexType e = e) ∧
      (∀ var s1 s2, SameIgnoringCase s1 s2 →
        evalKeyExpression var
            (if x.index.caseSensitive then var else var ++ ".toLowerCase()") s1 =
          some (toLowerCase s1) ∧
        evalKeyExpression var
            (if x.index.caseSensitive then var else var ++ ".toLowerCase()") s1 =
          evalKeyExpression var
            (if x.index.caseSensitive then var else var ++ ".toLowerCase()") s2) ∧
      SameIgnoringCase "Apple" "apple" := by
    intro hcs
    have ht := indexType_string_of_case_insensitive h hmem hcs h6
    refine ⟨ht, ?_, ?_, ?_⟩
    · intro e
      rw [ht]
      exact ⟨rfl, rfl⟩
    · intro var s1 s2 hsame
      simp only [hcs, Bool.false_eq_true, if_false]
      rw [evalKeyExpression_lower, evalKeyExpression_lower,
        toLowerCase_eq_of_sameIgnoringCase hsame]
      exact ⟨rfl, rfl⟩
    · unfold SameIgnoringCase
      show List.Forall₂ (fun a b : Char => a.toLower = b.toLower) ['A', 'p', 'p', 'l', 'e']
        ['a', 'p', 'p', 'l', 'e']
      exact List.Forall₂.cons (by decide) (List.Forall₂.cons rfl (List.Forall₂.cons rfl
        (List.Forall₂.cons rfl (List.Forall₂.cons rfl List.Forall₂.nil))))
  have htrue : x.index.caseSensitive = true →
      (∀ var s, evalKeyExpression var
        (if x.index.caseSensitive then var else var ++ ".toLowerCase()") s = some s) ∧
      (∀ var s1 s2, evalKeyExpression var
          (if x.index.caseSensitive then var else var ++ ".toLowerCase()") s1 =
        evalKeyExpression var
          (if x.index.caseSensitive then var else var ++ ".toLowerCase()") s2 → s1 = s2) := by
    intro hcs
    have hid : ∀ var s, evalKeyExpression var
        (if x.index.caseSensitive then var else var ++ ".toLowerCase()") s = some s := by
      intro var s
      simp [hcs, evalKeyExpression]
    refine ⟨hid, ?_⟩
    intro var s1 s2 heq
    rw [hid, hid] at heq
    exact Option.some.inj heq
  exact ⟨keyTypeS, valueTypeS, x, rfl, h1, h6, hsub, hext, henc, hwhole, hmember, hfalse, htrue⟩

/-- The case-insensitive index on `name` of `Person`: `extractKey` lower-cases
the member, and `APPLE` and `apple` give the same key. -/
theorem index_projection_case_witness :
    ∃ x : IndexLocals, x.index = ⟨"name", false⟩ ∧
      extractKeyBody x = [Item.nl ["return ",
        varToObject x.indexType
          (if (DictIndex.mk "name" false).caseSensitive then "value." ++ "name"
           else "value." ++ "name" ++ ".toLowerCase()"),
        ";"]] ∧
      evalKeyExpression "value.name"
          (if (DictIndex.mk "name" false).caseSensitive then "value.name"
           else "value.name" ++ ".toLowerCase()") "APPLE" =
        evalKeyExpression "value.name"
          (if (DictIndex.mk "name" false).caseSensitive then "value.name"
           else "value.name" ++ ".toLowerCase()") "apple" :=
  let ⟨_, _, x, h1, _, _, _, _, _, _, hm, hf, _⟩ :=
    index_projection_case sampleLibrary sampleEmitter "slice2freezej" sampleUnit
      ⟨"D", "int", "Person", [⟨"name", false⟩]⟩
      ⟨"D", TypePtr.builtin Kind.KindInt, personStruct,
        ⟨[TypePtr.builtin Kind.KindString], ["name"], ["Name"], ["name"], []⟩⟩ rfl
      ((writeClass sampleEmitter ⟨"D", "int", "Person", [⟨"name", false⟩]⟩
        ⟨"D", TypePtr.builtin Kind.KindInt, personStruct,
          ⟨[TypePtr.builtin Kind.KindString], ["name"], ["Name"], ["name"], []⟩⟩).getD []) rfl
      0 ⟨"name", false⟩ rfl
  ⟨x, h1, (hm (by decide)).1,
    ((hf rfl).2.2.1 "value.name" "APPLE" "apple"
      (List.Forall₂.cons (by decide) (List.Forall₂.cons (by decide) (List.Forall₂.cons (by decide)
        (List.Forall₂.cons (by decide) (List.Forall₂.cons (by decide) List.Forall₂.nil)))))).2⟩


/-! ### The class `Patcher` and the key codec -/

/-- C26 (the code writes a class that refers to a missing `Patcher`): both
turns of the loop of lines 871-1022 instantiate `Patcher` and return `p.value`
exactly when their type is the builtin `Object` or a class, while the class
`Patcher` is written exactly when the value type is such a type.  For the
dictionary `D` from `int` to the class `Account` the class `Patcher` is
written with the field `value`.  The dictionary `D` with the key type
`Account` and the value type `int` is accepted as well; the `decodeKey` body
of the map instantiates `Patcher` and returns `p.value`, and both statements
are in the class that is written, but no class `Patcher` is written: neither
its heading nor a field `value` occurs in the class. -/
theorem patcher_missing_for_class_key :
    (∀ (em : Emitter) (type : TypePtr) (typeS : String) (encaps : Bool),
      (Item.nl ["Patcher p = new Patcher();"] ∈ decodeBody em type typeS encaps ↔
        usesPatcher type = true) ∧
      (Item.nl ["return p.value;"] ∈ decodeBody em type typeS encaps ↔ usesPatcher type = true)) ∧
    (∀ (em : Emitter) (valueType : TypePtr),
      Item.nl ["private static class Patcher implements Ice.ReadValueCallback"] ∈
        patcherClass em valueType ↔ usesPatcher valueType = true) ∧
    (∃ items, writeClass sampleEmitter ⟨"D", "int", "Account", []⟩
        ⟨"D", TypePtr.builtin Kind.KindInt, accountClass, IndexVectors.empty⟩ = some items ∧
      Item.nl ["Patcher p = new Patcher();"] ∈ items ∧
      Item.nl ["private static class Patcher implements Ice.ReadValueCallback"] ∈ items ∧
      Item.nl ["Account", " value;"] ∈ items) ∧
    generate sampleLibrary "slice2freezej" sampleUnit ⟨"D", "Account", "int", []⟩ =
      .ok ⟨"D", accountClass, TypePtr.builtin Kind.KindInt, IndexVectors.empty⟩ ∧
    Item.nl ["Patcher p = new Patcher();"] ∈ decodeBody sampleEmitter accountClass "Account" false ∧
    Item.nl ["return p.value;"] ∈ decodeBody sampleEmitter accountClass "Account" false ∧
    patcherClass sampleEmitter (TypePtr.builtin Kind.KindInt) = [] ∧
    ∃ items, writeClass sampleEmitter ⟨"D", "Account", "int", []⟩
        ⟨"D", accountClass, TypePtr.builtin Kind.KindInt, IndexVectors.empty⟩ = some items ∧
      Item.nl ["Patcher p = new Patcher();"] ∈ items ∧
      Item.nl ["return p.value;"] ∈ items ∧
      Item.nl ["private static class Patcher implements Ice.ReadValueCallback"] ∉ items ∧
      ∀ typeS, Item.nl [typeS, " value;"] ∉ items := by
  refine ⟨fun em type typeS encaps => decodeBody_patcher em type typeS encaps, ?_,
    ⟨_, rfl, ?_, ?_, ?_⟩, rfl, by simp [decodeBody, usesPatcher, accountClass],
    by simp [decodeBody, usesPatcher, accountClass], rfl, _, rfl, ?_, ?_, ?_, ?_⟩
  · intro em valueType
    cases hp : usesPatcher valueType <;> simp [patcherClass, hp]
  · simp [classHeader, indexComparators, privateConstructor, privateConstructorBody,
      publicConstructors, recreateMethods, recreateBody, topLevelCodec, codecMethods, encodeBody,
      decodeBody, patcherClass, fields, usesPatcher, accountClass, isStruct, readInto,
      sampleEmitter, sampleUsesClasses, IndexVectors.empty]
  · simp [classHeader, indexComparators, privateConstructor, privateConstructorBody,
      publicConstructors, recreateMethods, recreateBody, topLevelCodec, codecMethods, encodeBody,
      decodeBody, patcherClass, fields, usesPatcher, accountClass, isStruct, readInto,
      sampleEmitter, sampleUsesClasses, IndexVectors.empty]
  · simp [classHeader, indexComparators, privateConstructor, privateConstructorBody,
      publicConstructors, recreateMethods, recreateBody, topLevelCodec, codecMethods, encodeBody,
      decodeBody, patcherClass, fields, usesPatcher, accountClass, isStruct, readInto,
      sampleEmitter, sampleUsesClasses, IndexVectors.empty, sampleTypeToString, isBuiltin]
  · simp [classHeader, indexComparators, privateConstructor, privateConstructorBody,
      publicConstructors, recreateMethods, recreateBody, topLevelCodec, codecMethods, encodeBody,
      decodeBody, patcherClass, fields, usesPatcher, accountClass, isStruct, readInto,
      sampleEmitter, sampleUsesClasses, IndexVectors.empty]
  · simp [classHeader, indexComparators, privateConstructor, privateConstructorBody,
      publicConstructors, recreateMethods, recreateBody, topLevelCodec, codecMethods, encodeBody,
      decodeBody, patcherClass, fields, usesPatcher, accountClass, isStruct, readInto,
      sampleEmitter, sampleUsesClasses, IndexVectors.empty]
  · simp [classHeader, indexComparators, privateConstructor, privateConstructorBody,
      publicConstructors, recreateMethods, recreateBody, topLevelCodec, codecMethods, encodeBody,
      decodeBody, patcherClass, fields, usesPatcher, accountClass, isStruct, readInto,
      sampleEmitter, sampleUsesClasses, IndexVectors.empty]
  · intro typeS
    simp [classHeader, indexComparators, privateConstructor, privateConstructorBody,
      publicConstructors, recreateMethods, recreateBody, topLevelCodec, codecMethods, encodeBody,
      decodeBody, patcherClass, fields, usesPatcher, accountClass, isStruct, readInto,
      sampleEmitter, sampleUsesClasses, IndexVectors.empty, sampleTypeToString, builtinTable,
      Kind.toNat]


/-- The data member behind the projected type of an index that has a member. -/
theorem projectedType_member {dict : Dict} {vt : TypePtr} {ix : DictIndex} {t : TypePtr}
    (hm : ix.member ≠ "") (h : projectedType dict vt ix = some t) :
    ∃ dms dm, valueDataMembers dict vt = .ok dms ∧ findDataMember ix.member dms = some dm ∧
      dm ∈ dms ∧ dm.1 = ix.member ∧ dm.2 = t := by
  unfold projectedType at h
  simp only [hm, if_false] at h
  cases hd : valueDataMembers dict vt with
  | error e => simp [hd] at h
  | ok dms =>
    simp only [hd] at h
    cases hf : findDataMember ix.member dms with
    | none => simp [hf] at h
    | some dm =>
      simp only [hf, Option.some.injEq] at h
      obtain ⟨h1, h2⟩ := findDataMember_some hf
      exact ⟨dms, dm, rfl, hf, h1, h2, h⟩

/-- Members that differ only in the case of the first character are
different and agree from the second character on. -/
theorem differInFirstCase_tail {m1 m2 : String} (h : DifferInFirstCase m1 m2) :
    m1.data.tail = m2.data.tail ∧ m1 ≠ m2 := by
  obtain ⟨c1, c2, rest, rfl, rfl, hne, _⟩ := h
  refine ⟨rfl, ?_⟩
  intro heq
  have hd : c1 :: rest = c2 :: rest := congrArg String.data heq
  simp only [List.cons.injEq, and_true] at hd
  exact hne hd

/-! ### Distinct names for distinct members -/

/-- C29: let no two data members of the value type differ only in the case of
their first character, as Slice requires of the identifiers of one scope.
Then for every accepted dictionary and any two of its index entries with
different members: both entries have a member; their entries of
`capitalizedMembers` are the members with the first character in upper case;
the names of the two inner classes, the capitalized member followed by
`Index`, are different, and so are the names of the two finders, `findBy`
followed by the capitalized member.  In the class that is written, the
heading of the inner class and the heading of the finder of either index
carry these names. -/
theorem generated_names_distinct (lib : Library) (prog : String) (u : UnitPtr) (dict : Dict)
    (c : Checked) (h : generate lib prog u dict = .ok c)
    (hslice : ∀ dms, valueDataMembers dict c.valueType = .ok dms →
      ∀ a ∈ dms, ∀ b ∈ dms, ¬ DifferInFirstCase a.1 b.1)
    (i j : Nat) (ix jx : DictIndex)
    (hi : dict.indices[i]? = some ix) (hj : dict.indices[j]? = some jx)
    (hne : ix.member ≠ jx.member) :
    (ix.member ≠ "" ∧ jx.member ≠ "") ∧
    c.vectors.capitalizedMembers[i]? = some (capitalize ix.member) ∧
    c.vectors.capitalizedMembers[j]? = some (capitalize jx.member) ∧
    capitalize ix.member ≠ capitalize jx.member ∧
    indexClassName (capitalize ix.member) ≠ indexClassName (capitalize jx.member) ∧
    finderName (capitalize ix.member) ≠ finderName (capitalize jx.member) ∧
    (∀ (em : Emitter) (items : List Item), writeClass em dict c = some items →
      ∃ (keyTypeS valueTypeS : String) (x y : IndexLocals), x.index = ix ∧ y.index = jx ∧
        x.capitalizedMember = capitalize ix.member ∧
        y.capitalizedMember = capitalize jx.member ∧
        Item.nl ["private class ", indexClassName x.capitalizedMember,
          " extends Freeze.MapInternal.Index<", keyTypeS, ", ", valueTypeS, ", ",
          x.indexObjTypeS, ">"] ∈ items ∧
        Item.nl ["private class ", indexClassName y.capitalizedMember,
          " extends Freeze.MapInternal.Index<", keyTypeS, ", ", valueTypeS, ", ",
          y.indexObjTypeS, ">"] ∈ items ∧
        Item.nl ["findBy", x.capitalizedMember, "(", x.indexTypeS, " key)"] ∈ items ∧
        Item.nl ["findBy", y.capitalizedMember, "(", y.indexTypeS, " key)"] ∈ items ∧
        finderName x.capitalizedMember = "findBy" ++ x.capitalizedMember ∧
        indexClassName x.capitalizedMember = x.capitalizedMember ++ "Index") := by
  have hlen : 2 ≤ dict.indices.length := by
    have h1 : i < dict.indices.length := by
      by_contra hge
      rw [List.getElem?_eq_none (by omega)] at hi
      cases hi
    have h2 : j < dict.indices.length := by
      by_contra hge
      rw [List.getElem?_eq_none (by omega)] at hj
      cases hj
    have hij : i ≠ j := by
      rintro rfl
      rw [hi] at hj
      cases hj
      exact hne rfl
    omega
  obtain ⟨ti, hti, _, _, hsolei⟩ := generate_ok_index h (List.getElem?_mem hi)
  obtain ⟨tj, htj, _, _, hsolej⟩ := generate_ok_index h (List.getElem?_mem hj)
  have hmi : ix.member ≠ "" := by
    intro h0
    have := hsolei h0
    omega
  have hmj : jx.member ≠ "" := by
    intro h0
    have := hsolej h0
    omega
  obtain ⟨dms, a, hd, _, ha, han, _⟩ := projectedType_member hmi hti
  obtain ⟨dms1, b, hd1, _, hb, hbn, _⟩ := projectedType_member hmj htj
  rw [hd] at hd1
  cases hd1
  have hnd : ¬ DifferInFirstCase ix.member jx.member := by
    have := hslice dms hd a ha b hb
    rwa [han, hbn] at this
  have hcap := (generate_vectors h).2.1
  have hnames := generated_names_eq_iff (capitalize ix.member) (capitalize jx.member)
  have hiff := capitalize_eq_iff hmi hmj hne
  have hcne : capitalize ix.member ≠ capitalize jx.member := fun e => hnd (hiff.mp e)
  refine ⟨⟨hmi, hmj⟩, by simp [hcap, hi, capitalizedLabel, hmi],
    by simp [hcap, hj, capitalizedLabel, hmj], hcne, fun e => hcne (hnames.1.mp e),
    fun e => hcne (hnames.2.mp e), ?_⟩
  intro em items hw
  obtain ⟨keyTypeS, valueTypeS, xs, _, _, hxs, _, _, _, _, hall⟩ := sections_written h hw
  obtain ⟨x, _, hxmem, _, hx2, _, hx4, _⟩ := indexLocals_at h hxs hi
  obtain ⟨y, _, hymem, _, hy2, _, hy4, _⟩ := indexLocals_at h hxs hj
  have hxc : x.capitalizedMember = capitalize ix.member := by
    rw [hx4]
    simp [capitalizedLabel, hmi]
  have hyc : y.capitalizedMember = capitalize jx.member := by
    rw [hy4]
    simp [capitalizedLabel, hmj]
  refine ⟨keyTypeS, valueTypeS, x, y, hx2, hy2, hxc, hyc,
    (hall x hxmem).2.subset (by simp [indexClass, indexClassName]),
    (hall y hymem).2.subset (by simp [indexClass, indexClassName]),
    (hall x hxmem).1.subset (by simp [indexMethods, findBy]),
    (hall y hymem).1.subset (by simp [indexMethods, findBy]), rfl, rfl⟩

/-- The indices on `name` and `age` of `Person`, whose members `name`, `age`
and `weight` differ in more than the case of the first character: the classes
`NameIndex` and `AgeIndex`. -/
theorem generated_names_distinct_witness :
    indexClassName (capitalize (DictIndex.mk "name" true).member) ≠
      indexClassName (capitalize (DictIndex.mk "age" true).member) :=
  (generated_names_distinct sampleLibrary "slice2freezej" sampleUnit
    ⟨"D", "int", "Person", [⟨"name", true⟩, ⟨"age", true⟩]⟩
    ⟨"D", TypePtr.builtin Kind.KindInt, personStruct,
      ⟨[TypePtr.builtin Kind.KindString, TypePtr.builtin Kind.KindInt], ["name", "age"],
        ["Name", "Age"], ["name", "age"], []⟩⟩ rfl
    (by
      intro dms hd a ha b hb hdiff
      have hdms : dms = [("name", TypePtr.builtin Kind.KindString),
          ("age", TypePtr.builtin Kind.KindInt), ("weight", TypePtr.builtin Kind.KindDouble)] := by
        simp only [valueDataMembers, personStruct, Except.ok.injEq] at hd
        exact hd.symm
      subst hdms
      have ht := differInFirstCase_tail hdiff
      simp only [List.mem_cons, List.mem_singleton, List.not_mem_nil, or_false] at ha hb
      rcases ha with rfl | rfl | rfl <;> rcases hb with rfl | rfl | rfl <;>
        revert ht <;> decide)
    0 1 ⟨"name", true⟩ ⟨"age", true⟩ rfl rfl (by decide)).2.2.2.2.1

end FreezeGenerator

/-! ## Consistency of the indexed map -/

namespace IndexedMap

theorem entryLE_total (a b : Nat × Nat) (h : entryLE a b = false) : entryLE b a = true := by
  unfold entryLE at *
  simp only [decide_eq_false_iff_not, decide_eq_true_eq] at *
  omega

theorem entryLE_trans (a b c : Nat × Nat) (h1 : entryLE a b = true) (h2 : entryLE b c = true) :
    entryLE a c = true := by
  unfold entryLE at *
  simp only [decide_eq_true_eq] at *
  omega

theorem insertEntry_perm (e : Nat × Nat) (l : List (Nat × Nat)) :
    (insertEntry e l).Perm (e :: l) := by
  induction l with
  | nil => exact List.Perm.refl _
  | cons x xs ih =>
    unfold insertEntry
    split_ifs
    · exact List.Perm.refl _
    · exact (List.Perm.cons x ih).trans (List.Perm.swap e x xs)

theorem insertEntry_sorted (e : Nat × Nat) (l : List (Nat × Nat))
    (h : l.Pairwise (fun a b => entryLE a b = true)) :
    (insertEntry e l).Pairwise (fun a b => entryLE a b = true) := by
  induction l with
  | nil => simp [insertEntry]
  | cons x xs ih =>
    rw [List.pairwise_cons] at h
    unfold insertEntry
    split_ifs with hle
    · rw [List.pairwise_cons]
      refine ⟨?_, List.pairwise_cons.mpr h⟩
      intro y hy
      rcases List.mem_cons.mp hy with rfl | hy
      · exact hle
      · exact entryLE_trans _ _ _ hle (h.1 y hy)
    · rw [List.pairwise_cons]
      refine ⟨?_, ih h.2⟩
      intro y hy
      rcases List.mem_cons.mp ((insertEntry_perm e xs).mem_iff.mp hy) with rfl | hy
      · exact entryLE_total _ _ (by simpa using hle)
      · exact h.1 y hy

theorem insertPrimary_perm {V : Type} (k : Nat) (v : V) (l : List (Nat × V)) :
    (insertPrimary k v l).Perm ((k, v) :: l) := by
  induction l with
  | nil => exact List.Perm.refl _
  | cons x xs ih =>
    unfold insertPrimary
    split_ifs
    · exact List.Perm.refl _
    · exact (List.Perm.cons x ih).trans (List.Perm.swap (k, v) x xs)

theorem writePrimary_keys_nodup {V : Type} (k : Nat) (v : V) (l : List (Nat × V))
    (h : (l.map (fun x => x.1)).Nodup) :
    ((writePrimary k v l).map (fun x => x.1)).Nodup := by
  unfold writePrimary
  have hp := (insertPrimary_perm k v (l.filter (fun x => x.1 ≠ k))).map (fun x => x.1)
  rw [hp.nodup_iff, List.map_cons, List.nodup_cons]
  constructor
  · intro hmem
    obtain ⟨x, hx, hk⟩ := List.mem_map.mp hmem
    have := (List.mem_filter.mp hx).2
    simp at this
    exact this hk
  · exact h.sublist ((List.filter_sublist _).map _)

theorem consistent_emptyStore {V : Type} (indexSet : List (V → Nat)) :
    Consistent (emptyStore indexSet) := by
  refine ⟨by simp [emptyStore], ?_⟩
  intro ix hix
  simp only [emptyStore, List.mem_map] at hix
  obtain ⟨p, _, rfl⟩ := hix
  simp [get, lookup, emptyStore]

theorem consistent_put_noFault {V : Type} (s : Store V) (k : Nat) (v : V) (h : Consistent s) :
    Consistent (put noFault k v s).1 := by
  rw [put_noFault]
  refine ⟨writePrimary_keys_nodup k v _ h.1, ?_⟩
  intro jx hjx
  simp only [List.mem_map] at hjx
  obtain ⟨ix, hix, rfl⟩ := hjx
  obtain ⟨hs, hn, hm⟩ := h.2 ix hix
  have hget : ∀ k1, get (⟨writePrimary k v s.primary,
      s.indices.map (maintainIndex (get s k) k v)⟩ : Store V) k1 =
      if k1 = k then some v else get s k1 := by
    intro k1
    by_cases hk : k1 = k
    · subst hk
      have h1 := get_put_self k1 v s
      rw [put_noFault] at h1
      simp [h1]
    · have h1 := get_put_other hk v s
      rw [put_noFault] at h1
      simp [h1, hk]
  -- the entries after the removal of the previous projection
  have hbase : ∃ base : List (Nat × Nat),
      (maintainIndex (get s k) k v ix).entries = insertEntry (ix.project v, k) base ∧
      base.Pairwise (fun a b => entryLE a b = true) ∧ base.Nodup ∧
      ∀ p k1, (p, k1) ∈ base ↔ k1 ≠ k ∧ (p, k1) ∈ ix.entries := by
    cases hold : get s k with
    | none =>
      refine ⟨ix.entries, by simp [maintainIndex], hs, hn, ?_⟩
      intro p k1
      constructor
      · intro hmem
        refine ⟨?_, hmem⟩
        rintro rfl
        obtain ⟨w, hw, _⟩ := (hm p k1).mp hmem
        rw [hold] at hw
        cases hw
      · exact fun hh => hh.2
    | some previous =>
      refine ⟨ix.entries.erase (ix.project previous, k), by simp [maintainIndex],
        hs.sublist (List.erase_sublist _ _), hn.erase _, ?_⟩
      intro p k1
      rw [hn.mem_erase_iff]
      constructor
      · rintro ⟨hne, hmem⟩
        refine ⟨?_, hmem⟩
        rintro rfl
        obtain ⟨w, hw, hp⟩ := (hm p k1).mp hmem
        rw [hold] at hw
        cases hw
        exact hne (by rw [hp])
      · rintro ⟨hne, hmem⟩
        refine ⟨?_, hmem⟩
        intro heq
        cases heq
        exact hne rfl
  obtain ⟨base, hent, hbs, hbn, hbm⟩ := hbase
  have hproj : (maintainIndex (get s k) k v ix).project = ix.project := rfl
  have hnot : (ix.project v, k) ∉ base := fun hmem => ((hbm _ _).mp hmem).1 rfl
  refine ⟨?_, ?_, ?_⟩
  · rw [hent]
    exact insertEntry_sorted _ _ hbs
  · rw [hent, (insertEntry_perm _ _).nodup_iff]
    exact List.nodup_cons.mpr ⟨hnot, hbn⟩
  · intro p k1
    rw [hent, (insertEntry_perm _ _).mem_iff, List.mem_cons, hbm, hget, hproj]
    by_cases hk : k1 = k
    · subst hk
      simp only [if_true, ne_eq, not_true_eq_false, false_and, or_false, Prod.mk.injEq,
        and_true]
      constructor
      · intro hp
        exact ⟨v, rfl, hp.symm⟩
      · rintro ⟨w, hw, hp⟩
        cases hw
        exact hp.symm
    · simp only [hk, if_false, ne_eq, not_false_eq_true, true_and, Prod.mk.injEq, and_false,
        false_or]
      exact hm p k1

theorem put_store_cases {V : Type} (fault : Nat → Bool) (k : Nat) (v : V) (s : Store V) :
    (put fault k v s).1 = s ∨ (put fault k v s).1 = (put noFault k v s).1 := by
  have key : ∀ (j : Nat) (l r : List (Index V)),
      maintainIndices fault (get s k) k v j l = .ok r → r = l.map (maintainIndex (get s k) k v) := by
    intro j l
    induction l generalizing j with
    | nil =>
      intro r hr
      simp [maintainIndices] at hr
      cases hr
      rfl
    | cons ix rest ih =>
      intro r hr
      unfold maintainIndices at hr
      split_ifs at hr
      cases hrest : maintainIndices fault (get s k) k v (j + 1) rest with
      | error e => rw [hrest] at hr; cases hr
      | ok rest1 =>
        rw [hrest] at hr
        cases hr
        rw [ih _ _ hrest]
        rfl
  rw [put_noFault]
  unfold put atomically putBody
  split_ifs
  · exact Or.inl rfl
  · cases hm : maintainIndices fault (get s k) k v 0 s.indices with
    | error e => exact Or.inl rfl
    | ok r =>
      right
      simp only
      rw [key _ _ _ hm]

theorem consistent_put {V : Type} (fault : Nat → Bool) (s : Store V) (k : Nat) (v : V)
    (h : Consistent s) : Consistent (put fault k v s).1 := by
  rcases put_store_cases fault k v s with h1 | h1
  · rw [h1]; exact h
  · rw [h1]; exact consistent_put_noFault s k v h

theorem consistent_copyInto {V : Type} (l : List (Nat × V)) (dest : Store V)
    (h : Consistent dest) : Consistent (copyInto dest l) := by
  induction l generalizing dest with
  | nil => exact h
  | cons x rest ih =>
    unfold copyInto
    exact ih _ (consistent_put_noFault dest x.1 x.2 h)

theorem mem_entriesOf {V : Type} (s : Store V) (l : List (Nat × Nat)) (k : Nat) (v : V) :
    (k, v) ∈ entriesOf s l ↔ (∃ p, (p, k) ∈ l) ∧ get s k = some v := by
  unfold entriesOf
  rw [List.mem_filterMap]
  constructor
  · rintro ⟨e, he, hv⟩
    cases hg : get s e.2 with
    | none => rw [hg] at hv; cases hv
    | some w =>
      rw [hg] at hv
      cases hv
      exact ⟨⟨e.1, he⟩, hg⟩
  · rintro ⟨⟨p, hp⟩, hg⟩
    exact ⟨(p, k), hp, by simp [hg]⟩

end IndexedMap

/-! ## Queries on a consistent map -/

namespace IndexedMap

/-- The results of an index query that meets only entries of the index. -/
theorem length_entriesOf {V : Type} (s : Store V) (ix : Index V) (hc : Consistent s)
    (hix : ix ∈ s.indices) (l : List (Nat × Nat)) (hl : ∀ e ∈ l, e ∈ ix.entries) :
    (entriesOf s l).length = l.length := by
  induction l with
  | nil => rfl
  | cons e rest ih =>
    obtain ⟨v, hv, _⟩ := ((hc.2 ix hix).2.2 e.1 e.2).mp (hl e (List.mem_cons_self _ _))
    have hr := ih (fun x hx => hl x (List.mem_cons_of_mem _ hx))
    unfold entriesOf at hr ⊢
    simp [List.filterMap_cons, hv, hr]

/-- The entries of a consistent map that an index query selects by a test of
the projection. -/
theorem mem_entriesOf_filter {V : Type} (s : Store V) (ix : Index V) (hc : Consistent s)
    (hix : ix ∈ s.indices) (test : Nat → Bool) (k : Nat) (v : V) :
    (k, v) ∈ entriesOf s (ix.entries.filter (fun e => test e.1)) ↔
      get s k = some v ∧ test (ix.project v) = true := by
  rw [mem_entriesOf]
  constructor
  · rintro ⟨⟨p, hp⟩, hg⟩
    obtain ⟨hmem, ht⟩ := List.mem_filter.mp hp
    obtain ⟨w, hw, hpw⟩ := ((hc.2 ix hix).2.2 p k).mp hmem
    rw [hg] at hw
    cases hw
    exact ⟨hg, by rw [hpw]; exact ht⟩
  · rintro ⟨hg, ht⟩
    exact ⟨⟨ix.project v, List.mem_filter.mpr ⟨((hc.2 ix hix).2.2 _ k).mpr ⟨v, hg, rfl⟩, ht⟩⟩, hg⟩

/-- The results of an index query come in index order: by projection, and
among equal projections by primary key. -/
theorem entriesOf_ordered {V : Type} (s : Store V) (ix : Index V) (hc : Consistent s)
    (hix : ix ∈ s.indices) (l : List (Nat × Nat)) (hl : l.Sublist ix.entries) :
    (entriesOf s l).Pairwise (fun a b =>
      ix.project a.2 < ix.project b.2 ∨ (ix.project a.2 = ix.project b.2 ∧ a.1 < b.1)) := by
  obtain ⟨hs, hn, hm⟩ := hc.2 ix hix
  have hboth : ix.entries.Pairwise (fun a b => entryLE a b = true ∧ a ≠ b) :=
    hs.and hn
  unfold entriesOf
  rw [List.pairwise_filterMap]
  refine (hboth.sublist hl).imp_of_mem ?_
  intro a b ha hb hab x hx y hy
  obtain ⟨va, hva, hpa⟩ := (hm a.1 a.2).mp (hl.subset ha)
  obtain ⟨vb, hvb, hpb⟩ := (hm b.1 b.2).mp (hl.subset hb)
  rw [hva] at hx
  rw [hvb] at hy
  simp only [Option.mem_def, Option.some.injEq] at hx hy
  subst hx
  subst hy
  simp only
  rw [hpa, hpb]
  have h1 := hab.1
  have h2 := hab.2
  unfold entryLE at h1
  simp only [decide_eq_true_eq] at h1
  have h3 : ¬ (a.1 = b.1 ∧ a.2 = b.2) := fun hh => h2 (Prod.ext hh.1 hh.2)
  omega

end IndexedMap

/-! ## Duplicate projections -/

namespace IndexedMap

/-- C18: in a consistent map with index `j`, `rangeByIndex` returns, in index
order, exactly the entries whose projection lies between `fromKey` and `toKey`,
each endpoint being included iff its flag is true: `(5, true, 10, false)`
returns exactly the entries with a projection in `[5, 10)`; a range with equal
endpoints is empty unless both flags are true, and then holds the entries of
that projection, so `(5, false, 5, true)` is empty.  In the class written for
an accepted dictionary, `subMapFor<Member>(fromKey, fromInclusive, toKey,
toInclusive)` of every index returns `createSubMap` of the index on `fromKey`,
`fromInclusive`, `toKey`, `toInclusive`, in that order, the two keys as
objects. -/
theorem range_by_index {V : Type} (s : Store V) (j : Nat) (ix : Index V)
    (hc : Consistent s) (hj : s.indices[j]? = some ix)
    (lib : Library) (em : Emitter) (prog : String) (u : UnitPtr) (dict : Dict)
    (c : FreezeGenerator.Checked)
    (h : FreezeGenerator.generate lib prog u dict = .ok c) (items : List Item)
    (hw : FreezeGenerator.writeClass em dict c = some items) (i : Nat) (dix : DictIndex)
    (hix : dict.indices[i]? = some dix) :
    (∀ (fromKey : Nat) (fromInclusive : Bool) (toKey : Nat) (toInclusive : Bool),
      (∀ k v, (k, v) ∈ rangeByIndex s j fromKey fromInclusive toKey toInclusive ↔
        get s k = some v ∧
        (if fromInclusive then fromKey ≤ ix.project v else fromKey < ix.project v) ∧
        (if toInclusive then ix.project v ≤ toKey else ix.project v < toKey)) ∧
      (rangeByIndex s j fromKey fromInclusive toKey toInclusive).Pairwise (fun a b =>
        ix.project a.2 < ix.project b.2 ∨ (ix.project a.2 = ix.project b.2 ∧ a.1 < b.1)) ∧
      (rangeByIndex s j fromKey fromInclusive toKey toInclusive).length =
        (rangeEntries s j fromKey fromInclusive toKey toInclusive).length ∧
      (fromKey = toKey → ¬ (fromInclusive = true ∧ toInclusive = true) →
        rangeByIndex s j fromKey fromInclusive toKey toInclusive = [])) ∧
    (∀ k v, (k, v) ∈ rangeByIndex s j 5 true 10 false ↔
      get s k = some v ∧ 5 ≤ ix.project v ∧ ix.project v < 10) ∧
    (∀ key k v, (k, v) ∈ rangeByIndex s j key true key true ↔
      get s k = some v ∧ ix.project v = key) ∧
    rangeByIndex s j 5 false 5 true = [] ∧
    (∃ keyTypeS valueTypeS x, x.index = dix ∧
      (FreezeGenerator.subMapForInclusive keyTypeS valueTypeS x).Sublist items ∧
      Item.nl ["subMapFor", capitalizedLabel dix, "(", x.indexTypeS,
        " fromKey, boolean fromInclusive, ", x.indexTypeS, " toKey, boolean toInclusive)"]
        ∈ items ∧
      Item.nl ["return _", memberLabel dix, "Index.createSubMap(",
        FreezeGenerator.varToObject x.indexType "fromKey", ", fromInclusive, ",
        FreezeGenerator.varToObject x.indexType "toKey", ", toInclusive);"] ∈ items ∧
      FreezeGenerator.subMapForInclusive keyTypeS valueTypeS x =
        (FreezeGenerator.subMapForInclusive keyTypeS valueTypeS x).take 17 ++
        [Item.nl ["public " ++ FreezeGenerator.subMap keyTypeS valueTypeS x.indexObjTypeS],
         Item.nl ["subMapFor", capitalizedLabel dix, "(", x.indexTypeS,
          " fromKey, boolean fromInclusive, ", x.indexTypeS, " toKey, boolean toInclusive)"],
         Item.sb,
         Item.nl ["return _", memberLabel dix, "Index.createSubMap(",
          FreezeGenerator.varToObject x.indexType "fromKey", ", fromInclusive, ",
          FreezeGenerator.varToObject x.indexType "toKey", ", toInclusive);"],
         Item.eb]) := by
  have hmem := List.getElem?_mem hj
  have hrange : ∀ (fromKey : Nat) (fromInclusive : Bool) (toKey : Nat) (toInclusive : Bool)
      (k : Nat) (v : V),
      (k, v) ∈ rangeByIndex s j fromKey fromInclusive toKey toInclusive ↔
        get s k = some v ∧
        inRange fromKey fromInclusive toKey toInclusive (ix.project v) = true := by
    intro fromKey fromInclusive toKey toInclusive k v
    unfold rangeByIndex rangeEntries
    rw [hj]
    exact mem_entriesOf_filter s ix hc hmem (inRange fromKey fromInclusive toKey toInclusive) k v
  have hin : ∀ (fromKey : Nat) (fromInclusive : Bool) (toKey : Nat) (toInclusive : Bool)
      (p : Nat), inRange fromKey fromInclusive toKey toInclusive p = true ↔
        (if fromInclusive then fromKey ≤ p else fromKey < p) ∧
        (if toInclusive then p ≤ toKey else p < toKey) := by
    intro fromKey fromInclusive toKey toInclusive p
    unfold inRange
    cases fromInclusive <;> cases toInclusive <;> simp <;> omega
  refine ⟨?_, ?_, ?_, ?_, ?_⟩
  · intro fromKey fromInclusive toKey toInclusive
    refine ⟨?_, ?_, ?_, ?_⟩
    · intro k v
      rw [hrange, hin]
    · unfold rangeByIndex rangeEntries
      rw [hj]
      exact entriesOf_ordered s ix hc hmem _ (List.filter_sublist _)
    · unfold rangeByIndex
      refine length_entriesOf s ix hc hmem _ ?_
      intro e he
      unfold rangeEntries at he
      rw [hj] at he
      exact (List.mem_filter.mp he).1
    · intro heq hflags
      rw [List.eq_nil_iff_forall_not_mem]
      rintro ⟨k, v⟩ hkv
      have := ((hin _ _ _ _ _).mp ((hrange _ _ _ _ k v).mp hkv).2)
      subst heq
      cases fromInclusive <;> cases toInclusive <;> simp at this hflags <;> omega
  · intro k v
    rw [hrange, hin]
    simp
  · intro key k v
    rw [hrange, hin]
    simp only [if_true]
    constructor
    · rintro ⟨hg, h1, h2⟩
      exact ⟨hg, by omega⟩
    · rintro ⟨hg, h1⟩
      exact ⟨hg, by omega, by omega⟩
  · rw [List.eq_nil_iff_forall_not_mem]
    rintro ⟨k, v⟩ hkv
    have := ((hin _ _ _ _ _).mp ((hrange _ _ _ _ k v).mp hkv).2)
    simp at this
    omega
  · obtain ⟨keyTypeS, valueTypeS, x, h1, h2, h3, h4⟩ :=
      FreezeGenerator.indexMethods_written h hw hix
    have hsub : (FreezeGenerator.subMapForInclusive keyTypeS valueTypeS x).Sublist items := by
      refine List.Sublist.trans ?_ h4
      unfold FreezeGenerator.indexMethods
      simp only [List.append_assoc]
      refine List.Sublist.trans ?_ (List.sublist_append_right _ _)
      refine List.Sublist.trans ?_ (List.sublist_append_right _ _)
      refine List.Sublist.trans ?_ (List.sublist_append_right _ _)
      refine List.Sublist.trans ?_ (List.sublist_append_right _ _)
      refine List.Sublist.trans ?_ (List.sublist_append_right _ _)
      refine List.Sublist.trans ?_ (List.sublist_append_right _ _)
      refine List.Sublist.trans ?_ (List.sublist_append_right _ _)
      exact List.sublist_append_left _ _
    refine ⟨keyTypeS, valueTypeS, x, h1, hsub, ?_, ?_, ?_⟩
    · exact hsub.subset (by simp [FreezeGenerator.subMapForInclusive, h3])
    · exact hsub.subset (by simp [FreezeGenerator.subMapForInclusive,
        FreezeGenerator.subMapForInclusiveBody, h2])
    · simp [FreezeGenerator.subMapForInclusive, FreezeGenerator.subMapForInclusiveBody, h2, h3]


/-- The map `fiveProjections`, of the projections 3, 5, 7, 10 and 12: the
entries of the projections 5 and 7 are in the range `(5, true, 10, false)`, the
entry of the projection 10 is not, and the range `(5, false, 5, true)` is empty. -/
theorem range_by_index_witness :
    (2, 5) ∈ rangeByIndex fiveProjections 0 5 true 10 false ∧
    (3, 7) ∈ rangeByIndex fiveProjections 0 5 true 10 false ∧
    (4, 10) ∉ rangeByIndex fiveProjections 0 5 true 10 false ∧
    (1, 3) ∉ rangeByIndex fiveProjections 0 5 true 10 false ∧
    rangeByIndex fiveProjections 0 5 false 5 true = [] ∧
    rangeByIndex fiveProjections 0 5 true 10 false = [(2, 5), (3, 7)] :=
  let ⟨_, hr, _, hempty, _⟩ :=
    range_by_index fiveProjections 0
      ⟨fun v => v, [(3, 1), (5, 2), (7, 3), (10, 4), (12, 5)]⟩
      (consistent_copyInto _ _ (consistent_emptyStore _)) rfl
      sampleLibrary sampleEmitter "slice2freezej" sampleUnit
      ⟨"D", "int", "Person", [⟨"name", true⟩]⟩
      ⟨"D", TypePtr.builtin Kind.KindInt, personStruct,
        ⟨[TypePtr.builtin Kind.KindString], ["name"], ["Name"], ["name"], []⟩⟩ rfl
      ((FreezeGenerator.writeClass sampleEmitter ⟨"D", "int", "Person", [⟨"name", true⟩]⟩
        ⟨"D", TypePtr.builtin Kind.KindInt, personStruct,
          ⟨[TypePtr.builtin Kind.KindString], ["name"], ["Name"], ["name"], []⟩⟩).getD [])
      rfl 0 ⟨"name", true⟩ rfl
  ⟨(hr 2 5).mpr ⟨rfl, by decide, by decide⟩, (hr 3 7).mpr ⟨rfl, by decide, by decide⟩,
    fun hmem => absurd ((hr 4 10).mp hmem).2.2 (by decide),
    fun hmem => absurd ((hr 1 3).mp hmem).2.1 (by decide), hempty, by decide⟩

end IndexedMap

/-! ## `rebuild` -/

namespace IndexedMap

end IndexedMap

/-! ## Decode against encode: the records -/

namespace Codec

theorem length_encodeNumber (bytes n : Nat) : (encodeNumber bytes n).length = bytes := by
  induction bytes generalizing n with
  | zero => rfl
  | succ w ih => simp [encodeNumber, ih]

theorem decodeNumber_encodeNumber (bytes n : Nat) (h : n < 256 ^ bytes) :
    decodeNumber (encodeNumber bytes n) = n := by
  induction bytes generalizing n with
  | zero =>
    simp at h
    simp [encodeNumber, decodeNumber, h]
  | succ w ih =>
    have h1 : n / 256 < 256 ^ w := by
      rw [Nat.div_lt_iff_lt_mul (by decide)]
      rw [pow_succ] at h
      exact h
    simp only [encodeNumber, decodeNumber, ih _ h1]
    omega

theorem readBytes_append (a rest : List Nat) :
    readBytes a.length (a ++ rest) = some (a, rest) := by
  simp [readBytes]

theorem readNumber_encodeNumber (bytes n : Nat) (rest : List Nat) (h : n < 256 ^ bytes) :
    readNumber bytes (encodeNumber bytes n ++ rest) = some (n, rest) := by
  have := readBytes_append (encodeNumber bytes n) rest
  rw [length_encodeNumber] at this
  simp [readNumber, this, decodeNumber_encodeNumber bytes n h]

theorem followedBy_eq_some {a b : Option (List Nat)} {c : List Nat} (h : followedBy a b = some c) :
    ∃ x y, a = some x ∧ b = some y ∧ c = x ++ y := by
  cases a <;> cases b <;> simp [followedBy] at h
  exact ⟨_, _, rfl, rfl, h.symm⟩

theorem encodeLength_eq_some {n : Nat} {bytes : List Nat} (h : encodeLength n = some bytes) :
    n < 256 ^ 4 ∧ bytes = encodeNumber 4 n := by
  unfold encodeLength at h
  split_ifs at h with hn
  cases h
  exact ⟨hn, rfl⟩

/-- Reading a record that starts with a length prefix. -/
theorem readNumber_encodeLength {n : Nat} {bytes : List Nat} (rest : List Nat)
    (h : encodeLength n = some bytes) : readNumber 4 (bytes ++ rest) = some (n, rest) := by
  obtain ⟨hn, rfl⟩ := encodeLength_eq_some h
  exact readNumber_encodeNumber 4 n rest hn

theorem readText_encodeText {utf8 bytes : List Nat} (rest : List Nat)
    (h : encodeText utf8 = some bytes) : readText (bytes ++ rest) = some (utf8, rest) := by
  unfold encodeText at h
  split_ifs at h
  obtain ⟨x, y, hx, hy, rfl⟩ := followedBy_eq_some h
  cases hy
  unfold readText
  rw [List.append_assoc, readNumber_encodeLength _ hx]
  exact readBytes_append _ _

/-- Reading the elements of a sequence that were written one behind the other. -/
theorem decodeRepeat_encodeEach {α : Type} (encodeOne : α → Option (List Nat))
    (decodeOne : List Nat → Option (α × List Nat)) (xs : List α)
    (hone : ∀ x ∈ xs, ∀ bytes rest, encodeOne x = some bytes →
      decodeOne (bytes ++ rest) = some (x, rest))
    (bytes rest : List Nat) (h : encodeEach encodeOne xs = some bytes) :
    decodeRepeat decodeOne xs.length (bytes ++ rest) = some (xs, rest) := by
  induction xs generalizing bytes with
  | nil =>
    simp [encodeEach] at h
    subst h
    rfl
  | cons x xs ih =>
    simp only [encodeEach] at h
    obtain ⟨a, b, ha, hb, rfl⟩ := followedBy_eq_some h
    simp only [List.length_cons, decodeRepeat, List.append_assoc]
    rw [hone x (List.mem_cons_self _ _) a (b ++ rest) ha]
    simp only
    rw [ih (fun y hy => hone y (List.mem_cons_of_mem _ hy)) b hb]

mutual
/-- Decoding the record of a value yields the value and the bytes behind it. -/
theorem decodeValue_encodeValue : ∀ (d : TypeDescriptor) (v : Value) (bytes rest : List Nat),
    encodeValue d v = some bytes → decodeValue d (bytes ++ rest) = some (v, rest)
  | .integer w, v, bytes, rest, h => by
    cases v <;> simp only [encodeValue] at h <;> try cases h
    split_ifs at h with hn
    cases h
    simp [decodeValue, readNumber_encodeNumber _ _ rest hn]
  | .boolean, v, bytes, rest, h => by
    cases v <;> simp only [encodeValue] at h <;> try cases h
    rename_i b
    cases b <;> simp [decodeValue, readNumber, readBytes, decodeNumber]
  | .float w, v, bytes, rest, h => by
    cases v <;> simp only [encodeValue] at h <;> try cases h
    split_ifs at h with hn
    cases h
    simp [decodeValue, readNumber_encodeNumber _ _ rest hn]
  | .string, v, bytes, rest, h => by
    cases v <;> simp only [encodeValue] at h <;> try cases h
    simp [decodeValue, readText_encodeText rest h]
  | .aggregate members, v, bytes, rest, h => by
    cases v <;> simp only [encodeValue] at h <;> try cases h
    simp [decodeValue, decodeMembers_encodeMembers members _ bytes rest h]
  | .object, v, bytes, rest, h => by
    cases v <;> simp only [encodeValue] at h <;> try cases h
    simp [decodeValue, readNumber_encodeLength rest h]
  | .sequence element, v, bytes, rest, h => by
    cases v <;> simp only [encodeValue] at h <;> try cases h
    obtain ⟨a, b, ha, hb, rfl⟩ := followedBy_eq_some h
    simp only [decodeValue, List.append_assoc]
    rw [readNumber_encodeLength _ ha]
    simp only
    rw [decodeRepeat_encodeEach _ _ _
      (fun x _ bytes1 rest1 hx => decodeValue_encodeValue element x bytes1 rest1 hx) b rest hb]
  | .map key value, v, bytes, rest, h => by
    cases v <;> simp only [encodeValue] at h <;> try cases h
    obtain ⟨a, b, ha, hb, rfl⟩ := followedBy_eq_some h
    simp only [decodeValue, List.append_assoc]
    rw [readNumber_encodeLength _ ha]
    simp only
    rw [decodeRepeat_encodeEach _ _ _ ?_ b rest hb]
    intro e _ bytes1 rest1 he
    obtain ⟨x, y, hx, hy, rfl⟩ := followedBy_eq_some he
    simp only [decodeEntry, List.append_assoc]
    rw [decodeValue_encodeValue key e.1 x (y ++ rest1) hx]
    simp only
    rw [decodeValue_encodeValue value e.2 y rest1 hy]
/-- Decoding the record of the members of an aggregate yields the members. -/
theorem decodeMembers_encodeMembers : ∀ (members : List (String × TypeDescriptor))
    (values : List Value) (bytes rest : List Nat),
    encodeMembers members values = some bytes →
    decodeMembers members (bytes ++ rest) = some (values, rest)
  | [], values, bytes, rest, h => by
    cases values <;> simp [encodeMembers] at h
    subst h
    rfl
  | (_, d) :: members, values, bytes, rest, h => by
    cases values with
    | nil => simp [encodeMembers] at h
    | cons v values =>
      simp only [encodeMembers] at h
      obtain ⟨a, b, ha, hb, rfl⟩ := followedBy_eq_some h
      simp only [decodeMembers, List.append_assoc]
      rw [decodeValue_encodeValue d v a (b ++ rest) ha]
      simp only
      rw [decodeMembers_encodeMembers members values b rest hb]
end


theorem followedBy_some (x y : List Nat) : followedBy (some x) (some y) = some (x ++ y) := rfl

/-- The elements of a sequence are written when each of them is. -/
theorem encodeEach_isSome {α : Type} (encodeOne : α → Option (List Nat)) (xs : List α)
    (h : ∀ x ∈ xs, ∃ bytes, encodeOne x = some bytes) :
    ∃ bytes, encodeEach encodeOne xs = some bytes := by
  induction xs with
  | nil => exact ⟨[], rfl⟩
  | cons x xs ih =>
    obtain ⟨a, ha⟩ := h x (List.mem_cons_self _ _)
    obtain ⟨b, hb⟩ := ih (fun y hy => h y (List.mem_cons_of_mem _ hy))
    exact ⟨a ++ b, by simp [encodeEach, ha, hb, followedBy]⟩

theorem encodeLength_isSome {n : Nat} (h : n < 256 ^ 4) :
    encodeLength n = some (encodeNumber 4 n) := by
  unfold encodeLength
  rw [if_pos h]

theorem encodeText_isSome {utf8 : List Nat} (h1 : utf8.all (fun b => b < 256) = true)
    (h2 : utf8.length < 256 ^ 4) :
    encodeText utf8 = some (encodeNumber 4 utf8.length ++ utf8) := by
  unfold encodeText
  rw [if_pos h1, encodeLength_isSome h2]
  rfl

mutual
/-- A valid value of a descriptor has a record. -/
theorem encodeValue_of_fits : ∀ (d : TypeDescriptor) (v : Value), fits d v = true →
    ∃ bytes, encodeValue d v = some bytes
  | .integer w, v, h => by
    cases v <;> try (simp [fits] at h; done)
    simp only [fits, decide_eq_true_eq] at h
    exact ⟨_, by simp only [encodeValue]; rw [if_pos h]⟩
  | .boolean, v, h => by
    cases v <;> try (simp [fits] at h; done)
    exact ⟨_, rfl⟩
  | .float w, v, h => by
    cases v <;> try (simp [fits] at h; done)
    simp only [fits, decide_eq_true_eq] at h
    exact ⟨_, by simp only [encodeValue]; rw [if_pos h]⟩
  | .string, v, h => by
    cases v <;> try (simp [fits] at h; done)
    simp only [fits, Bool.and_eq_true, decide_eq_true_eq] at h
    exact ⟨_, by simp only [encodeValue]; exact encodeText_isSome h.1 h.2⟩
  | .aggregate members, v, h => by
    cases v <;> try (simp [fits] at h; done)
    simp only [fits] at h
    simp only [encodeValue]
    exact encodeMembers_of_fits members _ h
  | .object, v, h => by
    cases v <;> try (simp [fits] at h; done)
    simp only [fits, decide_eq_true_eq] at h
    exact ⟨_, by simp only [encodeValue]; exact encodeLength_isSome h⟩
  | .sequence element, v, h => by
    cases v <;> try (simp [fits] at h; done)
    simp only [fits, Bool.and_eq_true, decide_eq_true_eq, List.all_eq_true] at h
    obtain ⟨b, hb⟩ := encodeEach_isSome (encodeValue element) _
      (fun x hx => encodeValue_of_fits element x (h.2 x hx))
    exact ⟨_, by simp only [encodeValue]; rw [encodeLength_isSome h.1, hb]; rfl⟩
  | .map key value, v, h => by
    cases v <;> try (simp [fits] at h; done)
    simp only [fits, Bool.and_eq_true, decide_eq_true_eq, List.all_eq_true] at h
    obtain ⟨b, hb⟩ := encodeEach_isSome
      (fun e : Value × Value => followedBy (encodeValue key e.1) (encodeValue value e.2)) _
      (fun e he => by
        obtain ⟨x, hx⟩ := encodeValue_of_fits key e.1 (h.2 e he).1
        obtain ⟨y, hy⟩ := encodeValue_of_fits value e.2 (h.2 e he).2
        exact ⟨x ++ y, by simp only [hx, hy]; rfl⟩)
    exact ⟨_, by simp only [encodeValue]; rw [encodeLength_isSome h.1, hb]; rfl⟩
/-- Valid members of an aggregate have a record. -/
theorem encodeMembers_of_fits : ∀ (members : List (String × TypeDescriptor))
    (values : List Value), fitsMembers members values = true →
    ∃ bytes, encodeMembers members values = some bytes
  | [], values, h => by
    cases values with
    | nil => exact ⟨[], rfl⟩
    | cons v values => simp [fitsMembers] at h
  | (_, d) :: members, values, h => by
    cases values with
    | nil => simp [fitsMembers] at h
    | cons v values =>
      simp only [fitsMembers, Bool.and_eq_true] at h
      obtain ⟨x, hx⟩ := encodeValue_of_fits d v h.1
      obtain ⟨y, hy⟩ := encodeMembers_of_fits members values h.2
      exact ⟨x ++ y, by simp only [encodeMembers, hx, hy]; rfl⟩
end

open FreezeGenerator

open FreezeGenerator

/-! ### The generated bodies -/

open FreezeGenerator

end Codec

end Slice2FreezeJ
